import Mathlib

/-! # WCNF base features (sat-clique/cnftools, `src/extract/WCNFBaseFeatures.cc`)

A shallow embedding of the two streaming extractors `WCNF::BaseFeatures1` and
`WCNF::BaseFeatures2` and of the composer `WCNF::BaseFeatures`.

Conventions of the embedding.

* The stream reader (`StreamBuffer`) is not part of the sources.  The input is the sequence
  of records the reader delivers to the dispatch at the top of each `while` loop: a comment
  line, a `p wcnf` header (only `top` is read), an `h` clause, or a weighted clause.
* `assert(top == 0)` is modelled as failure: the extractors return `Option`, `none` meaning
  that the assertion was violated.
* Counters are natural numbers and feature values are exact rationals: the casts to `double`
  are read as the exact embedding, and wrap-around of the machine counters is not modelled.
* Vectors are lists; reading outside a vector yields `0` and writing outside it does nothing
  (`List.getD`, `List.set`).  The reader ends a clause at the token `0`, so the literals it
  delivers have variable ids `>= 1`.
* `push_distribution` is not part of the sources: the extractors take the summarizer as the
  parameter `dist`, and `summarize` is its model after the specification.
-/

namespace WCNF

/-! ## Literals, clauses, input records -/

/-- Modelled from the spec: the literal type `Lit`, a (variable, polarity) pair whose polarity
`true` means negated.  Its declaration is not among the sources. -/
structure Lit where
  var : Nat
  sign : Bool
deriving DecidableEq, Repr

/-- Modelled from the spec: the slot of a literal in the occurrence table, `2 * var + polarity`
(the conversion of a `Lit` to an index, used by `literal_occurrences[lit]`). -/
def Lit.index (l : Lit) : Nat :=
  2 * l.var + (if l.sign then 1 else 0)

/-- Modelled from the spec: a literal token is a nonzero signed integer, the sign encodes the
polarity and the magnitude the variable id. -/
def Lit.ofInt (i : Int) : Lit :=
  ⟨i.natAbs, decide (i < 0)⟩

/-- The clause type `Cl`: the literals read up to the terminating `0`. -/
abbrev Cl := List Lit

/-- One record of the input, as seen by the dispatch on the first character of a line. -/
inductive Line where
  | comment : Line
  | header (top : Nat) : Line
  | hard (clause : Cl) : Line
  | weighted (weight : Nat) (clause : Cl) : Line
deriving DecidableEq, Repr

/-! ## Vector helpers -/

/-- The effect of `std::vector::resize(n)`: keep the first `n` entries, fill up with zeros. -/
def resize (xs : List Nat) (n : Nat) : List Nat :=
  xs.take n ++ List.replicate (n - xs.length) 0

/-- The effect of `xs[i] += k` (`++xs[i]` for `k = 1`). -/
def bump (xs : List Nat) (i k : Nat) : List Nat :=
  xs.set i (xs.getD i 0 + k)

/-- The bucket chosen by `if (clause.size() < 10) ... [clause.size()] else ... [10]`. -/
def bucket (size : Nat) : Nat :=
  if size < 10 then size else 10

/-- The value `(double)std::min(a, b) / (double)std::max(a, b)`, as an exact rational. -/
def balance (a b : Nat) : ℚ :=
  ((min a b : Nat) : ℚ) / ((max a b : Nat) : ℚ)

/-! ## BaseFeatures1 -/

/-- The counters and tables of `WCNF::BaseFeatures1`. -/
structure BaseFeatures1 where
  n_vars : Nat
  n_hard_clauses : Nat
  n_soft_clauses : Nat
  weight_sum : Nat
  hard_clause_sizes : List Nat
  soft_clause_sizes : List Nat
  horn : Nat
  inv_horn : Nat
  positive : Nat
  negative : Nat
  variable_horn : List Nat
  variable_inv_horn : List Nat
  balance_clause : List ℚ
  balance_variable : List ℚ
  literal_occurrences : List Nat
  weights : List Nat

/-- The state after the constructor: all counters zero, both histograms `fill(0)` of size 11. -/
def BaseFeatures1.init : BaseFeatures1 where
  n_vars := 0
  n_hard_clauses := 0
  n_soft_clauses := 0
  weight_sum := 0
  hard_clause_sizes := List.replicate 11 0
  soft_clause_sizes := List.replicate 11 0
  horn := 0
  inv_horn := 0
  positive := 0
  negative := 0
  variable_horn := []
  variable_inv_horn := []
  balance_clause := []
  balance_variable := []
  literal_occurrences := []
  weights := []

/-- One iteration of the loop of lines 66-73: grow the tables when a larger variable shows. -/
def BaseFeatures1.growLit (s : BaseFeatures1) (lit : Lit) : BaseFeatures1 :=
  if lit.var > s.n_vars then
    { s with
      n_vars := lit.var
      variable_horn := resize s.variable_horn (lit.var + 1)
      variable_inv_horn := resize s.variable_inv_horn (lit.var + 1)
      literal_occurrences := resize s.literal_occurrences (2 * lit.var + 2) }
  else s

/-- The loop of lines 66-73 over the clause. -/
def BaseFeatures1.grow (s : BaseFeatures1) (clause : Cl) : BaseFeatures1 :=
  clause.foldl BaseFeatures1.growLit s

/-- The number of negative literals, `n_neg` of lines 85-90. -/
def n_neg (clause : Cl) : Nat :=
  clause.countP (fun lit => lit.sign)

/-- The number of positive literals, `n_pos = clause.size() - n_neg` of line 93. -/
def n_pos (clause : Cl) : Nat :=
  clause.length - n_neg clause

/-- The table after `++table[lit]` for every literal of the clause (line 89). -/
def countLits (table : List Nat) (clause : Cl) : List Nat :=
  clause.foldl (fun t lit => bump t lit.index 1) table

/-- The table after `++table[lit.var()]` for every literal of the clause (lines 97-99, 104-106). -/
def countVars (table : List Nat) (clause : Cl) : List Nat :=
  clause.foldl (fun t lit => bump t lit.var 1) table

/-- The hard branch, lines 77-112. -/
def BaseFeatures1.recordHard (s : BaseFeatures1) (clause : Cl) : BaseFeatures1 :=
  { s with
    n_hard_clauses := s.n_hard_clauses + 1
    hard_clause_sizes := bump s.hard_clause_sizes (bucket clause.length) 1
    literal_occurrences := countLits s.literal_occurrences clause
    positive := if n_neg clause ≤ 1 ∧ n_neg clause = 0 then s.positive + 1 else s.positive
    horn := if n_neg clause ≤ 1 then s.horn + 1 else s.horn
    variable_horn :=
      if n_neg clause ≤ 1 then countVars s.variable_horn clause else s.variable_horn
    negative := if n_pos clause ≤ 1 ∧ n_pos clause = 0 then s.negative + 1 else s.negative
    inv_horn := if n_pos clause ≤ 1 then s.inv_horn + 1 else s.inv_horn
    variable_inv_horn :=
      if n_pos clause ≤ 1 then countVars s.variable_inv_horn clause else s.variable_inv_horn
    balance_clause :=
      if clause.length > 0 then s.balance_clause ++ [balance (n_pos clause) (n_neg clause)]
      else s.balance_clause }

/-- The soft branch, lines 114-123. -/
def BaseFeatures1.recordSoft (s : BaseFeatures1) (weight : Nat) (clause : Cl) : BaseFeatures1 :=
  { s with
    n_soft_clauses := s.n_soft_clauses + 1
    weight_sum := s.weight_sum + weight
    soft_clause_sizes := bump s.soft_clause_sizes (bucket clause.length) 1
    weights := s.weights ++ [weight] }

/-- Lines 66-124: what one clause with the (already adjusted) `weight` does to the state. -/
def BaseFeatures1.record (s : BaseFeatures1) (weight : Nat) (clause : Cl) : BaseFeatures1 :=
  if weight = 0 then (s.grow clause).recordHard clause
  else (s.grow clause).recordSoft weight clause

/-- The weight after lines 58-62: a weight of at least a nonzero `top` is reset to `0`. -/
def adjust (top weight : Nat) : Nat :=
  if top > 0 ∧ weight ≥ top then 0 else weight

/-- The `while` loop of lines 34-125; `none` when `assert(top == 0)` fails.  The variable
`weight` is assigned in both clause branches before it is read, so it is not threaded. -/
def BaseFeatures1.loop : List Line → Nat → BaseFeatures1 → Option BaseFeatures1
  | [], _, s => some s
  | Line.comment :: rest, top, s => BaseFeatures1.loop rest top s
  | Line.header t :: rest, _, s => BaseFeatures1.loop rest t s
  | Line.hard clause :: rest, top, s =>
      if top = 0 then BaseFeatures1.loop rest top (s.record 0 clause) else none
  | Line.weighted weight clause :: rest, top, s =>
      BaseFeatures1.loop rest top (s.record (adjust top weight) clause)

/-- The entry pushed for variable `v` by lines 128-134, if any. -/
def variableBalance (occ : List Nat) (v : Nat) : Option ℚ :=
  let pos : ℚ := ((occ.getD (Lit.index ⟨v, false⟩) 0 : Nat) : ℚ)
  let neg : ℚ := ((occ.getD (Lit.index ⟨v, true⟩) 0 : Nat) : ℚ)
  if max pos neg > 0 then some (min pos neg / max pos neg) else none

/-- Lines 127-134: the loop `for (unsigned v = 0; v < n_vars; v++)`. -/
def BaseFeatures1.finish (s : BaseFeatures1) : BaseFeatures1 :=
  { s with
    balance_variable :=
      s.balance_variable ++
        (List.range s.n_vars).filterMap (variableBalance s.literal_occurrences) }

/-- The state of `BaseFeatures1` at the call of `load_feature_record` (line 136). -/
def BaseFeatures1.extract (input : List Line) : Option BaseFeatures1 :=
  (BaseFeatures1.loop input 0 BaseFeatures1.init).map BaseFeatures1.finish

/-- The cast `(double)` of a vector of counters, entry by entry. -/
def toQ (xs : List Nat) : List ℚ :=
  xs.map (fun (x : Nat) => (x : ℚ))

/-- The entries `xs[1], ..., xs[10]` pushed by `for (unsigned i = 1; i < 11; ++i)`. -/
def buckets (xs : List Nat) : List ℚ :=
  (List.range 10).map (fun i => ((xs.getD (i + 1) 0 : Nat) : ℚ))

/-- The record written by `load_feature_record` (lines 139-154) into the empty `features`. -/
def BaseFeatures1.load_feature_record (dist : List ℚ → List ℚ) (s : BaseFeatures1) : List ℚ :=
  [(s.n_hard_clauses : ℚ), (s.n_vars : ℚ)]
    ++ buckets s.hard_clause_sizes
    ++ [(s.horn : ℚ), (s.inv_horn : ℚ), (s.positive : ℚ), (s.negative : ℚ)]
    ++ dist (toQ s.variable_horn)
    ++ dist (toQ s.variable_inv_horn)
    ++ dist s.balance_clause
    ++ dist s.balance_variable
    ++ [(s.n_soft_clauses : ℚ), (s.weight_sum : ℚ)]
    ++ buckets s.soft_clause_sizes
    ++ dist (toQ s.weights)

/-- The names pushed by the constructor of `BaseFeatures1` (lines 14-23). -/
def BaseFeatures1.names : List String :=
  ["h_clauses", "variables"]
    ++ ["h_cls1", "h_cls2", "h_cls3", "h_cls4", "h_cls5", "h_cls6", "h_cls7", "h_cls8",
        "h_cls9", "h_cls10p"]
    ++ ["h_horn", "h_invhorn", "h_positive", "h_negative"]
    ++ ["h_hornvars_mean", "h_hornvars_variance", "h_hornvars_min", "h_hornvars_max",
        "h_hornvars_entropy"]
    ++ ["h_invhornvars_mean", "h_invhornvars_variance", "h_invhornvars_min",
        "h_invhornvars_max", "h_invhornvars_entropy"]
    ++ ["h_balancecls_mean", "h_balancecls_variance", "h_balancecls_min", "h_balancecls_max",
        "h_balancecls_entropy"]
    ++ ["h_balancevars_mean", "h_balancevars_variance", "h_balancevars_min",
        "h_balancevars_max", "h_balancevars_entropy"]
    ++ ["s_clauses", "s_weight_sum"]
    ++ ["s_cls1", "s_cls2", "s_cls3", "s_cls4", "s_cls5", "s_cls6", "s_cls7", "s_cls8",
        "s_cls9", "s_cls10p"]
    ++ ["s_weight_mean", "s_weight_variance", "s_weight_min", "s_weight_max",
        "s_weight_entropy"]

/-- The value list of `BaseFeatures1` after `extract()`. -/
def BaseFeatures1.getFeatures (dist : List ℚ → List ℚ) (input : List Line) : Option (List ℚ) :=
  (BaseFeatures1.extract input).map (BaseFeatures1.load_feature_record dist)

/-! ## BaseFeatures2 -/

/-- The counters and tables of `WCNF::BaseFeatures2`. -/
structure BaseFeatures2 where
  n_vars : Nat
  vcg_vdegree : List Nat
  vcg_cdegree : List Nat
  vg_degree : List Nat
  clause_degree : List Nat
deriving DecidableEq, Repr

/-- The state after the constructor. -/
def BaseFeatures2.init : BaseFeatures2 where
  n_vars := 0
  vcg_vdegree := []
  vcg_cdegree := []
  vg_degree := []
  clause_degree := []

/-- The test of line 218, `(!top && !weight) || weight >= top`. -/
def countsAsHard (top weight : Nat) : Bool :=
  (top == 0 && weight == 0) || decide (weight ≥ top)

/-- One iteration of the loop of lines 209-222, for a clause of the given `size`. -/
def BaseFeatures2.visit (top weight size : Nat) (s : BaseFeatures2) (lit : Lit) :
    BaseFeatures2 :=
  let s1 : BaseFeatures2 :=
    if lit.var > s.n_vars then
      { s with
        n_vars := lit.var
        vcg_vdegree := resize s.vcg_vdegree (lit.var + 1)
        vg_degree := resize s.vg_degree (lit.var + 1) }
    else s
  if countsAsHard top weight then
    { s1 with
      vcg_vdegree := bump s1.vcg_vdegree lit.var 1
      vg_degree := bump s1.vg_degree lit.var size }
  else s1

/-- Lines 207-222: what one clause does to the state in pass 1. -/
def BaseFeatures2.record (top weight : Nat) (s : BaseFeatures2) (clause : Cl) : BaseFeatures2 :=
  clause.foldl (BaseFeatures2.visit top weight clause.length)
    { s with vcg_cdegree := s.vcg_cdegree ++ [clause.length] }

/-- The first `while` loop (lines 179-223); it returns the final `top` together with the
state, `none` when `assert(top == 0)` fails. -/
def BaseFeatures2.pass1 : List Line → Nat → BaseFeatures2 → Option (Nat × BaseFeatures2)
  | [], top, s => some (top, s)
  | Line.comment :: rest, top, s => BaseFeatures2.pass1 rest top s
  | Line.header t :: rest, _, s => BaseFeatures2.pass1 rest t s
  | Line.hard clause :: rest, top, s =>
      if top = 0 then BaseFeatures2.pass1 rest top (s.record top 0 clause) else none
  | Line.weighted weight clause :: rest, top, s =>
      BaseFeatures2.pass1 rest top (s.record top weight clause)

/-- The value of `degree` after lines 242-245. -/
def clauseDegree (vcg_vdegree : List Nat) (clause : Cl) : Nat :=
  clause.foldl (fun degree lit => degree + vcg_vdegree.getD lit.var 0) 0

/-- The second `while` loop (lines 227-247), run with the `top` left by the first one. -/
def BaseFeatures2.pass2 (top : Nat) : List Line → BaseFeatures2 → Option BaseFeatures2
  | [], s => some s
  | Line.comment :: rest, s => BaseFeatures2.pass2 top rest s
  | Line.header _ :: rest, s => BaseFeatures2.pass2 top rest s
  | Line.hard clause :: rest, s =>
      if top = 0 then
        BaseFeatures2.pass2 top rest
          { s with clause_degree := s.clause_degree ++ [clauseDegree s.vcg_vdegree clause] }
      else none
  | Line.weighted weight clause :: rest, s =>
      if top = 0 ∨ weight < top then BaseFeatures2.pass2 top rest s
      else
        BaseFeatures2.pass2 top rest
          { s with clause_degree := s.clause_degree ++ [clauseDegree s.vcg_vdegree clause] }

/-- The state of `BaseFeatures2` at the call of `load_feature_records` (line 249). -/
def BaseFeatures2.extract (input : List Line) : Option BaseFeatures2 :=
  match BaseFeatures2.pass1 input 0 BaseFeatures2.init with
  | none => none
  | some (top, s) => BaseFeatures2.pass2 top input s

/-- The record written by `load_feature_records` (lines 252-257) into the empty `features`. -/
def BaseFeatures2.load_feature_records (dist : List ℚ → List ℚ) (s : BaseFeatures2) : List ℚ :=
  dist (toQ s.vcg_vdegree)
    ++ dist (toQ s.vcg_cdegree)
    ++ dist (toQ s.vg_degree)
    ++ dist (toQ s.clause_degree)

/-- The names pushed by the constructor of `BaseFeatures2` (lines 165-168). -/
def BaseFeatures2.names : List String :=
  ["h_vcg_vdegree_mean", "h_vcg_vdegree_variance", "h_vcg_vdegree_min", "h_vcg_vdegree_max",
    "h_vcg_vdegree_entropy"]
    ++ ["h_vcg_cdegree_mean", "h_vcg_cdegree_variance", "h_vcg_cdegree_min",
        "h_vcg_cdegree_max", "h_vcg_cdegree_entropy"]
    ++ ["h_vg_degree_mean", "h_vg_degree_variance", "h_vg_degree_min", "h_vg_degree_max",
        "h_vg_degree_entropy"]
    ++ ["h_cg_degree_mean", "h_cg_degree_variance", "h_cg_degree_min", "h_cg_degree_max",
        "h_cg_degree_entropy"]

/-- The value list of `BaseFeatures2` after `extract()`. -/
def BaseFeatures2.getFeatures (dist : List ℚ → List ℚ) (input : List Line) : Option (List ℚ) :=
  (BaseFeatures2.extract input).map (BaseFeatures2.load_feature_records dist)

/-! ## The composer -/

/-- The name list built by the constructor of `BaseFeatures` (lines 267-274). -/
def BaseFeatures.names : List String :=
  BaseFeatures1.names ++ BaseFeatures2.names

/-- The value list after `BaseFeatures::extract()` (lines 278-295): the features of the first
extractor followed by those of the second; `none` when either run is aborted. -/
def BaseFeatures.extract (dist : List ℚ → List ℚ) (input : List Line) : Option (List ℚ) :=
  match BaseFeatures1.getFeatures dist input with
  | none => none
  | some feat1 =>
    match BaseFeatures2.getFeatures dist input with
    | none => none
    | some feat2 => some (feat1 ++ feat2)

/-! ## The summarizer, after the specification -/

/-- Modelled from the spec: the Distribution Summarizer behind `push_distribution`, which is
not among the sources.  Five values in the order mean, population variance, minimum, maximum,
entropy; all five are `0` for the empty sequence and the entropy is `0` when the sum is `0`.
The entropy of a sequence with nonzero sum involves a logarithm and is left to `entropy`. -/
def summarize (entropy : List ℚ → ℚ) : List ℚ → List ℚ
  | [] => [0, 0, 0, 0, 0]
  | x :: xs =>
      let n : ℚ := ((x :: xs).length : ℚ)
      let mean : ℚ := (x :: xs).sum / n
      [mean,
       ((x :: xs).map (fun y => (y - mean) ^ 2)).sum / n,
       xs.foldl min x,
       xs.foldl max x,
       if (x :: xs).sum = 0 then 0 else entropy (x :: xs)]

/-! ## The input as the extractors read it -/

/-- The clauses of the input in encounter order, each with the weight under which the first
extractor records it: `0` for a hard clause (an `h` clause, or a weighted clause whose weight
is `0` or reaches a nonzero `top`), the declared weight for a soft clause. -/
def records : List Line → Nat → List (Nat × Cl)
  | [], _ => []
  | Line.comment :: rest, top => records rest top
  | Line.header t :: rest, _ => records rest t
  | Line.hard clause :: rest, top => (0, clause) :: records rest top
  | Line.weighted weight clause :: rest, top => (adjust top weight, clause) :: records rest top

/-- No `h` clause is met while a nonzero `top` is in force. -/
def markersOK : List Line → Nat → Bool
  | [], _ => true
  | Line.comment :: rest, top => markersOK rest top
  | Line.header t :: rest, _ => markersOK rest t
  | Line.hard _ :: rest, top => decide (top = 0) && markersOK rest top
  | Line.weighted _ _ :: rest, top => markersOK rest top

/-- The value of `top` at the end of the stream. -/
def finalTop : List Line → Nat → Nat
  | [], top => top
  | Line.header t :: rest, _ => finalTop rest t
  | _ :: rest, top => finalTop rest top

/-- The hard clauses among recorded clauses. -/
def hardOf (rs : List (Nat × Cl)) : List Cl :=
  rs.filterMap (fun r => if r.1 = 0 then some r.2 else none)

/-- The soft clauses among recorded clauses, with their weights. -/
def softOf (rs : List (Nat × Cl)) : List (Nat × Cl) :=
  rs.filter (fun r => r.1 ≠ 0)

/-- The hard clauses of an input, in encounter order. -/
def hardClauses (input : List Line) : List Cl :=
  hardOf (records input 0)

/-- The soft clauses of an input with their weights, in encounter order. -/
def softClauses (input : List Line) : List (Nat × Cl) :=
  softOf (records input 0)

/-- The first extractor run over recorded clauses. -/
def BaseFeatures1.run (s : BaseFeatures1) (rs : List (Nat × Cl)) : BaseFeatures1 :=
  rs.foldl (fun t r => t.record r.1 r.2) s

/-- The clauses of the input in encounter order as pass 1 of the second extractor meets them:
the `top` in force, the declared weight (`0` for an `h` clause) and the literals. -/
def records2 : List Line → Nat → List (Nat × Nat × Cl)
  | [], _ => []
  | Line.comment :: rest, top => records2 rest top
  | Line.header t :: rest, _ => records2 rest t
  | Line.hard clause :: rest, top => (top, 0, clause) :: records2 rest top
  | Line.weighted weight clause :: rest, top => (top, weight, clause) :: records2 rest top

/-- Pass 1 of the second extractor run over the clauses it meets. -/
def BaseFeatures2.run (s : BaseFeatures2) (rs : List (Nat × Nat × Cl)) : BaseFeatures2 :=
  rs.foldl (fun t r => t.record r.1 r.2.1 r.2.2) s

/-- The input holds an `h` clause. -/
def hasMarker : List Line → Bool
  | [] => false
  | Line.hard _ :: _ => true
  | _ :: rest => hasMarker rest

/-- The clauses that pass 2 does not skip when it runs with `top`. -/
def hard2 (top : Nat) : List Line → List Cl
  | [] => []
  | Line.comment :: rest => hard2 top rest
  | Line.header _ :: rest => hard2 top rest
  | Line.hard clause :: rest => clause :: hard2 top rest
  | Line.weighted weight clause :: rest =>
      if top = 0 ∨ weight < top then hard2 top rest else clause :: hard2 top rest

/-- The state after pass 2 has pushed the degrees of the given clauses. -/
def BaseFeatures2.addDegrees (s : BaseFeatures2) (cs : List Cl) : BaseFeatures2 :=
  { s with clause_degree := s.clause_degree ++ cs.map (clauseDegree s.vcg_vdegree) }

/-- None of the three loops violates `assert(top == 0)`. -/
def assertionsHold (input : List Line) : Bool :=
  markersOK input 0 && (decide (finalTop input 0 = 0) || !hasMarker input)

/-- There is no header line. -/
def noHeader : List Line → Bool
  | [] => true
  | Line.header _ :: _ => false
  | _ :: rest => noHeader rest

/-- Header lines come before every clause line. -/
def headersFirst : List Line → Bool
  | [] => true
  | Line.comment :: rest => headersFirst rest
  | Line.header _ :: rest => headersFirst rest
  | _ :: rest => noHeader rest

/-! ## Notions used to state the properties -/

/-- The value listed under `name` when `names` and `values` are read side by side. -/
def feature (names : List String) (values : List ℚ) (name : String) : Option ℚ :=
  (names.zip values).lookup name

/-- The number of positive literals of a clause, counted directly. -/
def positiveLits (clause : Cl) : Nat :=
  clause.countP (fun lit => !lit.sign)

/-- The number of negative literals of a clause, counted directly. -/
def negativeLits (clause : Cl) : Nat :=
  clause.countP (fun lit => lit.sign)

/-- A Horn clause in the sense of the glossary: at most one positive literal. -/
def isHornClause (clause : Cl) : Bool :=
  decide (positiveLits clause ≤ 1)

/-- An inverse-Horn clause in the sense of the glossary: at most one negative literal. -/
def isInvHornClause (clause : Cl) : Bool :=
  decide (negativeLits clause ≤ 1)

/-- A summarizer used for concrete runs: the model after the specification, with the entropy
of a sequence of nonzero sum set to `0`. -/
def summarize0 : List ℚ → List ℚ :=
  summarize (fun _ => 0)

/-- The legacy encoding of weighted clauses under `top`: the header `p wcnf _ _ top`, then
every clause as `<weight> lits 0`. -/
def legacyEncoding (top : Nat) (clauses : List (Nat × Cl)) : List Line :=
  Line.header top :: clauses.map (fun wc => Line.weighted wc.1 wc.2)

/-- The new-format encoding of the same instance: no header, every clause of weight at least
`top` as `h lits 0`, every other clause with its weight. -/
def newEncoding (top : Nat) (clauses : List (Nat × Cl)) : List Line :=
  clauses.map (fun wc => if wc.1 ≥ top then Line.hard wc.2 else Line.weighted wc.1 wc.2)

/-- The hard clauses of a file whose header declares the threshold `top` (`0` when there is no
header), after the wire format of the specification: an `h` line is a hard clause, and a
weighted line is a hard clause iff `top > 0` and `weight >= top`. -/
def hardLines (top : Nat) : List Line → List Cl
  | [] => []
  | Line.hard clause :: rest => clause :: hardLines top rest
  | Line.weighted weight clause :: rest =>
      if 0 < top ∧ top ≤ weight then clause :: hardLines top rest else hardLines top rest
  | _ :: rest => hardLines top rest

/-- Every weighted clause line declares a positive weight. -/
def positiveWeights : List Line → Bool
  | [] => true
  | Line.weighted weight _ :: rest => decide (0 < weight) && positiveWeights rest
  | _ :: rest => positiveWeights rest

/-- The clause sizes that belong to bucket `k`: size exactly `k` for `k < 10`, size at least
`10` for the last bucket. -/
def inBucket (k size : Nat) : Bool :=
  if k < 10 then size == k else decide (10 ≤ size)

/-- The input has no clause line: it consists of comment and header lines only. -/
def noClauses : List Line → Bool
  | [] => true
  | Line.comment :: rest => noClauses rest
  | Line.header _ :: rest => noClauses rest
  | _ :: _ => false

/-- A sample input: a hard clause of size 15, a hard unit clause, a soft clause of size 2 and
an empty soft clause. -/
def sampleSizes : List Line :=
  [Line.hard ((List.range 15).map (fun i => Lit.ofInt (Int.ofNat (i + 1)))),
   Line.hard [Lit.ofInt 3], Line.weighted 4 [Lit.ofInt 1, Lit.ofInt (-2)], Line.weighted 1 []]

/-- A sample input in the legacy format: `p wcnf 2 3 5`, `5 1 -2 0`, `2 1 0`, `7 2 0`. -/
def sampleLegacy : List Line :=
  [Line.header 5, Line.weighted 5 [Lit.ofInt 1, Lit.ofInt (-2)],
   Line.weighted 2 [Lit.ofInt 1], Line.weighted 7 [Lit.ofInt 2]]

/-- A sample input: a hard clause and soft clauses of weights 2, 2 and 4. -/
def sampleWeights : List Line :=
  [Line.weighted 2 [Lit.ofInt 1], Line.hard [Lit.ofInt 1, Lit.ofInt 2],
   Line.weighted 2 [Lit.ofInt (-2)], Line.weighted 4 [Lit.ofInt 1, Lit.ofInt (-3)]]

/-! ## Clauses, variables and table sizes -/

/-- All clauses of the input, hard and soft alike, in encounter order. -/
def clauses : List Line → List Cl
  | [] => []
  | Line.hard clause :: rest => clause :: clauses rest
  | Line.weighted _ clause :: rest => clause :: clauses rest
  | _ :: rest => clauses rest

/-- The largest variable id among the given literals, `0` when there is none. -/
def maxVarLits (lits : List Lit) : Nat :=
  (lits.map (fun lit => lit.var)).foldr max 0

/-- The largest variable id occurring in any literal of any of the given clauses. -/
def maxVar (cs : List Cl) : Nat :=
  maxVarLits cs.flatten

/-- Every literal of every clause has a variable id of at least 1, as the reader delivers. -/
def varsPositive (cs : List Cl) : Prop :=
  ∀ c ∈ cs, ∀ lit ∈ c, 1 ≤ lit.var

/-- The length of a per-variable table once the largest variable seen is `n`. -/
def tableLen (n : Nat) : Nat :=
  if n = 0 then 0 else n + 1

/-- The length of the literal occurrence table once the largest variable seen is `n`. -/
def occLen (n : Nat) : Nat :=
  if n = 0 then 0 else 2 * n + 2

/-- The tables of the first extractor have the lengths that belong to `n_vars`. -/
def Sized1 (s : BaseFeatures1) : Prop :=
  s.variable_horn.length = tableLen s.n_vars ∧
  s.variable_inv_horn.length = tableLen s.n_vars ∧
  s.literal_occurrences.length = occLen s.n_vars

/-- The tables of the second extractor have the length that belongs to `n_vars`. -/
def Sized2 (s : BaseFeatures2) : Prop :=
  s.vcg_vdegree.length = tableLen s.n_vars ∧ s.vg_degree.length = tableLen s.n_vars

/-- The first half of one iteration of lines 209-222: the resize of lines 211-215. -/
def BaseFeatures2.resized (s : BaseFeatures2) (lit : Lit) : BaseFeatures2 :=
  if lit.var > s.n_vars then
    { s with
      n_vars := lit.var
      vcg_vdegree := resize s.vcg_vdegree (lit.var + 1)
      vg_degree := resize s.vg_degree (lit.var + 1) }
  else s

/-- The second half of one iteration of lines 209-222: the counting of lines 218-221. -/
def BaseFeatures2.counted (top weight size : Nat) (s : BaseFeatures2) (lit : Lit) :
    BaseFeatures2 :=
  if countsAsHard top weight then
    { s with
      vcg_vdegree := bump s.vcg_vdegree lit.var 1
      vg_degree := bump s.vg_degree lit.var size }
  else s

/-- The five values of a summarized sequence under the names `<tag>_mean`, `<tag>_variance`,
`<tag>_min`, `<tag>_max` and `<tag>_entropy`, in this order. -/
def namedDist (tag : String) (five : List ℚ) : List (String × ℚ) :=
  [(tag ++ "_mean", five.getD 0 0), (tag ++ "_variance", five.getD 1 0),
   (tag ++ "_min", five.getD 2 0), (tag ++ "_max", five.getD 3 0),
   (tag ++ "_entropy", five.getD 4 0)]

/-- The buckets 1 to 10 of a size histogram under the names `<tag>1`, ..., `<tag>9`,
`<tag>10p`. -/
def namedBuckets (tag : String) (xs : List Nat) : List (String × ℚ) :=
  [(tag ++ "1", ((xs.getD 1 0 : Nat) : ℚ)), (tag ++ "2", ((xs.getD 2 0 : Nat) : ℚ)),
   (tag ++ "3", ((xs.getD 3 0 : Nat) : ℚ)), (tag ++ "4", ((xs.getD 4 0 : Nat) : ℚ)),
   (tag ++ "5", ((xs.getD 5 0 : Nat) : ℚ)), (tag ++ "6", ((xs.getD 6 0 : Nat) : ℚ)),
   (tag ++ "7", ((xs.getD 7 0 : Nat) : ℚ)), (tag ++ "8", ((xs.getD 8 0 : Nat) : ℚ)),
   (tag ++ "9", ((xs.getD 9 0 : Nat) : ℚ)), (tag ++ "10p", ((xs.getD 10 0 : Nat) : ℚ))]

/-- The quantities of the first extractor, each under its name, in the order of the output
ordering of the specification. -/
def namedRecord1 (dist : List ℚ → List ℚ) (s : BaseFeatures1) : List (String × ℚ) :=
  [("h_clauses", (s.n_hard_clauses : ℚ)), ("variables", (s.n_vars : ℚ))]
    ++ namedBuckets "h_cls" s.hard_clause_sizes
    ++ [("h_horn", (s.horn : ℚ)), ("h_invhorn", (s.inv_horn : ℚ)),
        ("h_positive", (s.positive : ℚ)), ("h_negative", (s.negative : ℚ))]
    ++ namedDist "h_hornvars" (dist (toQ s.variable_horn))
    ++ namedDist "h_invhornvars" (dist (toQ s.variable_inv_horn))
    ++ namedDist "h_balancecls" (dist s.balance_clause)
    ++ namedDist "h_balancevars" (dist s.balance_variable)
    ++ [("s_clauses", (s.n_soft_clauses : ℚ)), ("s_weight_sum", (s.weight_sum : ℚ))]
    ++ namedBuckets "s_cls" s.soft_clause_sizes
    ++ namedDist "s_weight" (dist (toQ s.weights))

/-- The quantities of the second extractor, each under its name, in the order of the output
ordering of the specification; `h_cg_degree` is the name of the `clause_degree` statistics. -/
def namedRecord2 (dist : List ℚ → List ℚ) (s : BaseFeatures2) : List (String × ℚ) :=
  namedDist "h_vcg_vdegree" (dist (toQ s.vcg_vdegree))
    ++ namedDist "h_vcg_cdegree" (dist (toQ s.vcg_cdegree))
    ++ namedDist "h_vg_degree" (dist (toQ s.vg_degree))
    ++ namedDist "h_cg_degree" (dist (toQ s.clause_degree))

/-- The number of weighted clause lines whose declared weight is `0`. -/
def zeroWeightLines : List Line → Nat
  | [] => 0
  | Line.weighted weight _ :: rest =>
      (if weight = 0 then 1 else 0) + zeroWeightLines rest
  | _ :: rest => zeroWeightLines rest

/-! ## Lemmas about the loops -/

theorem BaseFeatures1.loop_eq (input : List Line) (top : Nat) (s : BaseFeatures1) :
    BaseFeatures1.loop input top s =
      if markersOK input top then some (s.run (records input top)) else none := by
  induction input generalizing top s with
  | nil => simp [BaseFeatures1.loop, markersOK, records, BaseFeatures1.run]
  | cons l rest ih =>
    cases l with
    | comment => simp [BaseFeatures1.loop, markersOK, records, ih]
    | header t => simp [BaseFeatures1.loop, markersOK, records, ih]
    | hard c =>
      by_cases h : top = 0
      · simp [BaseFeatures1.loop, markersOK, records, ih, h, BaseFeatures1.run]
      · simp [BaseFeatures1.loop, markersOK, records, h]
    | weighted w c => simp [BaseFeatures1.loop, markersOK, records, ih, BaseFeatures1.run]

theorem BaseFeatures1.growLit_fields (s : BaseFeatures1) (lit : Lit) :
    (s.growLit lit).n_hard_clauses = s.n_hard_clauses ∧
    (s.growLit lit).n_soft_clauses = s.n_soft_clauses ∧
    (s.growLit lit).weight_sum = s.weight_sum ∧
    (s.growLit lit).hard_clause_sizes = s.hard_clause_sizes ∧
    (s.growLit lit).soft_clause_sizes = s.soft_clause_sizes ∧
    (s.growLit lit).horn = s.horn ∧
    (s.growLit lit).inv_horn = s.inv_horn ∧
    (s.growLit lit).positive = s.positive ∧
    (s.growLit lit).negative = s.negative ∧
    (s.growLit lit).balance_clause = s.balance_clause ∧
    (s.growLit lit).balance_variable = s.balance_variable ∧
    (s.growLit lit).weights = s.weights := by
  unfold BaseFeatures1.growLit
  split <;> simp

theorem BaseFeatures1.grow_fields (s : BaseFeatures1) (clause : Cl) :
    (s.grow clause).n_hard_clauses = s.n_hard_clauses ∧
    (s.grow clause).n_soft_clauses = s.n_soft_clauses ∧
    (s.grow clause).weight_sum = s.weight_sum ∧
    (s.grow clause).hard_clause_sizes = s.hard_clause_sizes ∧
    (s.grow clause).soft_clause_sizes = s.soft_clause_sizes ∧
    (s.grow clause).horn = s.horn ∧
    (s.grow clause).inv_horn = s.inv_horn ∧
    (s.grow clause).positive = s.positive ∧
    (s.grow clause).negative = s.negative ∧
    (s.grow clause).balance_clause = s.balance_clause ∧
    (s.grow clause).balance_variable = s.balance_variable ∧
    (s.grow clause).weights = s.weights := by
  induction clause generalizing s with
  | nil => simp [BaseFeatures1.grow]
  | cons lit rest ih =>
    have h1 := BaseFeatures1.growLit_fields s lit
    have h2 := ih (s.growLit lit)
    simp only [BaseFeatures1.grow, List.foldl_cons] at h2 ⊢
    obtain ⟨a1, a2, a3, a4, a5, a6, a7, a8, a9, a10, a11, a12⟩ := h1
    obtain ⟨b1, b2, b3, b4, b5, b6, b7, b8, b9, b10, b11, b12⟩ := h2
    exact ⟨b1.trans a1, b2.trans a2, b3.trans a3, b4.trans a4, b5.trans a5, b6.trans a6,
      b7.trans a7, b8.trans a8, b9.trans a9, b10.trans a10, b11.trans a11, b12.trans a12⟩

theorem bump_length (xs : List Nat) (i k : Nat) : (bump xs i k).length = xs.length := by
  simp [bump]

theorem bump_getD (xs : List Nat) (i k j : Nat) :
    (bump xs i k).getD j 0 = xs.getD j 0 + (if j = i ∧ i < xs.length then k else 0) := by
  unfold bump
  by_cases hji : j = i
  · subst hji
    by_cases hlt : j < xs.length
    · simp [List.getD_eq_getElem?_getD, List.getElem?_set, hlt]
    · have hge : xs.length ≤ j := Nat.le_of_not_lt hlt
      simp [List.getD_eq_getElem?_getD, List.getElem?_set, hlt, List.getElem?_eq_none hge]
  · have hij : ¬ i = j := fun h => hji h.symm
    simp [List.getD_eq_getElem?_getD, List.getElem?_set, hji, hij]

theorem BaseFeatures1.record_counts (s : BaseFeatures1) (w : Nat) (c : Cl) :
    (s.record w c).n_hard_clauses = s.n_hard_clauses + (if w = 0 then 1 else 0) ∧
    (s.record w c).horn = s.horn + (if w = 0 ∧ n_neg c ≤ 1 then 1 else 0) ∧
    (s.record w c).positive = s.positive + (if w = 0 ∧ n_neg c = 0 then 1 else 0) ∧
    (s.record w c).inv_horn = s.inv_horn + (if w = 0 ∧ n_pos c ≤ 1 then 1 else 0) ∧
    (s.record w c).negative = s.negative + (if w = 0 ∧ n_pos c = 0 then 1 else 0) ∧
    (s.record w c).n_soft_clauses = s.n_soft_clauses + (if w = 0 then 0 else 1) ∧
    (s.record w c).weight_sum = s.weight_sum + w ∧
    (s.record w c).weights = s.weights ++ (if w = 0 then [] else [w]) ∧
    (s.record w c).hard_clause_sizes =
      (if w = 0 then bump s.hard_clause_sizes (bucket c.length) 1 else s.hard_clause_sizes) ∧
    (s.record w c).soft_clause_sizes =
      (if w = 0 then s.soft_clause_sizes else bump s.soft_clause_sizes (bucket c.length) 1) := by
  obtain ⟨g1, g2, g3, g4, g5, g6, g7, g8, g9, -, -, g12⟩ := BaseFeatures1.grow_fields s c
  unfold BaseFeatures1.record
  by_cases hw : w = 0
  · subst hw
    refine ⟨?_, ?_, ?_, ?_, ?_, ?_, ?_, ?_, ?_, ?_⟩ <;>
      simp only [BaseFeatures1.recordHard, g1, g2, g3, g4, g5, g6, g7, g8, g9, g12, if_true,
        true_and, List.append_nil, Nat.add_zero] <;>
      split_ifs <;> omega
  · simp [hw, BaseFeatures1.recordSoft, g1, g2, g3, g4, g5, g6, g7, g8, g9, g12]

theorem hardOf_cons (r : Nat × Cl) (rs : List (Nat × Cl)) :
    hardOf (r :: rs) = if r.1 = 0 then r.2 :: hardOf rs else hardOf rs := by
  unfold hardOf
  by_cases h : r.1 = 0 <;> simp [List.filterMap_cons, h]

theorem softOf_cons (r : Nat × Cl) (rs : List (Nat × Cl)) :
    softOf (r :: rs) = if r.1 = 0 then softOf rs else r :: softOf rs := by
  unfold softOf
  by_cases h : r.1 = 0 <;> simp [List.filter_cons, h]

theorem BaseFeatures1.run_cons (s : BaseFeatures1) (r : Nat × Cl) (rs : List (Nat × Cl)) :
    s.run (r :: rs) = (s.record r.1 r.2).run rs := by
  simp [BaseFeatures1.run]

theorem BaseFeatures1.run_counts (s : BaseFeatures1) (rs : List (Nat × Cl)) :
    (s.run rs).n_hard_clauses = s.n_hard_clauses + (hardOf rs).length ∧
    (s.run rs).horn = s.horn + (hardOf rs).countP (fun c => decide (n_neg c ≤ 1)) ∧
    (s.run rs).positive = s.positive + (hardOf rs).countP (fun c => decide (n_neg c = 0)) ∧
    (s.run rs).inv_horn = s.inv_horn + (hardOf rs).countP (fun c => decide (n_pos c ≤ 1)) ∧
    (s.run rs).negative = s.negative + (hardOf rs).countP (fun c => decide (n_pos c = 0)) ∧
    (s.run rs).n_soft_clauses = s.n_soft_clauses + (softOf rs).length ∧
    (s.run rs).weight_sum = s.weight_sum + ((softOf rs).map (fun r => r.1)).sum ∧
    (s.run rs).weights = s.weights ++ (softOf rs).map (fun r => r.1) := by
  induction rs generalizing s with
  | nil => simp [BaseFeatures1.run, hardOf, softOf]
  | cons r rs ih =>
    obtain ⟨a1, a2, a3, a4, a5, a6, a7, a8, -, -⟩ := BaseFeatures1.record_counts s r.1 r.2
    obtain ⟨b1, b2, b3, b4, b5, b6, b7, b8⟩ := ih (s.record r.1 r.2)
    rw [BaseFeatures1.run_cons, hardOf_cons, softOf_cons, b1, b2, b3, b4, b5, b6, b7, b8,
      a1, a2, a3, a4, a5, a6, a7, a8]
    by_cases hw : r.1 = 0
    · refine ⟨?_, ?_, ?_, ?_, ?_, ?_, ?_, ?_⟩ <;>
        simp only [hw, if_true, true_and, List.length_cons, List.countP_cons, List.append_nil,
          Nat.add_zero, decide_eq_true_eq] <;>
        (try split_ifs) <;> omega
    · refine ⟨?_, ?_, ?_, ?_, ?_, ?_, ?_, ?_⟩ <;>
        simp only [hw, if_false, false_and, List.length_cons, List.map_cons, List.sum_cons,
          Nat.add_zero, List.append_assoc, List.singleton_append] <;>
        (try omega)

theorem BaseFeatures1.run_sizes (s : BaseFeatures1) (rs : List (Nat × Cl)) :
    (s.run rs).hard_clause_sizes.length = s.hard_clause_sizes.length ∧
    (s.run rs).soft_clause_sizes.length = s.soft_clause_sizes.length ∧
    (∀ k, k < s.hard_clause_sizes.length →
      (s.run rs).hard_clause_sizes.getD k 0 =
        s.hard_clause_sizes.getD k 0 +
          (hardOf rs).countP (fun c => decide (bucket c.length = k))) ∧
    (∀ k, k < s.soft_clause_sizes.length →
      (s.run rs).soft_clause_sizes.getD k 0 =
        s.soft_clause_sizes.getD k 0 +
          (softOf rs).countP (fun r => decide (bucket r.2.length = k))) := by
  induction rs generalizing s with
  | nil => simp [BaseFeatures1.run, hardOf, softOf]
  | cons r rs ih =>
    obtain ⟨w, c⟩ := r
    obtain ⟨-, -, -, -, -, -, -, -, a9, a10⟩ := BaseFeatures1.record_counts s w c
    obtain ⟨b1, b2, b3, b4⟩ := ih (s.record w c)
    rw [BaseFeatures1.run_cons, hardOf_cons, softOf_cons]
    simp only at b1 b2 b3 b4 ⊢
    rw [a9] at b1 b3
    rw [a10] at b2 b4
    by_cases hw : w = 0
    · simp only [hw, if_true, bump_length] at b1 b2 b3 b4 ⊢
      refine ⟨b1, b2, ?_, b4⟩
      intro k hk
      rw [b3 k hk, bump_getD, List.countP_cons]
      by_cases hb : bucket c.length = k
      · have hlt : bucket c.length < s.hard_clause_sizes.length := by omega
        simp [hb.symm, hlt]; omega
      · have hb2 : ¬ k = bucket c.length := fun h => hb h.symm
        simp [hb, hb2]
    · simp only [hw, if_false, bump_length] at b1 b2 b3 b4 ⊢
      refine ⟨b1, b2, b3, ?_⟩
      intro k hk
      rw [b4 k hk, bump_getD, List.countP_cons]
      by_cases hb : bucket c.length = k
      · have hlt : bucket c.length < s.soft_clause_sizes.length := by omega
        simp [hb.symm, hlt]; omega
      · have hb2 : ¬ k = bucket c.length := fun h => hb h.symm
        simp [hb, hb2]

theorem BaseFeatures2.pass1_eq (input : List Line) (top : Nat) (s : BaseFeatures2) :
    BaseFeatures2.pass1 input top s =
      if markersOK input top then some (finalTop input top, s.run (records2 input top))
      else none := by
  induction input generalizing top s with
  | nil => simp [BaseFeatures2.pass1, markersOK, records2, finalTop, BaseFeatures2.run]
  | cons l rest ih =>
    cases l with
    | comment => simp [BaseFeatures2.pass1, markersOK, records2, finalTop, ih]
    | header t => simp [BaseFeatures2.pass1, markersOK, records2, finalTop, ih]
    | hard c =>
      by_cases h : top = 0
      · simp [BaseFeatures2.pass1, markersOK, records2, finalTop, ih, h, BaseFeatures2.run]
      · simp [BaseFeatures2.pass1, markersOK, records2, h]
    | weighted w c =>
      simp [BaseFeatures2.pass1, markersOK, records2, finalTop, ih, BaseFeatures2.run]

theorem BaseFeatures2.addDegrees_nil (s : BaseFeatures2) : s.addDegrees [] = s := by
  cases s
  simp [BaseFeatures2.addDegrees]

theorem BaseFeatures2.pass2_eq (top : Nat) (input : List Line) (s : BaseFeatures2) :
    BaseFeatures2.pass2 top input s =
      if top = 0 ∨ hasMarker input = false then some (s.addDegrees (hard2 top input))
      else none := by
  induction input generalizing s with
  | nil => simp [BaseFeatures2.pass2, hasMarker, hard2, BaseFeatures2.addDegrees_nil]
  | cons l rest ih =>
    cases l with
    | comment => simp [BaseFeatures2.pass2, hasMarker, hard2, ih]
    | header t => simp [BaseFeatures2.pass2, hasMarker, hard2, ih]
    | hard c =>
      by_cases h : top = 0
      · subst h
        simp [BaseFeatures2.pass2, hasMarker, hard2, ih, BaseFeatures2.addDegrees]
      · simp [BaseFeatures2.pass2, hasMarker, hard2, h]
    | weighted w c =>
      by_cases h : top = 0 ∨ w < top
      · simp only [BaseFeatures2.pass2, hasMarker, hard2, ih, h, if_true]
      · simp only [BaseFeatures2.pass2, hasMarker, hard2, ih, h, if_false]
        simp [BaseFeatures2.addDegrees]

theorem BaseFeatures2.extract2_eq (input : List Line) :
    BaseFeatures2.extract input =
      if assertionsHold input then
        some ((BaseFeatures2.init.run (records2 input 0)).addDegrees
          (hard2 (finalTop input 0) input))
      else none := by
  unfold BaseFeatures2.extract assertionsHold
  rw [BaseFeatures2.pass1_eq]
  by_cases h1 : markersOK input 0 = true
  · simp only [h1, if_true, Bool.true_and]
    rw [BaseFeatures2.pass2_eq]
    by_cases h2 : finalTop input 0 = 0
    · simp [h2]
    · by_cases h3 : hasMarker input = false
      · simp [h2, h3]
      · simp [h2, h3]
  · simp [h1]

theorem BaseFeatures1.extract1_eq (input : List Line) :
    BaseFeatures1.extract input =
      if markersOK input 0 then
        some (BaseFeatures1.init.run (records input 0)).finish
      else none := by
  unfold BaseFeatures1.extract
  rw [BaseFeatures1.loop_eq]
  by_cases h : markersOK input 0 = true <;> simp [h]

theorem adjust_eq_zero_iff (top weight : Nat) :
    adjust top weight = 0 ↔ weight = 0 ∨ (0 < top ∧ top ≤ weight) := by
  unfold adjust
  split_ifs with h <;> omega

theorem summarize_length (entropy : List ℚ → ℚ) (xs : List ℚ) :
    (summarize entropy xs).length = 5 := by
  cases xs <;> simp [summarize]

theorem buckets_length (xs : List Nat) : (buckets xs).length = 10 := by
  simp [buckets]

theorem buckets_eq (xs : List Nat) :
    buckets xs =
      [((xs.getD 1 0 : Nat) : ℚ), ((xs.getD 2 0 : Nat) : ℚ), ((xs.getD 3 0 : Nat) : ℚ),
       ((xs.getD 4 0 : Nat) : ℚ), ((xs.getD 5 0 : Nat) : ℚ), ((xs.getD 6 0 : Nat) : ℚ),
       ((xs.getD 7 0 : Nat) : ℚ), ((xs.getD 8 0 : Nat) : ℚ), ((xs.getD 9 0 : Nat) : ℚ),
       ((xs.getD 10 0 : Nat) : ℚ)] := by
  rfl

theorem BaseFeatures1.load_feature_record_length (dist : List ℚ → List ℚ)
    (hdist : ∀ xs, (dist xs).length = 5) (s : BaseFeatures1) :
    (BaseFeatures1.load_feature_record dist s).length = 53 := by
  simp [BaseFeatures1.load_feature_record, hdist, buckets_length]

theorem BaseFeatures2.load_feature_records_length (dist : List ℚ → List ℚ)
    (hdist : ∀ xs, (dist xs).length = 5) (s : BaseFeatures2) :
    (BaseFeatures2.load_feature_records dist s).length = 20 := by
  simp [BaseFeatures2.load_feature_records, hdist]

theorem assertionsHold_markersOK (input : List Line) (h : assertionsHold input = true) :
    markersOK input 0 = true := by
  unfold assertionsHold at h
  simp only [Bool.and_eq_true] at h
  exact h.1

theorem BaseFeatures.composed_eq (dist : List ℚ → List ℚ) (input : List Line)
    (hvalid : assertionsHold input = true) :
    BaseFeatures1.getFeatures dist input =
      some (BaseFeatures1.load_feature_record dist
        (BaseFeatures1.init.run (records input 0)).finish) ∧
    BaseFeatures2.getFeatures dist input =
      some (BaseFeatures2.load_feature_records dist
        ((BaseFeatures2.init.run (records2 input 0)).addDegrees
          (hard2 (finalTop input 0) input))) ∧
    BaseFeatures.extract dist input =
      some (BaseFeatures1.load_feature_record dist
          (BaseFeatures1.init.run (records input 0)).finish ++
        BaseFeatures2.load_feature_records dist
          ((BaseFeatures2.init.run (records2 input 0)).addDegrees
            (hard2 (finalTop input 0) input))) := by
  have h1 := BaseFeatures1.extract1_eq input
  have h2 := BaseFeatures2.extract2_eq input
  rw [if_pos (assertionsHold_markersOK input hvalid)] at h1
  rw [if_pos hvalid] at h2
  refine ⟨?_, ?_, ?_⟩
  · simp only [BaseFeatures1.getFeatures, h1, Option.map_some']
  · simp only [BaseFeatures2.getFeatures, h2, Option.map_some']
  · simp only [BaseFeatures.extract, BaseFeatures1.getFeatures, BaseFeatures2.getFeatures, h1,
      h2, Option.map_some']

theorem BaseFeatures.extract_length (dist : List ℚ → List ℚ)
    (hdist : ∀ xs, (dist xs).length = 5) (input : List Line)
    (hvalid : assertionsHold input = true) :
    (BaseFeatures.extract dist input).map List.length = some 73 := by
  rw [(BaseFeatures.composed_eq dist input hvalid).2.2, Option.map_some', List.length_append,
    BaseFeatures1.load_feature_record_length dist hdist,
    BaseFeatures2.load_feature_records_length dist hdist]

theorem BaseFeatures1.feature_horn (dist : List ℚ → List ℚ) (s : BaseFeatures1) :
    feature BaseFeatures1.names (BaseFeatures1.load_feature_record dist s) "h_horn"
      = some (s.horn : ℚ) ∧
    feature BaseFeatures1.names (BaseFeatures1.load_feature_record dist s) "h_invhorn"
      = some (s.inv_horn : ℚ) ∧
    feature BaseFeatures1.names (BaseFeatures1.load_feature_record dist s) "h_positive"
      = some (s.positive : ℚ) ∧
    feature BaseFeatures1.names (BaseFeatures1.load_feature_record dist s) "h_negative"
      = some (s.negative : ℚ) := by
  simp only [feature, BaseFeatures1.names, BaseFeatures1.load_feature_record, buckets_eq,
    List.cons_append, List.nil_append, List.zip_cons_cons, List.append_assoc]
  refine ⟨?_, ?_, ?_, ?_⟩ <;> simp [List.lookup]

theorem n_neg_eq (c : Cl) : n_neg c = negativeLits c := rfl

theorem lits_split (c : Cl) : positiveLits c + negativeLits c = c.length := by
  induction c with
  | nil => rfl
  | cons lit rest ih =>
    unfold positiveLits negativeLits at ih ⊢
    cases h : lit.sign <;> simp [List.countP_cons, h] <;> omega

theorem n_pos_eq (c : Cl) : n_pos c = positiveLits c := by
  have h := lits_split c
  unfold n_pos
  rw [n_neg_eq]
  omega

theorem BaseFeatures1.getFeatures_eq (dist : List ℚ → List ℚ) (input : List Line)
    (hok : markersOK input 0 = true) :
    BaseFeatures1.getFeatures dist input =
      some (BaseFeatures1.load_feature_record dist
        (BaseFeatures1.init.run (records input 0)).finish) := by
  rw [BaseFeatures1.getFeatures, BaseFeatures1.extract1_eq, if_pos hok, Option.map_some']

theorem BaseFeatures1.extract_counts (input : List Line) :
    let s := (BaseFeatures1.init.run (records input 0)).finish
    s.n_hard_clauses = (hardClauses input).length ∧
    s.horn = (hardClauses input).countP (fun c => decide (negativeLits c ≤ 1)) ∧
    s.positive = (hardClauses input).countP (fun c => decide (negativeLits c = 0)) ∧
    s.inv_horn = (hardClauses input).countP (fun c => decide (positiveLits c ≤ 1)) ∧
    s.negative = (hardClauses input).countP (fun c => decide (positiveLits c = 0)) ∧
    s.n_soft_clauses = (softClauses input).length ∧
    s.weight_sum = ((softClauses input).map (fun r => r.1)).sum ∧
    s.weights = (softClauses input).map (fun r => r.1) := by
  obtain ⟨a1, a2, a3, a4, a5, a6, a7, a8⟩ :=
    BaseFeatures1.run_counts BaseFeatures1.init (records input 0)
  rw [show BaseFeatures1.init.n_hard_clauses = 0 from rfl, Nat.zero_add] at a1
  rw [show BaseFeatures1.init.horn = 0 from rfl, Nat.zero_add] at a2
  rw [show BaseFeatures1.init.positive = 0 from rfl, Nat.zero_add] at a3
  rw [show BaseFeatures1.init.inv_horn = 0 from rfl, Nat.zero_add] at a4
  rw [show BaseFeatures1.init.negative = 0 from rfl, Nat.zero_add] at a5
  rw [show BaseFeatures1.init.n_soft_clauses = 0 from rfl, Nat.zero_add] at a6
  rw [show BaseFeatures1.init.weight_sum = 0 from rfl, Nat.zero_add] at a7
  rw [show BaseFeatures1.init.weights = [] from rfl, List.nil_append] at a8
  simp only [n_pos_eq] at a4 a5
  exact ⟨a1, a2, a3, a4, a5, a6, a7, a8⟩

theorem BaseFeatures1.horn_features (dist : List ℚ → List ℚ) (input : List Line)
    (hok : markersOK input 0 = true) :
    ∃ feats, BaseFeatures1.getFeatures dist input = some feats ∧
      feature BaseFeatures1.names feats "h_horn" =
        some (((hardClauses input).countP (fun c => decide (negativeLits c ≤ 1)) : Nat) : ℚ) ∧
      feature BaseFeatures1.names feats "h_positive" =
        some (((hardClauses input).countP (fun c => decide (negativeLits c = 0)) : Nat) : ℚ) ∧
      feature BaseFeatures1.names feats "h_invhorn" =
        some (((hardClauses input).countP (fun c => decide (positiveLits c ≤ 1)) : Nat) : ℚ) ∧
      feature BaseFeatures1.names feats "h_negative" =
        some (((hardClauses input).countP (fun c => decide (positiveLits c = 0)) : Nat) : ℚ) := by
  obtain ⟨f1, f2, f3, f4⟩ := BaseFeatures1.feature_horn dist
    (BaseFeatures1.init.run (records input 0)).finish
  obtain ⟨-, c2, c3, c4, c5, -, -, -⟩ := BaseFeatures1.extract_counts input
  refine ⟨_, BaseFeatures1.getFeatures_eq dist input hok, ?_, ?_, ?_, ?_⟩
  · rw [f1, c2]
  · rw [f3, c3]
  · rw [f2, c4]
  · rw [f4, c5]

/-! ## The claims -/

/-- C1 (as amended): the name list has 73 entries (53 of `BaseFeatures1` followed by 20 of
`BaseFeatures2`), and for every input on which no assertion fails one call of `extract()`
yields a value list of the same length 73 = 53 + 20, provided every `push_distribution` call
appends exactly five values. -/
theorem C1_names_and_features_have_length_73 (dist : List ℚ → List ℚ)
    (hdist : ∀ xs, (dist xs).length = 5) (input : List Line)
    (hvalid : assertionsHold input = true) :
    BaseFeatures1.names.length = 53 ∧ BaseFeatures2.names.length = 20 ∧
    BaseFeatures.names.length = 73 ∧
    ∃ feat1 feat2, BaseFeatures1.getFeatures dist input = some feat1 ∧
      BaseFeatures2.getFeatures dist input = some feat2 ∧
      feat1.length = 53 ∧ feat2.length = 20 ∧
      BaseFeatures.extract dist input = some (feat1 ++ feat2) ∧
      (feat1 ++ feat2).length = 73 := by
  obtain ⟨h1, h2, h3⟩ := BaseFeatures.composed_eq dist input hvalid
  refine ⟨by decide, by decide, by decide, _, _, h1, h2,
    BaseFeatures1.load_feature_record_length dist hdist _,
    BaseFeatures2.load_feature_records_length dist hdist _, h3, ?_⟩
  rw [List.length_append, BaseFeatures1.load_feature_record_length dist hdist,
    BaseFeatures2.load_feature_records_length dist hdist]

/-- C1, witness: the single clause `h 1 0` with the summarizer modelled after the spec. -/
theorem C1_names_and_features_have_length_73_witness :
    BaseFeatures1.names.length = 53 ∧ BaseFeatures2.names.length = 20 ∧
    BaseFeatures.names.length = 73 ∧
    ∃ feat1 feat2, BaseFeatures1.getFeatures summarize0 [Line.hard [Lit.ofInt 1]] = some feat1 ∧
      BaseFeatures2.getFeatures summarize0 [Line.hard [Lit.ofInt 1]] = some feat2 ∧
      feat1.length = 53 ∧ feat2.length = 20 ∧
      BaseFeatures.extract summarize0 [Line.hard [Lit.ofInt 1]] = some (feat1 ++ feat2) ∧
      (feat1 ++ feat2).length = 73 :=
  C1_names_and_features_have_length_73 summarize0 (summarize_length _)
    [Line.hard [Lit.ofInt 1]] (by decide)

/-- C1, counterexample: on the empty input the name list and the value list have 73 entries
each, not 66. -/
theorem C1_length_is_not_66 :
    BaseFeatures.names.length ≠ 66 ∧
    (BaseFeatures.extract summarize0 []).map List.length = some 73 ∧
    (BaseFeatures.extract summarize0 []).map List.length ≠ some 66 := by
  have h : (BaseFeatures.extract summarize0 []).map List.length = some 73 :=
    BaseFeatures.extract_length summarize0 (summarize_length _) [] (by decide)
  refine ⟨by decide, h, ?_⟩
  rw [h]
  decide

/-- C2: the features `h_horn`, `h_positive`, `h_invhorn` and `h_negative` of `BaseFeatures1`
are the numbers of hard clauses with at most one negative literal, with no negative literal,
with at most one positive literal and with no positive literal; the clause `h 1 0` gives
`h_horn = 1`, `h_positive = 1`, `h_negative = 0` and the clause `h -1 -2 0` gives
`h_invhorn = 1`, `h_negative = 1`, `h_horn = 0`. -/
theorem C2_horn_features_count_by_sign (dist : List ℚ → List ℚ) :
    (∀ input : List Line, markersOK input 0 = true →
      ∃ feats, BaseFeatures1.getFeatures dist input = some feats ∧
        feature BaseFeatures1.names feats "h_horn" =
          some (((hardClauses input).countP (fun c => decide (negativeLits c ≤ 1)) : Nat) : ℚ) ∧
        feature BaseFeatures1.names feats "h_positive" =
          some (((hardClauses input).countP (fun c => decide (negativeLits c = 0)) : Nat) : ℚ) ∧
        feature BaseFeatures1.names feats "h_invhorn" =
          some (((hardClauses input).countP (fun c => decide (positiveLits c ≤ 1)) : Nat) : ℚ) ∧
        feature BaseFeatures1.names feats "h_negative" =
          some (((hardClauses input).countP (fun c => decide (positiveLits c = 0)) : Nat) : ℚ)) ∧
    (∃ feats, BaseFeatures1.getFeatures dist [Line.hard [Lit.ofInt 1]] = some feats ∧
        feature BaseFeatures1.names feats "h_horn" = some 1 ∧
        feature BaseFeatures1.names feats "h_positive" = some 1 ∧
        feature BaseFeatures1.names feats "h_negative" = some 0) ∧
    (∃ feats,
        BaseFeatures1.getFeatures dist [Line.hard [Lit.ofInt (-1), Lit.ofInt (-2)]] = some feats ∧
        feature BaseFeatures1.names feats "h_invhorn" = some 1 ∧
        feature BaseFeatures1.names feats "h_negative" = some 1 ∧
        feature BaseFeatures1.names feats "h_horn" = some 0) := by
  refine ⟨BaseFeatures1.horn_features dist, ?_, ?_⟩
  · obtain ⟨feats, h0, h1, h2, -, h4⟩ :=
      BaseFeatures1.horn_features dist [Line.hard [Lit.ofInt 1]] (by decide)
    refine ⟨feats, h0, ?_, ?_, ?_⟩
    · rw [h1]; decide
    · rw [h2]; decide
    · rw [h4]; decide
  · obtain ⟨feats, h0, h1, -, h3, h4⟩ :=
      BaseFeatures1.horn_features dist [Line.hard [Lit.ofInt (-1), Lit.ofInt (-2)]] (by decide)
    refine ⟨feats, h0, ?_, ?_, ?_⟩
    · rw [h3]; decide
    · rw [h4]; decide
    · rw [h1]; decide

/-- C2, witness: the general part at the two clauses `h 1 -2 0` and `h -1 -2 -3 0`. -/
theorem C2_horn_features_count_by_sign_witness :
    markersOK [Line.hard [Lit.ofInt 1, Lit.ofInt (-2)],
      Line.hard [Lit.ofInt (-1), Lit.ofInt (-2), Lit.ofInt (-3)]] 0 = true ∧
    ∃ feats, BaseFeatures1.getFeatures summarize0
        [Line.hard [Lit.ofInt 1, Lit.ofInt (-2)],
          Line.hard [Lit.ofInt (-1), Lit.ofInt (-2), Lit.ofInt (-3)]] = some feats ∧
      feature BaseFeatures1.names feats "h_horn" = some 1 ∧
      feature BaseFeatures1.names feats "h_positive" = some 0 ∧
      feature BaseFeatures1.names feats "h_invhorn" = some 2 ∧
      feature BaseFeatures1.names feats "h_negative" = some 1 := by
  refine ⟨by decide, ?_⟩
  obtain ⟨feats, h0, h1, h2, h3, h4⟩ :=
    (C2_horn_features_count_by_sign summarize0).1
      [Line.hard [Lit.ofInt 1, Lit.ofInt (-2)],
        Line.hard [Lit.ofInt (-1), Lit.ofInt (-2), Lit.ofInt (-3)]] (by decide)
  refine ⟨feats, h0, ?_, ?_, ?_, ?_⟩
  · rw [h1]; decide
  · rw [h2]; decide
  · rw [h3]; decide
  · rw [h4]; decide

/-- C3 (as amended): the feature `h_horn` is the number of hard clauses with at most one
negative literal (the inverse-Horn clauses of the glossary) and the feature `h_invhorn` is the
number of hard clauses with at most one positive literal (the Horn clauses of the glossary). -/
theorem C3_horn_feature_counts_inverse_horn (dist : List ℚ → List ℚ) (input : List Line)
    (hok : markersOK input 0 = true) :
    ∃ feats, BaseFeatures1.getFeatures dist input = some feats ∧
      feature BaseFeatures1.names feats "h_horn" =
        some (((hardClauses input).countP isInvHornClause : Nat) : ℚ) ∧
      feature BaseFeatures1.names feats "h_invhorn" =
        some (((hardClauses input).countP isHornClause : Nat) : ℚ) := by
  obtain ⟨feats, h0, h1, -, h3, -⟩ := BaseFeatures1.horn_features dist input hok
  exact ⟨feats, h0, h1, h3⟩

/-- C3, witness: the clauses `h -1 -2 0` and `h 1 2 3 0`. -/
theorem C3_horn_feature_counts_inverse_horn_witness :
    markersOK [Line.hard [Lit.ofInt (-1), Lit.ofInt (-2)],
      Line.hard [Lit.ofInt 1, Lit.ofInt 2, Lit.ofInt 3]] 0 = true ∧
    ∃ feats, BaseFeatures1.getFeatures summarize0
        [Line.hard [Lit.ofInt (-1), Lit.ofInt (-2)],
          Line.hard [Lit.ofInt 1, Lit.ofInt 2, Lit.ofInt 3]] = some feats ∧
      feature BaseFeatures1.names feats "h_horn" =
        some (((hardClauses [Line.hard [Lit.ofInt (-1), Lit.ofInt (-2)],
          Line.hard [Lit.ofInt 1, Lit.ofInt 2, Lit.ofInt 3]]).countP isInvHornClause : Nat) : ℚ) ∧
      feature BaseFeatures1.names feats "h_invhorn" =
        some (((hardClauses [Line.hard [Lit.ofInt (-1), Lit.ofInt (-2)],
          Line.hard [Lit.ofInt 1, Lit.ofInt 2, Lit.ofInt 3]]).countP isHornClause : Nat) : ℚ) :=
  ⟨by decide, C3_horn_feature_counts_inverse_horn summarize0 _ (by decide)⟩

/-- C3, counterexample: the hard clause `h -1 -2 0` has no positive literal, so it is a Horn
clause in the sense of the glossary, yet `h_horn` is `0`; and it has two negative literals,
so it is not an inverse-Horn clause, yet `h_invhorn` is `1`. -/
theorem C3_horn_feature_is_not_glossary_horn :
    (hardClauses [Line.hard [Lit.ofInt (-1), Lit.ofInt (-2)]]).countP isHornClause = 1 ∧
    (hardClauses [Line.hard [Lit.ofInt (-1), Lit.ofInt (-2)]]).countP isInvHornClause = 0 ∧
    ∃ feats, BaseFeatures1.getFeatures summarize0
        [Line.hard [Lit.ofInt (-1), Lit.ofInt (-2)]] = some feats ∧
      feature BaseFeatures1.names feats "h_horn" = some 0 ∧
      feature BaseFeatures1.names feats "h_invhorn" = some 1 := by
  refine ⟨by decide, by decide, ?_⟩
  obtain ⟨feats, h0, h1, -, h3, -⟩ :=
    BaseFeatures1.horn_features summarize0 [Line.hard [Lit.ofInt (-1), Lit.ofInt (-2)]]
      (by decide)
  refine ⟨feats, h0, ?_, ?_⟩
  · rw [h1]; decide
  · rw [h3]; decide

/-- C4, the code at the failing input: for `top = 5` and the clauses `5 1 0`, `2 1 0`, pass 1
of `BaseFeatures2` leaves `vcg_vdegree = [0, 1]` on the legacy encoding and `[0, 2]` on the
new-format encoding (there the soft clause `2 1 0` passes the test `weight >= top` with
`top == 0`), and the two composed feature vectors differ for the summarizer of the spec. -/
theorem C4_encodings_give_different_vectors :
    legacyEncoding 5 [(5, [Lit.ofInt 1]), (2, [Lit.ofInt 1])] =
      [Line.header 5, Line.weighted 5 [Lit.ofInt 1], Line.weighted 2 [Lit.ofInt 1]] ∧
    newEncoding 5 [(5, [Lit.ofInt 1]), (2, [Lit.ofInt 1])] =
      [Line.hard [Lit.ofInt 1], Line.weighted 2 [Lit.ofInt 1]] ∧
    (BaseFeatures2.extract (legacyEncoding 5 [(5, [Lit.ofInt 1]), (2, [Lit.ofInt 1])])).map
      (fun s => s.vcg_vdegree) = some [0, 1] ∧
    (BaseFeatures2.extract (newEncoding 5 [(5, [Lit.ofInt 1]), (2, [Lit.ofInt 1])])).map
      (fun s => s.vcg_vdegree) = some [0, 2] ∧
    ∀ entropy : List ℚ → ℚ,
      BaseFeatures.extract (summarize entropy)
          (legacyEncoding 5 [(5, [Lit.ofInt 1]), (2, [Lit.ofInt 1])]) ≠
        BaseFeatures.extract (summarize entropy)
          (newEncoding 5 [(5, [Lit.ofInt 1]), (2, [Lit.ofInt 1])]) := by
  refine ⟨by decide, by decide, by decide, by decide, ?_⟩
  intro entropy h
  have hl := (BaseFeatures.composed_eq (summarize entropy)
    (legacyEncoding 5 [(5, [Lit.ofInt 1]), (2, [Lit.ofInt 1])]) (by decide)).2.2
  have hn := (BaseFeatures.composed_eq (summarize entropy)
    (newEncoding 5 [(5, [Lit.ofInt 1]), (2, [Lit.ofInt 1])]) (by decide)).2.2
  rw [hl, hn] at h
  have h2 := (List.append_inj (Option.some.inj h) (by
    rw [BaseFeatures1.load_feature_record_length _ (summarize_length entropy),
      BaseFeatures1.load_feature_record_length _ (summarize_length entropy)])).2
  have e1 : (BaseFeatures2.init.run (records2
      (legacyEncoding 5 [(5, [Lit.ofInt 1]), (2, [Lit.ofInt 1])]) 0)).addDegrees
        (hard2 (finalTop (legacyEncoding 5 [(5, [Lit.ofInt 1]), (2, [Lit.ofInt 1])]) 0)
          (legacyEncoding 5 [(5, [Lit.ofInt 1]), (2, [Lit.ofInt 1])])) =
      ⟨1, [0, 1], [1, 1], [0, 1], [1]⟩ := by decide
  have e2 : (BaseFeatures2.init.run (records2
      (newEncoding 5 [(5, [Lit.ofInt 1]), (2, [Lit.ofInt 1])]) 0)).addDegrees
        (hard2 (finalTop (newEncoding 5 [(5, [Lit.ofInt 1]), (2, [Lit.ofInt 1])]) 0)
          (newEncoding 5 [(5, [Lit.ofInt 1]), (2, [Lit.ofInt 1])])) =
      ⟨1, [0, 2], [1, 1], [0, 2], [2]⟩ := by decide
  rw [e1, e2] at h2
  have h3 := congrArg List.head? h2
  simp [BaseFeatures2.load_feature_records, summarize, toQ] at h3

/-- C5, the code at the failing input: the new-format soft clause `2 1 0` is no hard clause,
yet pass 1 of `BaseFeatures2` counts it in `vcg_vdegree[1]` and `vg_degree[1]`. -/
theorem C5_soft_clause_counted_in_new_format :
    hardClauses [Line.weighted 2 [Lit.ofInt 1]] = [] ∧
    softClauses [Line.weighted 2 [Lit.ofInt 1]] = [(2, [Lit.ofInt 1])] ∧
    BaseFeatures2.pass1 [Line.weighted 2 [Lit.ofInt 1]] 0 BaseFeatures2.init =
      some (0, ⟨1, [0, 1], [1], [0, 1], []⟩) := by
  decide

/-- C7, the code at the failing input: after the single clause `h 1 0` variable 1 is observed
(`n_vars = 1`) and has one positive occurrence in a hard clause (slot `2` of the occurrence
table), for which lines 129-133 would push the balance `0`; yet `balance_variable` is empty:
the loop `for (v = 0; v < n_vars; v++)` never reaches the variable `n_vars`. -/
theorem C7_largest_variable_is_skipped :
    (BaseFeatures1.extract [Line.hard [Lit.ofInt 1]]).map (fun s => s.n_vars) = some 1 ∧
    (BaseFeatures1.extract [Line.hard [Lit.ofInt 1]]).map (fun s => s.literal_occurrences) =
      some [0, 0, 1, 0] ∧
    variableBalance [0, 0, 1, 0] 1 = some 0 ∧
    (BaseFeatures1.extract [Line.hard [Lit.ofInt 1]]).map (fun s => s.balance_variable) =
      some [] := by
  refine ⟨by decide, by decide, by simp [variableBalance, Lit.index], ?_⟩
  rw [BaseFeatures1.extract1_eq, if_pos (by decide), Option.map_some']
  simp [BaseFeatures1.finish, BaseFeatures1.run, records, BaseFeatures1.record,
    BaseFeatures1.recordHard, BaseFeatures1.grow, BaseFeatures1.growLit, BaseFeatures1.init,
    Lit.ofInt, variableBalance, Lit.index, resize, countLits, bump, List.range_succ]
theorem clauseDegree_eq_sum (table : List Nat) (clause : Cl) :
    clauseDegree table clause = (clause.map (fun lit => table.getD lit.var 0)).sum := by
  have h : ∀ (c : Cl) (d : Nat),
      c.foldl (fun degree lit => degree + table.getD lit.var 0) d =
        d + (c.map (fun lit => table.getD lit.var 0)).sum := by
    intro c
    induction c with
    | nil => intro d; simp
    | cons lit rest ih =>
      intro d
      simp only [List.foldl_cons, List.map_cons, List.sum_cons, ih]
      omega
  unfold clauseDegree
  rw [h, Nat.zero_add]

theorem finalTop_of_noHeader (input : List Line) (top : Nat) (h : noHeader input = true) :
    finalTop input top = top := by
  induction input with
  | nil => rfl
  | cons l rest ih =>
    cases l with
    | comment => exact ih h
    | header t => simp [noHeader] at h
    | hard c => exact ih h
    | weighted w c => exact ih h

theorem hard_agree_of_noHeader (input : List Line) (top : Nat) (hno : noHeader input = true)
    (hok : markersOK input top = true) (hpos : positiveWeights input = true) :
    hardOf (records input top) = hard2 top input ∧ (top = 0 ∨ hasMarker input = false) := by
  induction input with
  | nil => simp [records, hardOf, hard2, hasMarker]
  | cons l rest ih =>
    cases l with
    | comment => exact ih hno hok hpos
    | header t => simp [noHeader] at hno
    | hard c =>
      simp only [markersOK, Bool.and_eq_true, decide_eq_true_eq] at hok
      obtain ⟨h1, h2⟩ := ih hno hok.2 hpos
      refine ⟨?_, Or.inl hok.1⟩
      rw [records, hardOf_cons, hard2, h1]
      simp
    | weighted w c =>
      simp only [positiveWeights, Bool.and_eq_true, decide_eq_true_eq] at hpos
      obtain ⟨h1, h2⟩ := ih hno hok hpos.2
      refine ⟨?_, ?_⟩
      · rw [records, hardOf_cons, hard2, h1]
        by_cases hc : top = 0 ∨ w < top
        · have ha : adjust top w ≠ 0 := by
            unfold adjust
            split_ifs with hh <;> omega
          simp [hc, ha]
        · have ha : adjust top w = 0 := by
            unfold adjust
            split_ifs with hh <;> omega
          simp [hc, ha]
      · rcases h2 with h2 | h2
        · exact Or.inl h2
        · exact Or.inr (by simp [hasMarker, h2])

theorem hard_agree_of_headersFirst (input : List Line) (top : Nat)
    (hfirst : headersFirst input = true) (hok : markersOK input top = true)
    (hpos : positiveWeights input = true) :
    hardOf (records input top) = hard2 (finalTop input top) input ∧
      (finalTop input top = 0 ∨ hasMarker input = false) := by
  induction input generalizing top with
  | nil => simp [records, hardOf, hard2, hasMarker]
  | cons l rest ih =>
    cases l with
    | comment => exact ih top hfirst hok hpos
    | header t => exact ih t hfirst hok hpos
    | hard c =>
      have hno : noHeader (Line.hard c :: rest) = true := hfirst
      rw [finalTop_of_noHeader _ top hno]
      exact hard_agree_of_noHeader _ top hno hok hpos
    | weighted w c =>
      have hno : noHeader (Line.weighted w c :: rest) = true := hfirst
      rw [finalTop_of_noHeader _ top hno]
      exact hard_agree_of_noHeader _ top hno hok hpos

theorem BaseFeatures2.visit_clause_degree (clause : Cl) (top weight size : Nat)
    (s : BaseFeatures2) :
    (clause.foldl (BaseFeatures2.visit top weight size) s).clause_degree = s.clause_degree := by
  induction clause generalizing s with
  | nil => rfl
  | cons lit rest ih =>
    rw [List.foldl_cons, ih]
    unfold BaseFeatures2.visit
    split_ifs <;> rfl

theorem BaseFeatures2.run_clause_degree (rs : List (Nat × Nat × Cl)) (s : BaseFeatures2) :
    (s.run rs).clause_degree = s.clause_degree := by
  induction rs generalizing s with
  | nil => rfl
  | cons r rs ih =>
    show ((s.record r.1 r.2.1 r.2.2).run rs).clause_degree = s.clause_degree
    rw [ih, BaseFeatures2.record, BaseFeatures2.visit_clause_degree]

theorem hard2_eq_hardLines (top : Nat) (input : List Line) :
    hard2 top input = hardLines top input := by
  induction input with
  | nil => rfl
  | cons l rest ih =>
    cases l with
    | comment => exact ih
    | header t => exact ih
    | hard c => simp only [hard2, hardLines, ih]
    | weighted w c =>
      simp only [hard2, hardLines, ih]
      by_cases h : top = 0 ∨ w < top
      · have h2 : ¬ (0 < top ∧ top ≤ w) := by omega
        rw [if_pos h, if_neg h2]
      · have h2 : 0 < top ∧ top ≤ w := by omega
        rw [if_neg h, if_pos h2]

/-- C6: for every input in which all weighted clauses have positive weight and on which no
assertion fails, the sequence `clause_degree` built by pass 2 has one entry per hard clause, in
encounter order, and each entry is the sum over the literals of that clause of the final
pass-1 value `vcg_vdegree[var(lit)]`.  The hard clauses are those of the wire format under the
`top` left by pass 1; when the header lines precede the clause lines they are the clauses the
first extractor counts as hard. -/
theorem C6_clause_degree_sums_vcg_vdegree (input : List Line)
    (hpos : positiveWeights input = true) (hvalid : assertionsHold input = true) :
    ∃ top s1 s, BaseFeatures2.pass1 input 0 BaseFeatures2.init = some (top, s1) ∧
      BaseFeatures2.extract input = some s ∧
      s.vcg_vdegree = s1.vcg_vdegree ∧
      s.clause_degree =
        (hardLines top input).map
          (fun clause => (clause.map (fun lit => s1.vcg_vdegree.getD lit.var 0)).sum) ∧
      s.clause_degree.length = (hardLines top input).length ∧
      (headersFirst input = true → hardLines top input = hardClauses input) := by
  have hok := assertionsHold_markersOK input hvalid
  have hdeg : ((BaseFeatures2.init.run (records2 input 0)).addDegrees
      (hard2 (finalTop input 0) input)).clause_degree =
      (hardLines (finalTop input 0) input).map (fun clause => (clause.map (fun lit =>
        (BaseFeatures2.init.run (records2 input 0)).vcg_vdegree.getD lit.var 0)).sum) := by
    have hinit : (BaseFeatures2.init.run (records2 input 0)).clause_degree = [] :=
      BaseFeatures2.run_clause_degree _ _
    simp only [BaseFeatures2.addDegrees, hinit, List.nil_append, hard2_eq_hardLines]
    apply List.map_congr_left
    intro c _
    exact clauseDegree_eq_sum _ c
  refine ⟨finalTop input 0, BaseFeatures2.init.run (records2 input 0),
    (BaseFeatures2.init.run (records2 input 0)).addDegrees (hard2 (finalTop input 0) input),
    ?_, ?_, rfl, hdeg, ?_, ?_⟩
  · rw [BaseFeatures2.pass1_eq, if_pos hok]
  · rw [BaseFeatures2.extract2_eq, if_pos hvalid]
  · rw [hdeg, List.length_map]
  · intro hfirst
    rw [← hard2_eq_hardLines]
    exact (hard_agree_of_headersFirst input 0 hfirst hok hpos).1.symm

/-- C6, witness: the legacy input `p wcnf 2 3 5`, `5 1 -2 0`, `2 1 0`, `7 2 0`. -/
theorem C6_clause_degree_sums_vcg_vdegree_witness :
    ∃ top s1 s,
      BaseFeatures2.pass1 sampleLegacy 0 BaseFeatures2.init = some (top, s1) ∧
      BaseFeatures2.extract sampleLegacy = some s ∧
      s.vcg_vdegree = s1.vcg_vdegree ∧
      s.clause_degree =
        (hardLines top sampleLegacy).map
          (fun clause => (clause.map (fun lit => s1.vcg_vdegree.getD lit.var 0)).sum) ∧
      s.clause_degree.length = (hardLines top sampleLegacy).length ∧
      (headersFirst sampleLegacy = true → hardLines top sampleLegacy = hardClauses sampleLegacy) :=
  C6_clause_degree_sums_vcg_vdegree sampleLegacy (by decide) (by decide)

/-- A header after a clause: in the input `3 1 0`, `p wcnf 1 1 2` the clause is soft for the
first extractor (no `top` is in force when it is read), while pass 2 of the second extractor
runs with the final `top = 2` and pushes an entry for it. -/
theorem late_header_example :
    positiveWeights [Line.weighted 3 [Lit.ofInt 1], Line.header 2] = true ∧
    headersFirst [Line.weighted 3 [Lit.ofInt 1], Line.header 2] = false ∧
    hardClauses [Line.weighted 3 [Lit.ofInt 1], Line.header 2] = [] ∧
    hardLines 2 [Line.weighted 3 [Lit.ofInt 1], Line.header 2] = [[Lit.ofInt 1]] ∧
    (BaseFeatures1.extract [Line.weighted 3 [Lit.ofInt 1], Line.header 2]).map
      (fun s => (s.n_hard_clauses, s.n_soft_clauses)) = some (0, 1) ∧
    (BaseFeatures2.extract [Line.weighted 3 [Lit.ofInt 1], Line.header 2]).map
      (fun s => s.clause_degree) = some [1] := by
  decide
theorem bucket_eq_min (size : Nat) : bucket size = min size 10 ∧ bucket size ≤ 10 := by
  unfold bucket
  split_ifs <;> omega

theorem bucket_eq_iff (k size : Nat) (hk : k ≤ 10) :
    decide (bucket size = k) = inBucket k size := by
  unfold bucket inBucket
  rw [Bool.eq_iff_iff]
  by_cases h1 : size < 10 <;> by_cases h2 : k < 10 <;>
    simp only [h1, h2, if_true, if_false, decide_eq_true_eq, beq_iff_eq] <;> omega

theorem replicate_zero_getD (n k : Nat) : (List.replicate n 0).getD k 0 = 0 := by
  rw [List.getD_eq_getElem?_getD, List.getElem?_replicate]
  split <;> rfl

theorem BaseFeatures1.load_feature_record_split (dist : List ℚ → List ℚ)
    (hdist : ∀ xs, (dist xs).length = 5) (s : BaseFeatures1) :
    ∃ mid : List ℚ, mid.length = 24 ∧
      BaseFeatures1.load_feature_record dist s =
        [(s.n_hard_clauses : ℚ), (s.n_vars : ℚ)] ++ (buckets s.hard_clause_sizes ++ (mid ++
          ([(s.n_soft_clauses : ℚ), (s.weight_sum : ℚ)] ++ (buckets s.soft_clause_sizes ++
            dist (toQ s.weights))))) := by
  refine ⟨[(s.horn : ℚ), (s.inv_horn : ℚ), (s.positive : ℚ), (s.negative : ℚ)]
    ++ dist (toQ s.variable_horn) ++ dist (toQ s.variable_inv_horn) ++ dist s.balance_clause
    ++ dist s.balance_variable, ?_, ?_⟩
  · simp [hdist]
  · simp [BaseFeatures1.load_feature_record]

theorem BaseFeatures1.load_feature_record_segments (dist : List ℚ → List ℚ)
    (hdist : ∀ xs, (dist xs).length = 5) (s : BaseFeatures1) :
    ((BaseFeatures1.load_feature_record dist s).drop 2).take 10 = buckets s.hard_clause_sizes ∧
    ((BaseFeatures1.load_feature_record dist s).drop 36).take 2 =
      [(s.n_soft_clauses : ℚ), (s.weight_sum : ℚ)] ∧
    ((BaseFeatures1.load_feature_record dist s).drop 38).take 10 =
      buckets s.soft_clause_sizes ∧
    (BaseFeatures1.load_feature_record dist s).drop 48 = dist (toQ s.weights) := by
  obtain ⟨mid, hmid, heq⟩ := BaseFeatures1.load_feature_record_split dist hdist s
  rw [heq]
  refine ⟨?_, ?_, ?_, ?_⟩
  · rw [List.drop_left' (by simp), List.take_left' (buckets_length _)]
  · rw [← List.append_assoc, ← List.append_assoc,
      List.drop_left' (by simp [hmid, buckets_length]), List.take_left' (by simp)]
  · rw [← List.append_assoc, ← List.append_assoc, ← List.append_assoc,
      List.drop_left' (by simp [hmid, buckets_length]), List.take_left' (buckets_length _)]
  · rw [← List.append_assoc, ← List.append_assoc, ← List.append_assoc, ← List.append_assoc,
      List.drop_left' (by simp [hmid, buckets_length])]

theorem buckets_eq_of_getD (xs : List Nat) (f : Nat → Nat)
    (h : ∀ k, k ≤ 10 → xs.getD k 0 = f k) :
    buckets xs = (List.range 10).map (fun i => ((f (i + 1) : Nat) : ℚ)) := by
  unfold buckets
  apply List.map_congr_left
  intro i hi
  rw [List.mem_range] at hi
  rw [h (i + 1) (by omega)]

theorem BaseFeatures1.extract_sizes (input : List Line) :
    let s := (BaseFeatures1.init.run (records input 0)).finish
    s.hard_clause_sizes.length = 11 ∧ s.soft_clause_sizes.length = 11 ∧
    (∀ k, k ≤ 10 → s.hard_clause_sizes.getD k 0 =
      (hardClauses input).countP (fun c => inBucket k c.length)) ∧
    (∀ k, k ≤ 10 → s.soft_clause_sizes.getD k 0 =
      (softClauses input).countP (fun r => inBucket k r.2.length)) := by
  obtain ⟨a1, a2, a3, a4⟩ := BaseFeatures1.run_sizes BaseFeatures1.init (records input 0)
  have l1 : BaseFeatures1.init.hard_clause_sizes.length = 11 := rfl
  have l2 : BaseFeatures1.init.soft_clause_sizes.length = 11 := rfl
  refine ⟨a1.trans l1, a2.trans l2, ?_, ?_⟩
  · intro k hk
    have h := a3 k (by rw [l1]; omega)
    have z : BaseFeatures1.init.hard_clause_sizes.getD k 0 = 0 := by
      exact replicate_zero_getD 11 k
    rw [z, Nat.zero_add] at h
    simp only [bucket_eq_iff _ _ hk] at h
    exact h
  · intro k hk
    have h := a4 k (by rw [l2]; omega)
    have z : BaseFeatures1.init.soft_clause_sizes.getD k 0 = 0 := by
      exact replicate_zero_getD 11 k
    rw [z, Nat.zero_add] at h
    simp only [bucket_eq_iff _ _ hk] at h
    exact h
/-- C8: a clause of size `s` goes to bucket `min(s, 10)`, which is at most 10; recording a
clause increments exactly that bucket of the histogram of its kind by one; after extraction
bucket `k` of the hard (soft) histogram is the number of hard (soft) clauses of size exactly
`k` for `k ≤ 9` and of size at least 10 for `k = 10`, and the features `h_cls1..h_cls10p` and
`s_cls1..s_cls10p` report buckets 1 to 10; a clause of size 15 lands in bucket 10. -/
theorem C8_clause_size_buckets (dist : List ℚ → List ℚ)
    (hdist : ∀ xs, (dist xs).length = 5) (input : List Line)
    (hok : markersOK input 0 = true) :
    (∀ size, bucket size = min size 10 ∧ bucket size ≤ 10) ∧ bucket 15 = 10 ∧
    (∀ (s : BaseFeatures1) (w : Nat) (c : Cl),
      (s.record w c).hard_clause_sizes =
        (if w = 0 then bump s.hard_clause_sizes (min c.length 10) 1
          else s.hard_clause_sizes) ∧
      (s.record w c).soft_clause_sizes =
        (if w = 0 then s.soft_clause_sizes
          else bump s.soft_clause_sizes (min c.length 10) 1)) ∧
    (∀ (xs : List Nat) (i j : Nat), i < xs.length →
      (bump xs i 1).length = xs.length ∧
      (bump xs i 1).getD j 0 = xs.getD j 0 + (if j = i then 1 else 0)) ∧
    (BaseFeatures1.names.drop 2).take 10 =
      ["h_cls1", "h_cls2", "h_cls3", "h_cls4", "h_cls5", "h_cls6", "h_cls7", "h_cls8",
        "h_cls9", "h_cls10p"] ∧
    (BaseFeatures1.names.drop 38).take 10 =
      ["s_cls1", "s_cls2", "s_cls3", "s_cls4", "s_cls5", "s_cls6", "s_cls7", "s_cls8",
        "s_cls9", "s_cls10p"] ∧
    ∃ s feats, BaseFeatures1.extract input = some s ∧
      BaseFeatures1.getFeatures dist input = some feats ∧
      s.hard_clause_sizes.length = 11 ∧ s.soft_clause_sizes.length = 11 ∧
      (∀ k, k ≤ 10 → s.hard_clause_sizes.getD k 0 =
        (hardClauses input).countP (fun c => inBucket k c.length)) ∧
      (∀ k, k ≤ 10 → s.soft_clause_sizes.getD k 0 =
        (softClauses input).countP (fun r => inBucket k r.2.length)) ∧
      (feats.drop 2).take 10 = (List.range 10).map (fun i =>
        (((hardClauses input).countP (fun c => inBucket (i + 1) c.length) : Nat) : ℚ)) ∧
      (feats.drop 38).take 10 = (List.range 10).map (fun i =>
        (((softClauses input).countP (fun r => inBucket (i + 1) r.2.length) : Nat) : ℚ)) := by
  refine ⟨bucket_eq_min, by decide, ?_, ?_, by decide, by decide, ?_⟩
  · intro s w c
    obtain ⟨-, -, -, -, -, -, -, -, a9, a10⟩ := BaseFeatures1.record_counts s w c
    rw [(bucket_eq_min c.length).1] at a9 a10
    exact ⟨a9, a10⟩
  · intro xs i j hi
    refine ⟨bump_length xs i 1, ?_⟩
    rw [bump_getD]
    by_cases hj : j = i <;> simp [hj, hi]
  · obtain ⟨b1, b2, b3, b4⟩ := BaseFeatures1.extract_sizes input
    obtain ⟨g1, -, g3, -⟩ := BaseFeatures1.load_feature_record_segments dist hdist
      (BaseFeatures1.init.run (records input 0)).finish
    refine ⟨_, _, ?_, BaseFeatures1.getFeatures_eq dist input hok, b1, b2, b3, b4, ?_, ?_⟩
    · rw [BaseFeatures1.extract1_eq, if_pos hok]
    · rw [g1]
      exact buckets_eq_of_getD _ _ b3
    · rw [g3]
      exact buckets_eq_of_getD _ _ b4

/-- C8, witness: a hard clause of size 15, a hard unit clause, a soft clause of size 2 and an
empty soft clause. -/
theorem C8_clause_size_buckets_witness :
    ∃ s feats, BaseFeatures1.extract sampleSizes = some s ∧
      BaseFeatures1.getFeatures summarize0 sampleSizes = some feats ∧
      s.hard_clause_sizes.length = 11 ∧ s.soft_clause_sizes.length = 11 ∧
      (∀ k, k ≤ 10 → s.hard_clause_sizes.getD k 0 =
        (hardClauses sampleSizes).countP (fun c => inBucket k c.length)) ∧
      (∀ k, k ≤ 10 → s.soft_clause_sizes.getD k 0 =
        (softClauses sampleSizes).countP (fun r => inBucket k r.2.length)) ∧
      (feats.drop 2).take 10 = (List.range 10).map (fun i =>
        (((hardClauses sampleSizes).countP (fun c => inBucket (i + 1) c.length) : Nat) : ℚ)) ∧
      (feats.drop 38).take 10 = (List.range 10).map (fun i =>
        (((softClauses sampleSizes).countP (fun r => inBucket (i + 1) r.2.length) : Nat) : ℚ)) :=
  (C8_clause_size_buckets summarize0 (summarize_length _) sampleSizes (by decide)).2.2.2.2.2.2

/-- C9: `s_clauses` is the number of soft clauses, `s_weight_sum` the sum of their weights, and
the sequence summarized into `s_weight_*` is the sequence of soft-clause weights in encounter
order; for soft weights 2, 2, 4 the sum is 8, the sequence has three entries, and under the
summarizer of the spec the mean is 8/3, the minimum 2 and the maximum 4. -/
theorem C9_soft_clause_weights (dist : List ℚ → List ℚ)
    (hdist : ∀ xs, (dist xs).length = 5) (input : List Line)
    (hok : markersOK input 0 = true) :
    (BaseFeatures1.names.drop 36).take 2 = ["s_clauses", "s_weight_sum"] ∧
    BaseFeatures1.names.drop 48 =
      ["s_weight_mean", "s_weight_variance", "s_weight_min", "s_weight_max",
        "s_weight_entropy"] ∧
    (∃ s feats, BaseFeatures1.extract input = some s ∧
      BaseFeatures1.getFeatures dist input = some feats ∧
      s.n_soft_clauses = (softClauses input).length ∧
      s.weight_sum = ((softClauses input).map (fun r => r.1)).sum ∧
      s.weights = (softClauses input).map (fun r => r.1) ∧
      (feats.drop 36).take 2 =
        [((softClauses input).length : ℚ),
          ((((softClauses input).map (fun r => r.1)).sum : Nat) : ℚ)] ∧
      feats.drop 48 = dist (toQ ((softClauses input).map (fun r => r.1)))) ∧
    (softClauses sampleWeights).map (fun r => r.1) = [2, 2, 4] ∧
    ∀ entropy : List ℚ → ℚ,
      ∃ s feats, BaseFeatures1.extract sampleWeights = some s ∧
        BaseFeatures1.getFeatures (summarize entropy) sampleWeights = some feats ∧
        s.weights = [2, 2, 4] ∧ s.weights.length = 3 ∧ s.weight_sum = 8 ∧
        s.n_soft_clauses = 3 ∧
        (∀ w ∈ s.weights, 2 ≤ w ∧ w ≤ 4) ∧ 2 ∈ s.weights ∧ 4 ∈ s.weights ∧
        (s.weight_sum : ℚ) / (s.weights.length : ℚ) = 8 / 3 ∧
        (feats.drop 36).take 2 = [3, 8] ∧
        (feats.drop 48).take 1 = [8 / 3] ∧
        (feats.drop 50).take 2 = [2, 4] := by
  have general : ∀ (d : List ℚ → List ℚ), (∀ xs, (d xs).length = 5) → ∀ inp : List Line,
      markersOK inp 0 = true →
      ∃ s feats, BaseFeatures1.extract inp = some s ∧
        BaseFeatures1.getFeatures d inp = some feats ∧
        s.n_soft_clauses = (softClauses inp).length ∧
        s.weight_sum = ((softClauses inp).map (fun r => r.1)).sum ∧
        s.weights = (softClauses inp).map (fun r => r.1) ∧
        (feats.drop 36).take 2 =
          [((softClauses inp).length : ℚ),
            ((((softClauses inp).map (fun r => r.1)).sum : Nat) : ℚ)] ∧
        feats.drop 48 = d (toQ ((softClauses inp).map (fun r => r.1))) := by
    intro d hd inp hinp
    obtain ⟨-, -, -, -, -, c6, c7, c8⟩ := BaseFeatures1.extract_counts inp
    obtain ⟨-, g2, -, g4⟩ := BaseFeatures1.load_feature_record_segments d hd
      (BaseFeatures1.init.run (records inp 0)).finish
    refine ⟨_, _, ?_, BaseFeatures1.getFeatures_eq d inp hinp, c6, c7, c8, ?_, ?_⟩
    · rw [BaseFeatures1.extract1_eq, if_pos hinp]
    · rw [g2, c6, c7]
    · rw [g4, c8]
  refine ⟨by decide, by decide, general dist hdist input hok, by decide, ?_⟩
  intro entropy
  obtain ⟨s, feats, h1, h2, h3, h4, h5, h6, h7⟩ :=
    general (summarize entropy) (summarize_length entropy) sampleWeights (by decide)
  have hw : (softClauses sampleWeights).map (fun r => r.1) = [2, 2, 4] := by decide
  have hl : (softClauses sampleWeights).length = 3 := by decide
  rw [hw] at h4 h5 h6 h7
  rw [hl] at h3 h6
  have hsum : s.weight_sum = 8 := by rw [h4]; rfl
  refine ⟨s, feats, h1, h2, h5, by rw [h5]; rfl, hsum, h3, ?_, by rw [h5]; decide,
    by rw [h5]; decide, ?_, ?_, ?_, ?_⟩
  · rw [h5]; decide
  · rw [hsum, h5]; norm_num
  · rw [h6]; norm_num
  · rw [h7]; simp [summarize, toQ]; norm_num
  · have hd : feats.drop 50 = (feats.drop 48).drop 2 := by rw [List.drop_drop]
    rw [hd, h7]
    simp [summarize, toQ]
    norm_num
/-- C9, witness: a hard clause and soft clauses of weights 2, 2 and 4. -/
theorem C9_soft_clause_weights_witness :
    ∃ s feats, BaseFeatures1.extract sampleWeights = some s ∧
      BaseFeatures1.getFeatures summarize0 sampleWeights = some feats ∧
      s.n_soft_clauses = (softClauses sampleWeights).length ∧
      s.weight_sum = ((softClauses sampleWeights).map (fun r => r.1)).sum ∧
      s.weights = (softClauses sampleWeights).map (fun r => r.1) ∧
      (feats.drop 36).take 2 =
        [((softClauses sampleWeights).length : ℚ),
          ((((softClauses sampleWeights).map (fun r => r.1)).sum : Nat) : ℚ)] ∧
      feats.drop 48 = summarize0 (toQ ((softClauses sampleWeights).map (fun r => r.1))) :=
  (C9_soft_clause_weights summarize0 (summarize_length _) sampleWeights (by decide)).2.2.1

theorem noClauses_records (input : List Line) (top : Nat) (h : noClauses input = true) :
    records input top = [] ∧ records2 input top = [] ∧ markersOK input top = true ∧
    hasMarker input = false ∧ ∀ t, hard2 t input = [] := by
  induction input generalizing top with
  | nil => simp [records, records2, markersOK, hasMarker, hard2]
  | cons l rest ih =>
    cases l with
    | comment =>
      obtain ⟨a, b, c, d, e⟩ := ih top h
      exact ⟨a, b, c, d, e⟩
    | header t =>
      obtain ⟨a, b, c, d, e⟩ := ih t h
      exact ⟨a, b, c, d, e⟩
    | hard c => simp [noClauses] at h
    | weighted w c => simp [noClauses] at h

theorem empty_instance (dist : List ℚ → List ℚ) (hzero : dist [] = [0, 0, 0, 0, 0])
    (input : List Line) (hempty : noClauses input = true) :
    BaseFeatures1.extract input = some BaseFeatures1.init ∧
    BaseFeatures2.extract input = some BaseFeatures2.init ∧
    BaseFeatures1.getFeatures dist input = some (List.replicate 53 0) ∧
    BaseFeatures2.getFeatures dist input = some (List.replicate 20 0) ∧
    BaseFeatures.extract dist input = some (List.replicate 73 0) := by
  obtain ⟨r1, r2, r3, r4, r5⟩ := noClauses_records input 0 hempty
  have e1 : BaseFeatures1.extract input = some BaseFeatures1.init := by
    rw [BaseFeatures1.extract1_eq, if_pos r3, r1]
    rfl
  have e2 : BaseFeatures2.extract input = some BaseFeatures2.init := by
    rw [BaseFeatures2.extract2_eq, if_pos (by simp [assertionsHold, r3, r4]), r2, r5]
    rfl
  have f1 : BaseFeatures1.load_feature_record dist BaseFeatures1.init = List.replicate 53 0 := by
    simp [BaseFeatures1.load_feature_record, BaseFeatures1.init, toQ, hzero, buckets_eq,
      List.replicate]
  have f2 : BaseFeatures2.load_feature_records dist BaseFeatures2.init =
      List.replicate 20 0 := by
    simp [BaseFeatures2.load_feature_records, BaseFeatures2.init, toQ, hzero, List.replicate]
  refine ⟨e1, e2, ?_, ?_, ?_⟩
  · rw [BaseFeatures1.getFeatures, e1, Option.map_some', f1]
  · rw [BaseFeatures2.getFeatures, e2, Option.map_some', f2]
  · simp only [BaseFeatures.extract, BaseFeatures1.getFeatures, BaseFeatures2.getFeatures, e1,
      e2, Option.map_some', f1, f2]
    rfl

/-- C10 (as amended): for an input without clauses (comment and header lines only, or nothing)
extraction succeeds, every counter keeps its initial value `0`, every sequence handed to the
summarizer is empty, and, the summarizer returning five zeros on the empty sequence, every one
of the 73 feature values is `0`. -/
theorem C10_empty_instance_all_zero (dist : List ℚ → List ℚ)
    (hzero : dist [] = [0, 0, 0, 0, 0]) (input : List Line)
    (hempty : noClauses input = true) :
    ∃ s1 s2, BaseFeatures1.extract input = some s1 ∧ BaseFeatures2.extract input = some s2 ∧
      s1.n_hard_clauses = 0 ∧ s1.n_vars = 0 ∧ s1.n_soft_clauses = 0 ∧ s1.weight_sum = 0 ∧
      s1.hard_clause_sizes = List.replicate 11 0 ∧ s1.soft_clause_sizes = List.replicate 11 0 ∧
      s1.horn = 0 ∧ s1.inv_horn = 0 ∧ s1.positive = 0 ∧ s1.negative = 0 ∧
      s1.variable_horn = [] ∧ s1.variable_inv_horn = [] ∧ s1.balance_clause = [] ∧
      s1.balance_variable = [] ∧ s1.weights = [] ∧
      s2.vcg_vdegree = [] ∧ s2.vcg_cdegree = [] ∧ s2.vg_degree = [] ∧ s2.clause_degree = [] ∧
      BaseFeatures.extract dist input = some (List.replicate 73 0) := by
  obtain ⟨e1, e2, -, -, e5⟩ := empty_instance dist hzero input hempty
  exact ⟨_, _, e1, e2, rfl, rfl, rfl, rfl, rfl, rfl, rfl, rfl, rfl, rfl, rfl, rfl, rfl, rfl,
    rfl, rfl, rfl, rfl, rfl, e5⟩

/-- C10, witness: two comment lines, with the summarizer of the spec. -/
theorem C10_empty_instance_all_zero_witness :
    BaseFeatures.extract summarize0 [Line.comment, Line.comment] = some (List.replicate 73 0) := by
  obtain ⟨_, _, -, -, -, -, -, -, -, -, -, -, -, -, -, -, -, -, -, -, -, -, -, h⟩ :=
    C10_empty_instance_all_zero summarize0 rfl [Line.comment, Line.comment] (by decide)
  exact h

/-- C10, counterexample: on the empty input the value list is not a list of 66 zeros; it has
73 entries. -/
theorem C10_empty_vector_has_73_entries :
    BaseFeatures.extract summarize0 [] ≠ some (List.replicate 66 0) ∧
    BaseFeatures.extract summarize0 [] = some (List.replicate 73 0) := by
  have h := (empty_instance summarize0 rfl [] (by decide)).2.2.2.2
  refine ⟨?_, h⟩
  rw [h]
  intro hc
  have hl := congrArg List.length (Option.some.inj hc)
  simp at hl
/-! ## Lemmas about the per-variable tables -/

theorem resize_length (xs : List Nat) (n : Nat) : (resize xs n).length = n := by
  unfold resize
  rw [List.length_append, List.length_take, List.length_replicate]
  omega

theorem resize_of_le (xs : List Nat) (n : Nat) (h : xs.length ≤ n) :
    resize xs n = xs ++ List.replicate (n - xs.length) 0 := by
  unfold resize
  rw [List.take_of_length_le h]

theorem resize_getD (xs : List Nat) (n j : Nat) (h : xs.length ≤ n) :
    (resize xs n).getD j 0 = xs.getD j 0 := by
  rw [resize_of_le xs n h, List.getD_eq_getElem?_getD, List.getD_eq_getElem?_getD,
    List.getElem?_append]
  by_cases hj : j < xs.length
  · rw [if_pos hj]
  · rw [if_neg hj, List.getElem?_eq_none (Nat.le_of_not_lt hj), List.getElem?_replicate]
    split <;> rfl

theorem resize_sum (xs : List Nat) (n : Nat) (h : xs.length ≤ n) :
    (resize xs n).sum = xs.sum := by
  rw [resize_of_le xs n h, List.sum_append, List.sum_replicate]
  simp

theorem bump_sum (xs : List Nat) (i k : Nat) (h : i < xs.length) :
    (bump xs i k).sum = xs.sum + k := by
  induction xs generalizing i with
  | nil => simp at h
  | cons x rest ih =>
    cases i with
    | zero => simp [bump, List.getD_eq_getElem?_getD]; omega
    | succ j =>
      have hj : j < rest.length := by simpa using h
      have := ih j hj
      simp only [bump, List.getD_eq_getElem?_getD, List.set_cons_succ, List.sum_cons,
        List.getElem?_cons_succ] at this ⊢
      omega

theorem countVars_length (table : List Nat) (clause : Cl) :
    (countVars table clause).length = table.length := by
  unfold countVars
  induction clause generalizing table with
  | nil => rfl
  | cons lit rest ih => rw [List.foldl_cons, ih, bump_length]

theorem countLits_length (table : List Nat) (clause : Cl) :
    (countLits table clause).length = table.length := by
  unfold countLits
  induction clause generalizing table with
  | nil => rfl
  | cons lit rest ih => rw [List.foldl_cons, ih, bump_length]

theorem countVars_getD_zero (table : List Nat) (clause : Cl)
    (h : ∀ lit ∈ clause, 1 ≤ lit.var) :
    (countVars table clause).getD 0 0 = table.getD 0 0 := by
  unfold countVars
  induction clause generalizing table with
  | nil => rfl
  | cons lit rest ih =>
    rw [List.foldl_cons, ih _ (fun l hl => h l (List.mem_cons_of_mem _ hl)), bump_getD]
    have h1 := h lit (List.mem_cons_self _ _)
    have h2 : ¬ (0 = lit.var ∧ lit.var < table.length) := by omega
    rw [if_neg h2, Nat.add_zero]

theorem countVars_sum (table : List Nat) (clause : Cl)
    (h : ∀ lit ∈ clause, lit.var < table.length) :
    (countVars table clause).sum = table.sum + clause.length := by
  unfold countVars
  induction clause generalizing table with
  | nil => rfl
  | cons lit rest ih =>
    have h1 := h lit (List.mem_cons_self _ _)
    rw [List.foldl_cons, ih _ (fun l hl => by
      rw [bump_length]; exact h l (List.mem_cons_of_mem _ hl)), bump_sum _ _ _ h1,
      List.length_cons]
    omega

theorem maxVarLits_append (a b : List Lit) :
    maxVarLits (a ++ b) = max (maxVarLits a) (maxVarLits b) := by
  unfold maxVarLits
  induction a with
  | nil => simp
  | cons x rest ih =>
    simp only [List.cons_append, List.map_cons, List.foldr_cons, ih]
    omega

theorem maxVarLits_le (lits : List Lit) : ∀ lit ∈ lits, lit.var ≤ maxVarLits lits := by
  induction lits with
  | nil => intro lit h; simp at h
  | cons x rest ih =>
    intro lit h
    have hm : maxVarLits (x :: rest) = max x.var (maxVarLits rest) := rfl
    rcases List.mem_cons.1 h with h1 | h1
    · rw [hm, h1]; omega
    · have := ih lit h1
      rw [hm]; omega

theorem maxVarLits_attained (lits : List Lit) (h : lits ≠ []) :
    ∃ lit ∈ lits, lit.var = maxVarLits lits := by
  induction lits with
  | nil => exact absurd rfl h
  | cons x rest ih =>
    have hm : maxVarLits (x :: rest) = max x.var (maxVarLits rest) := rfl
    by_cases hr : rest = []
    · subst hr
      exact ⟨x, List.mem_cons_self _ _, by rw [hm]; simp [maxVarLits]⟩
    · obtain ⟨l, hl, hv⟩ := ih hr
      by_cases hc : maxVarLits rest ≤ x.var
      · exact ⟨x, List.mem_cons_self _ _, by rw [hm]; omega⟩
      · exact ⟨l, List.mem_cons_of_mem _ hl, by rw [hm, hv]; omega⟩

theorem tableLen_le (a b : Nat) (h : a ≤ b) : tableLen a ≤ tableLen b := by
  unfold tableLen
  split_ifs <;> omega

theorem occLen_le (a b : Nat) (h : a ≤ b) : occLen a ≤ occLen b := by
  unfold occLen
  split_ifs <;> omega

theorem BaseFeatures1.growLit_spec (s : BaseFeatures1) (lit : Lit) (hs : Sized1 s) :
    (s.growLit lit).n_vars = max s.n_vars lit.var ∧ Sized1 (s.growLit lit) ∧
    (∀ j, (s.growLit lit).variable_horn.getD j 0 = s.variable_horn.getD j 0) ∧
    (∀ j, (s.growLit lit).variable_inv_horn.getD j 0 = s.variable_inv_horn.getD j 0) ∧
    (∀ j, (s.growLit lit).literal_occurrences.getD j 0 = s.literal_occurrences.getD j 0) ∧
    (s.growLit lit).variable_horn.sum = s.variable_horn.sum ∧
    (s.growLit lit).variable_inv_horn.sum = s.variable_inv_horn.sum := by
  obtain ⟨h1, h2, h3⟩ := hs
  unfold BaseFeatures1.growLit
  by_cases h : lit.var > s.n_vars
  · have t1 : s.variable_horn.length ≤ lit.var + 1 := by
      rw [h1]; unfold tableLen; split_ifs <;> omega
    have t2 : s.variable_inv_horn.length ≤ lit.var + 1 := by
      rw [h2]; unfold tableLen; split_ifs <;> omega
    have t3 : s.literal_occurrences.length ≤ 2 * lit.var + 2 := by
      rw [h3]; unfold occLen; split_ifs <;> omega
    have e1 : tableLen lit.var = lit.var + 1 := by
      unfold tableLen; rw [if_neg (by omega)]
    have e2 : occLen lit.var = 2 * lit.var + 2 := by
      unfold occLen; rw [if_neg (by omega)]
    simp only [if_pos h]
    refine ⟨by omega, ⟨?_, ?_, ?_⟩, fun j => resize_getD _ _ j t1, fun j => resize_getD _ _ j t2,
      fun j => resize_getD _ _ j t3, resize_sum _ _ t1, resize_sum _ _ t2⟩
    · rw [resize_length, e1]
    · rw [resize_length, e1]
    · rw [resize_length, e2]
  · rw [if_neg h]
    exact ⟨by omega, ⟨h1, h2, h3⟩, fun _ => rfl, fun _ => rfl, fun _ => rfl, rfl, rfl⟩

theorem BaseFeatures1.grow_spec (s : BaseFeatures1) (clause : Cl) (hs : Sized1 s) :
    (s.grow clause).n_vars = max s.n_vars (maxVarLits clause) ∧ Sized1 (s.grow clause) ∧
    (∀ j, (s.grow clause).variable_horn.getD j 0 = s.variable_horn.getD j 0) ∧
    (∀ j, (s.grow clause).variable_inv_horn.getD j 0 = s.variable_inv_horn.getD j 0) ∧
    (∀ j, (s.grow clause).literal_occurrences.getD j 0 = s.literal_occurrences.getD j 0) ∧
    (s.grow clause).variable_horn.sum = s.variable_horn.sum ∧
    (s.grow clause).variable_inv_horn.sum = s.variable_inv_horn.sum := by
  induction clause generalizing s with
  | nil =>
    refine ⟨?_, hs, fun _ => rfl, fun _ => rfl, fun _ => rfl, rfl, rfl⟩
    show s.n_vars = max s.n_vars 0
    omega
  | cons lit rest ih =>
    obtain ⟨a1, a2, a3, a4, a5, a6, a7⟩ := BaseFeatures1.growLit_spec s lit hs
    obtain ⟨b1, b2, b3, b4, b5, b6, b7⟩ := ih (s.growLit lit) a2
    have hm : maxVarLits (lit :: rest) = max lit.var (maxVarLits rest) := rfl
    have hg : s.grow (lit :: rest) = (s.growLit lit).grow rest := rfl
    rw [hg]
    refine ⟨by rw [b1, a1, hm]; omega, b2, fun j => (b3 j).trans (a3 j),
      fun j => (b4 j).trans (a4 j), fun j => (b5 j).trans (a5 j), b6.trans a6, b7.trans a7⟩

theorem BaseFeatures1.grow_bounds (s : BaseFeatures1) (clause : Cl) (hs : Sized1 s)
    (hpos : ∀ lit ∈ clause, 1 ≤ lit.var) :
    ∀ lit ∈ clause, lit.var ≤ (s.grow clause).n_vars ∧
      lit.var < (s.grow clause).variable_horn.length ∧
      lit.var < (s.grow clause).variable_inv_horn.length ∧
      lit.index < (s.grow clause).literal_occurrences.length := by
  intro lit hl
  obtain ⟨a1, ⟨s1, s2, s3⟩, -⟩ := BaseFeatures1.grow_spec s clause hs
  have h1 := maxVarLits_le clause lit hl
  have h2 := hpos lit hl
  have hn : lit.var ≤ (s.grow clause).n_vars := by rw [a1]; omega
  have e1 : tableLen (s.grow clause).n_vars = (s.grow clause).n_vars + 1 := by
    unfold tableLen; rw [if_neg (by omega)]
  have e2 : occLen (s.grow clause).n_vars = 2 * (s.grow clause).n_vars + 2 := by
    unfold occLen; rw [if_neg (by omega)]
  refine ⟨hn, by omega, by omega, ?_⟩
  rw [s3, e2]
  unfold Lit.index
  split_ifs <;> omega

theorem BaseFeatures1.record_tables (s : BaseFeatures1) (w : Nat) (c : Cl) :
    (s.record w c).n_vars = (s.grow c).n_vars ∧
    (s.record w c).variable_horn =
      (if w = 0 ∧ n_neg c ≤ 1 then countVars (s.grow c).variable_horn c
        else (s.grow c).variable_horn) ∧
    (s.record w c).variable_inv_horn =
      (if w = 0 ∧ n_pos c ≤ 1 then countVars (s.grow c).variable_inv_horn c
        else (s.grow c).variable_inv_horn) ∧
    (s.record w c).literal_occurrences =
      (if w = 0 then countLits (s.grow c).literal_occurrences c
        else (s.grow c).literal_occurrences) ∧
    (s.record w c).balance_clause =
      (if w = 0 ∧ c.length > 0 then s.balance_clause ++ [balance (n_pos c) (n_neg c)]
        else s.balance_clause) := by
  obtain ⟨-, -, -, -, -, -, -, -, -, g10, -, -⟩ := BaseFeatures1.grow_fields s c
  unfold BaseFeatures1.record
  by_cases hw : w = 0
  · subst hw
    refine ⟨?_, ?_, ?_, ?_, ?_⟩ <;>
      simp only [BaseFeatures1.recordHard, if_true, true_and, g10]
  · refine ⟨?_, ?_, ?_, ?_, ?_⟩ <;>
      simp only [BaseFeatures1.recordSoft, if_neg hw, hw, false_and, if_false, g10]

theorem BaseFeatures1.record_sized (s : BaseFeatures1) (w : Nat) (c : Cl) (hs : Sized1 s) :
    Sized1 (s.record w c) ∧ (s.record w c).n_vars = max s.n_vars (maxVarLits c) ∧
    (s.record w c).variable_horn.length = (s.grow c).variable_horn.length ∧
    (s.record w c).variable_inv_horn.length = (s.grow c).variable_inv_horn.length ∧
    (s.record w c).literal_occurrences.length = (s.grow c).literal_occurrences.length := by
  obtain ⟨a1, ⟨s1, s2, s3⟩, -⟩ := BaseFeatures1.grow_spec s c hs
  obtain ⟨r1, r2, r3, r4, -⟩ := BaseFeatures1.record_tables s w c
  have l1 : (s.record w c).variable_horn.length = (s.grow c).variable_horn.length := by
    rw [r2]; split_ifs <;> simp [countVars_length]
  have l2 : (s.record w c).variable_inv_horn.length = (s.grow c).variable_inv_horn.length := by
    rw [r3]; split_ifs <;> simp [countVars_length]
  have l3 : (s.record w c).literal_occurrences.length =
      (s.grow c).literal_occurrences.length := by
    rw [r4]; split_ifs <;> simp [countLits_length]
  refine ⟨⟨?_, ?_, ?_⟩, r1.trans a1, l1, l2, l3⟩
  · rw [l1, r1, s1]
  · rw [l2, r1, s2]
  · rw [l3, r1, s3]

theorem maxVar_cons (c : Cl) (cs : List Cl) :
    maxVar (c :: cs) = max (maxVarLits c) (maxVar cs) := by
  unfold maxVar
  rw [List.flatten_cons, maxVarLits_append]

theorem records_clauses (input : List Line) (top : Nat) :
    (records input top).map (fun r => r.2) = clauses input := by
  induction input generalizing top with
  | nil => rfl
  | cons l rest ih =>
    cases l with
    | comment => exact ih top
    | header t => exact ih t
    | hard c => simp only [records, clauses, List.map_cons, ih]
    | weighted w c => simp only [records, clauses, List.map_cons, ih]

theorem records2_clauses (input : List Line) (top : Nat) :
    (records2 input top).map (fun r => r.2.2) = clauses input := by
  induction input generalizing top with
  | nil => rfl
  | cons l rest ih =>
    cases l with
    | comment => exact ih top
    | header t => exact ih t
    | hard c => simp only [records2, clauses, List.map_cons, ih]
    | weighted w c => simp only [records2, clauses, List.map_cons, ih]

theorem BaseFeatures1.run_sized (s : BaseFeatures1) (rs : List (Nat × Cl)) (hs : Sized1 s) :
    Sized1 (s.run rs) ∧
    (s.run rs).n_vars = max s.n_vars (maxVar (rs.map (fun r => r.2))) := by
  induction rs generalizing s with
  | nil =>
    refine ⟨hs, ?_⟩
    show s.n_vars = max s.n_vars 0
    omega
  | cons r rs ih =>
    obtain ⟨a1, a2, -⟩ := BaseFeatures1.record_sized s r.1 r.2 hs
    obtain ⟨b1, b2⟩ := ih (s.record r.1 r.2) a1
    rw [BaseFeatures1.run_cons, List.map_cons, maxVar_cons]
    refine ⟨b1, ?_⟩
    rw [b2, a2]
    omega

theorem BaseFeatures1.record_zero_sum (s : BaseFeatures1) (w : Nat) (c : Cl) (hs : Sized1 s)
    (hpos : ∀ lit ∈ c, 1 ≤ lit.var) :
    (s.record w c).variable_horn.getD 0 0 = s.variable_horn.getD 0 0 ∧
    (s.record w c).variable_inv_horn.getD 0 0 = s.variable_inv_horn.getD 0 0 ∧
    (s.record w c).variable_horn.sum =
      s.variable_horn.sum + (if w = 0 ∧ n_neg c ≤ 1 then c.length else 0) ∧
    (s.record w c).variable_inv_horn.sum =
      s.variable_inv_horn.sum + (if w = 0 ∧ n_pos c ≤ 1 then c.length else 0) := by
  obtain ⟨-, -, g3, g4, -, g6, g7⟩ := BaseFeatures1.grow_spec s c hs
  obtain ⟨-, r2, r3, -, -⟩ := BaseFeatures1.record_tables s w c
  have hb := BaseFeatures1.grow_bounds s c hs hpos
  rw [r2, r3]
  refine ⟨?_, ?_, ?_, ?_⟩
  · split_ifs
    · rw [countVars_getD_zero _ _ hpos, g3]
    · exact g3 0
  · split_ifs
    · rw [countVars_getD_zero _ _ hpos, g4]
    · exact g4 0
  · split_ifs
    · rw [countVars_sum _ _ (fun l hl => (hb l hl).2.1), g6]
    · rw [g6, Nat.add_zero]
  · split_ifs
    · rw [countVars_sum _ _ (fun l hl => (hb l hl).2.2.1), g7]
    · rw [g7, Nat.add_zero]

theorem BaseFeatures1.run_zero_sum (s : BaseFeatures1) (rs : List (Nat × Cl)) (hs : Sized1 s)
    (hpos : varsPositive (rs.map (fun r => r.2))) :
    (s.run rs).variable_horn.getD 0 0 = s.variable_horn.getD 0 0 ∧
    (s.run rs).variable_inv_horn.getD 0 0 = s.variable_inv_horn.getD 0 0 ∧
    (s.run rs).variable_horn.sum = s.variable_horn.sum +
      (((hardOf rs).filter (fun c => decide (n_neg c ≤ 1))).map (fun c => c.length)).sum ∧
    (s.run rs).variable_inv_horn.sum = s.variable_inv_horn.sum +
      (((hardOf rs).filter (fun c => decide (n_pos c ≤ 1))).map (fun c => c.length)).sum := by
  induction rs generalizing s with
  | nil => simp [BaseFeatures1.run, hardOf]
  | cons r rs ih =>
    obtain ⟨w, c⟩ := r
    have hc : ∀ lit ∈ c, 1 ≤ lit.var := hpos c (by simp)
    have hrest : varsPositive (rs.map (fun r => r.2)) := fun c2 h2 =>
      hpos c2 (by rw [List.map_cons]; exact List.mem_cons_of_mem _ h2)
    obtain ⟨a1, a2, a3, a4⟩ := BaseFeatures1.record_zero_sum s w c hs hc
    obtain ⟨b1, b2, b3, b4⟩ := ih (s.record w c) (BaseFeatures1.record_sized s w c hs).1 hrest
    rw [BaseFeatures1.run_cons, hardOf_cons]
    simp only at b1 b2 b3 b4 ⊢
    refine ⟨b1.trans a1, b2.trans a2, ?_, ?_⟩
    · rw [b3, a3]
      by_cases hw : w = 0
      · by_cases hn : n_neg c ≤ 1
        · simp [hw, hn, List.filter_cons]; omega
        · simp [hw, hn, List.filter_cons]
      · simp [hw]
    · rw [b4, a4]
      by_cases hw : w = 0
      · by_cases hn : n_pos c ≤ 1
        · simp [hw, hn, List.filter_cons]; omega
        · simp [hw, hn, List.filter_cons]
      · simp [hw]

theorem BaseFeatures1.run_balance (s : BaseFeatures1) (rs : List (Nat × Cl)) :
    (s.run rs).balance_clause = s.balance_clause ++
      ((hardOf rs).filter (fun c => decide (c.length > 0))).map
        (fun c => balance (n_pos c) (n_neg c)) := by
  induction rs generalizing s with
  | nil => simp [BaseFeatures1.run, hardOf]
  | cons r rs ih =>
    obtain ⟨w, c⟩ := r
    obtain ⟨-, -, -, -, r5⟩ := BaseFeatures1.record_tables s w c
    rw [BaseFeatures1.run_cons, hardOf_cons, ih, r5]
    by_cases hw : w = 0
    · by_cases hl : c.length > 0
      · simp [hw, hl, List.filter_cons]
      · simp [hw, hl, List.filter_cons]
    · simp [hw]

theorem BaseFeatures2.visit_eq (top weight size : Nat) (s : BaseFeatures2) (lit : Lit) :
    BaseFeatures2.visit top weight size s lit =
      BaseFeatures2.counted top weight size (s.resized lit) lit := rfl

theorem BaseFeatures2.resized_spec (s : BaseFeatures2) (lit : Lit) (hs : Sized2 s) :
    (s.resized lit).n_vars = max s.n_vars lit.var ∧ Sized2 (s.resized lit) ∧
    (s.resized lit).vcg_cdegree = s.vcg_cdegree ∧
    (∀ j, (s.resized lit).vcg_vdegree.getD j 0 = s.vcg_vdegree.getD j 0) ∧
    (∀ j, (s.resized lit).vg_degree.getD j 0 = s.vg_degree.getD j 0) := by
  obtain ⟨h1, h2⟩ := hs
  unfold BaseFeatures2.resized
  by_cases h : lit.var > s.n_vars
  · have t1 : s.vcg_vdegree.length ≤ lit.var + 1 := by
      rw [h1]; unfold tableLen; split_ifs <;> omega
    have t2 : s.vg_degree.length ≤ lit.var + 1 := by
      rw [h2]; unfold tableLen; split_ifs <;> omega
    have e1 : tableLen lit.var = lit.var + 1 := by
      unfold tableLen; rw [if_neg (by omega)]
    rw [if_pos h]
    refine ⟨by simp only; omega, ⟨?_, ?_⟩, rfl, fun j => resize_getD _ _ j t1,
      fun j => resize_getD _ _ j t2⟩
    · simp only [resize_length, e1]
    · simp only [resize_length, e1]
  · rw [if_neg h]
    exact ⟨by omega, ⟨h1, h2⟩, rfl, fun _ => rfl, fun _ => rfl⟩

theorem BaseFeatures2.counted_spec (top weight size : Nat) (t : BaseFeatures2) (lit : Lit) :
    (BaseFeatures2.counted top weight size t lit).n_vars = t.n_vars ∧
    (BaseFeatures2.counted top weight size t lit).vcg_cdegree = t.vcg_cdegree ∧
    (BaseFeatures2.counted top weight size t lit).vcg_vdegree.length = t.vcg_vdegree.length ∧
    (BaseFeatures2.counted top weight size t lit).vg_degree.length = t.vg_degree.length ∧
    (lit.var < t.vcg_vdegree.length → ∀ j,
      (BaseFeatures2.counted top weight size t lit).vcg_vdegree.getD j 0 =
        t.vcg_vdegree.getD j 0 +
          (if j = lit.var ∧ countsAsHard top weight = true then 1 else 0)) ∧
    (lit.var < t.vg_degree.length → ∀ j,
      (BaseFeatures2.counted top weight size t lit).vg_degree.getD j 0 =
        t.vg_degree.getD j 0 +
          (if j = lit.var ∧ countsAsHard top weight = true then size else 0)) := by
  unfold BaseFeatures2.counted
  by_cases hh : countsAsHard top weight = true
  · rw [if_pos hh]
    refine ⟨rfl, rfl, bump_length _ _ _, bump_length _ _ _, ?_, ?_⟩
    · intro b j
      show (bump t.vcg_vdegree lit.var 1).getD j 0 = _
      rw [bump_getD]
      by_cases hj : j = lit.var <;> simp [hj, b, hh]
    · intro b j
      show (bump t.vg_degree lit.var size).getD j 0 = _
      rw [bump_getD]
      by_cases hj : j = lit.var <;> simp [hj, b, hh]
  · rw [if_neg hh]
    refine ⟨rfl, rfl, rfl, rfl, ?_, ?_⟩ <;> intro _ j <;> simp [hh]

theorem BaseFeatures2.visit_spec (top weight size : Nat) (s : BaseFeatures2) (lit : Lit)
    (hs : Sized2 s) :
    (BaseFeatures2.visit top weight size s lit).n_vars = max s.n_vars lit.var ∧
    Sized2 (BaseFeatures2.visit top weight size s lit) ∧
    (BaseFeatures2.visit top weight size s lit).vcg_cdegree = s.vcg_cdegree ∧
    (1 ≤ lit.var →
      lit.var < (s.resized lit).vcg_vdegree.length ∧
      lit.var < (s.resized lit).vg_degree.length ∧
      (∀ j, (BaseFeatures2.visit top weight size s lit).vcg_vdegree.getD j 0 =
        s.vcg_vdegree.getD j 0 +
          (if j = lit.var ∧ countsAsHard top weight = true then 1 else 0)) ∧
      (∀ j, (BaseFeatures2.visit top weight size s lit).vg_degree.getD j 0 =
        s.vg_degree.getD j 0 +
          (if j = lit.var ∧ countsAsHard top weight = true then size else 0))) := by
  obtain ⟨a1, ⟨a2, a3⟩, a4, a5, a6⟩ := BaseFeatures2.resized_spec s lit hs
  obtain ⟨b1, b2, b3, b4, b5, b6⟩ := BaseFeatures2.counted_spec top weight size (s.resized lit) lit
  rw [BaseFeatures2.visit_eq]
  refine ⟨b1.trans a1, ⟨by rw [b3, b1, a2], by rw [b4, b1, a3]⟩, b2.trans a4, ?_⟩
  intro hpos
  have e : tableLen (s.resized lit).n_vars = (s.resized lit).n_vars + 1 := by
    unfold tableLen; rw [if_neg (by omega)]
  have l1 : lit.var < (s.resized lit).vcg_vdegree.length := by omega
  have l2 : lit.var < (s.resized lit).vg_degree.length := by omega
  refine ⟨l1, l2, fun j => ?_, fun j => ?_⟩
  · rw [b5 l1 j, a5]
  · rw [b6 l2 j, a6]

theorem BaseFeatures2.visits_spec (top weight size : Nat) (clause : Cl) (s : BaseFeatures2)
    (hs : Sized2 s) :
    (clause.foldl (BaseFeatures2.visit top weight size) s).n_vars =
      max s.n_vars (maxVarLits clause) ∧
    Sized2 (clause.foldl (BaseFeatures2.visit top weight size) s) ∧
    (clause.foldl (BaseFeatures2.visit top weight size) s).vcg_cdegree = s.vcg_cdegree ∧
    ((∀ lit ∈ clause, 1 ≤ lit.var) →
      (clause.foldl (BaseFeatures2.visit top weight size) s).vcg_vdegree.getD 0 0 =
        s.vcg_vdegree.getD 0 0 ∧
      (clause.foldl (BaseFeatures2.visit top weight size) s).vg_degree.getD 0 0 =
        s.vg_degree.getD 0 0) := by
  induction clause generalizing s with
  | nil =>
    refine ⟨?_, hs, rfl, fun _ => ⟨rfl, rfl⟩⟩
    show s.n_vars = max s.n_vars 0
    omega
  | cons lit rest ih =>
    obtain ⟨a1, a2, a3, a4⟩ := BaseFeatures2.visit_spec top weight size s lit hs
    obtain ⟨b1, b2, b3, b4⟩ := ih (BaseFeatures2.visit top weight size s lit) a2
    have hm : maxVarLits (lit :: rest) = max lit.var (maxVarLits rest) := rfl
    rw [List.foldl_cons]
    refine ⟨by rw [b1, a1, hm]; omega, b2, b3.trans a3, ?_⟩
    intro hpos
    have hl := hpos lit (List.mem_cons_self _ _)
    obtain ⟨-, -, c3, c4⟩ := a4 hl
    obtain ⟨d1, d2⟩ := b4 (fun l h => hpos l (List.mem_cons_of_mem _ h))
    have z : ¬ (0 = lit.var ∧ countsAsHard top weight = true) := by omega
    refine ⟨?_, ?_⟩
    · rw [d1, c3 0, if_neg z, Nat.add_zero]
    · rw [d2, c4 0, if_neg z, Nat.add_zero]

theorem BaseFeatures2.run_cons2 (s : BaseFeatures2) (r : Nat × Nat × Cl)
    (rs : List (Nat × Nat × Cl)) :
    s.run (r :: rs) = (s.record r.1 r.2.1 r.2.2).run rs := rfl

theorem BaseFeatures2.run_spec (rs : List (Nat × Nat × Cl)) (s : BaseFeatures2)
    (hs : Sized2 s) :
    (s.run rs).n_vars = max s.n_vars (maxVar (rs.map (fun r => r.2.2))) ∧
    Sized2 (s.run rs) ∧
    (s.run rs).vcg_cdegree = s.vcg_cdegree ++ rs.map (fun r => r.2.2.length) ∧
    (varsPositive (rs.map (fun r => r.2.2)) →
      (s.run rs).vcg_vdegree.getD 0 0 = s.vcg_vdegree.getD 0 0 ∧
      (s.run rs).vg_degree.getD 0 0 = s.vg_degree.getD 0 0) := by
  induction rs generalizing s with
  | nil =>
    refine ⟨?_, hs, by simp [BaseFeatures2.run], fun _ => ⟨rfl, rfl⟩⟩
    show s.n_vars = max s.n_vars 0
    omega
  | cons r rs ih =>
    obtain ⟨t, w, c⟩ := r
    have hs0 : Sized2 { s with vcg_cdegree := s.vcg_cdegree ++ [c.length] } := hs
    obtain ⟨a1, a2, a3, a4⟩ := BaseFeatures2.visits_spec t w c.length c _ hs0
    have hrec : s.record t w c = c.foldl (BaseFeatures2.visit t w c.length)
        { s with vcg_cdegree := s.vcg_cdegree ++ [c.length] } := rfl
    rw [← hrec] at a1 a2 a3 a4
    obtain ⟨b1, b2, b3, b4⟩ := ih (s.record t w c) a2
    rw [BaseFeatures2.run_cons2, List.map_cons, List.map_cons, maxVar_cons]
    refine ⟨by rw [b1, a1]; simp only; omega, b2, by rw [b3, a3]; simp, ?_⟩
    intro hpos
    obtain ⟨c1, c2⟩ := a4 (hpos c (List.mem_cons_self _ _))
    obtain ⟨d1, d2⟩ := b4 (fun c2 h2 => hpos c2 (List.mem_cons_of_mem _ h2))
    exact ⟨d1.trans c1, d2.trans c2⟩

/-! ## The claims, continued -/

theorem sized1_init : Sized1 BaseFeatures1.init := ⟨rfl, rfl, rfl⟩

theorem sized2_init : Sized2 BaseFeatures2.init := ⟨rfl, rfl⟩

theorem BaseFeatures1.feature_variables (dist : List ℚ → List ℚ) (s : BaseFeatures1) :
    feature BaseFeatures1.names (BaseFeatures1.load_feature_record dist s) "h_clauses"
      = some (s.n_hard_clauses : ℚ) ∧
    feature BaseFeatures1.names (BaseFeatures1.load_feature_record dist s) "variables"
      = some (s.n_vars : ℚ) := by
  simp only [feature, BaseFeatures1.names, BaseFeatures1.load_feature_record, buckets_eq,
    List.cons_append, List.nil_append, List.zip_cons_cons, List.append_assoc]
  refine ⟨?_, ?_⟩ <;> simp [List.lookup]

theorem BaseFeatures1.extract_n_vars (input : List Line) :
    ((BaseFeatures1.init.run (records input 0)).finish).n_vars = maxVar (clauses input) ∧
    Sized1 (BaseFeatures1.init.run (records input 0)) := by
  obtain ⟨a1, a2⟩ := BaseFeatures1.run_sized BaseFeatures1.init (records input 0) sized1_init
  rw [records_clauses] at a2
  refine ⟨?_, a1⟩
  show (BaseFeatures1.init.run (records input 0)).n_vars = _
  rw [a2]
  show max 0 _ = _
  omega

theorem BaseFeatures2.pass1_n_vars (input : List Line) :
    (BaseFeatures2.init.run (records2 input 0)).n_vars = maxVar (clauses input) ∧
    Sized2 (BaseFeatures2.init.run (records2 input 0)) ∧
    (BaseFeatures2.init.run (records2 input 0)).vcg_cdegree =
      (clauses input).map (fun c => c.length) := by
  obtain ⟨a1, a2, a3, -⟩ := BaseFeatures2.run_spec (records2 input 0) BaseFeatures2.init
    sized2_init
  rw [records2_clauses] at a1
  refine ⟨?_, a2, ?_⟩
  · rw [a1]
    show max 0 _ = _
    omega
  · rw [a3, ← records2_clauses input 0, List.map_map]
    rfl

theorem maxVar_spec (cs : List Cl) :
    (∀ c ∈ cs, ∀ lit ∈ c, lit.var ≤ maxVar cs) ∧
    ((∀ c ∈ cs, c = []) → maxVar cs = 0) ∧
    ((∃ c ∈ cs, c ≠ []) → ∃ c ∈ cs, ∃ lit ∈ c, lit.var = maxVar cs) := by
  refine ⟨?_, ?_, ?_⟩
  · intro c hc lit hl
    exact maxVarLits_le _ lit (List.mem_flatten.2 ⟨c, hc, hl⟩)
  · intro h
    have : cs.flatten = [] := by
      rw [List.flatten_eq_nil_iff]
      exact h
    unfold maxVar
    rw [this]
    rfl
  · rintro ⟨c, hc, hne⟩
    have hf : cs.flatten ≠ [] := by
      intro h
      rw [List.flatten_eq_nil_iff] at h
      exact hne (h c hc)
    obtain ⟨lit, hl, hv⟩ := maxVarLits_attained _ hf
    obtain ⟨c2, hc2, hl2⟩ := List.mem_flatten.1 hl
    exact ⟨c2, hc2, lit, hl2, hv⟩

/-- C11: the feature `variables` (`n_vars` of `BaseFeatures1`) is the largest variable id
occurring in any literal of any clause, hard or soft, and `0` when there is no literal; it is
determined by the clauses alone (the header contributes only `top`), and `n_vars` of
`BaseFeatures2` after pass 1 is the same number. -/
theorem C11_variables_is_largest_variable (dist : List ℚ → List ℚ) (input : List Line)
    (hok : markersOK input 0 = true) :
    (∃ s1 feats top s2, BaseFeatures1.extract input = some s1 ∧
      BaseFeatures1.getFeatures dist input = some feats ∧
      BaseFeatures2.pass1 input 0 BaseFeatures2.init = some (top, s2) ∧
      s1.n_vars = maxVar (clauses input) ∧
      feature BaseFeatures1.names feats "variables" = some ((maxVar (clauses input) : Nat) : ℚ) ∧
      s2.n_vars = maxVar (clauses input)) ∧
    (∀ c ∈ clauses input, ∀ lit ∈ c, lit.var ≤ maxVar (clauses input)) ∧
    ((∀ c ∈ clauses input, c = []) → maxVar (clauses input) = 0) ∧
    ((∃ c ∈ clauses input, c ≠ []) →
      ∃ c ∈ clauses input, ∃ lit ∈ c, lit.var = maxVar (clauses input)) ∧
    (∀ t, clauses (Line.header t :: input) = clauses input) ∧
    (∀ other : List Line, markersOK other 0 = true → clauses other = clauses input →
      (BaseFeatures1.extract other).map (fun s => s.n_vars) =
        (BaseFeatures1.extract input).map (fun s => s.n_vars)) := by
  obtain ⟨m1, m2, m3⟩ := maxVar_spec (clauses input)
  have e1 := BaseFeatures1.extract1_eq input
  rw [if_pos hok] at e1
  have hn := (BaseFeatures1.extract_n_vars input).1
  refine ⟨⟨(BaseFeatures1.init.run (records input 0)).finish,
    BaseFeatures1.load_feature_record dist (BaseFeatures1.init.run (records input 0)).finish,
    finalTop input 0, BaseFeatures2.init.run (records2 input 0),
    e1, BaseFeatures1.getFeatures_eq dist input hok, ?_, hn, ?_,
    (BaseFeatures2.pass1_n_vars input).1⟩, m1, m2, m3, fun _ => rfl, ?_⟩
  · rw [BaseFeatures2.pass1_eq, if_pos hok]
  · rw [(BaseFeatures1.feature_variables dist _).2, hn]
  · intro other ho hc
    have e2 := BaseFeatures1.extract1_eq other
    rw [if_pos ho] at e2
    rw [e1, e2, Option.map_some', Option.map_some', hn,
      (BaseFeatures1.extract_n_vars other).1, hc]

/-- C11, witness: the legacy sample `p wcnf 2 3 5`, `5 1 -2 0`, `2 1 0`, `7 2 0`, whose
largest variable is 2. -/
theorem C11_variables_is_largest_variable_witness :
    maxVar (clauses sampleLegacy) = 2 ∧
    ∃ s1 feats top s2, BaseFeatures1.extract sampleLegacy = some s1 ∧
      BaseFeatures1.getFeatures summarize0 sampleLegacy = some feats ∧
      BaseFeatures2.pass1 sampleLegacy 0 BaseFeatures2.init = some (top, s2) ∧
      s1.n_vars = maxVar (clauses sampleLegacy) ∧
      feature BaseFeatures1.names feats "variables" =
        some ((maxVar (clauses sampleLegacy) : Nat) : ℚ) ∧
      s2.n_vars = maxVar (clauses sampleLegacy) :=
  ⟨by decide, (C11_variables_is_largest_variable summarize0 sampleLegacy (by decide)).1⟩

theorem none_of_isSome_false {α : Type} (o : Option α) (h : o.isSome = false) : o = none := by
  cases o with
  | none => rfl
  | some a => exact Bool.noConfusion h

theorem markersOK_append_hard (pre : List Line) (c : Cl) (post : List Line) (top : Nat)
    (h : finalTop pre top ≠ 0) : markersOK (pre ++ Line.hard c :: post) top = false := by
  induction pre generalizing top with
  | nil =>
    have ht : top ≠ 0 := h
    simp [markersOK, ht]
  | cons l rest ih =>
    cases l with
    | comment => exact ih top h
    | header t => exact ih t h
    | hard c2 =>
      have := ih top h
      show (decide (top = 0) && markersOK (rest ++ Line.hard c :: post) top) = false
      rw [this, Bool.and_false]
    | weighted w c2 => exact ih top h

theorem markersOK_false_split (input : List Line) (top : Nat)
    (h : markersOK input top = false) :
    ∃ pre c post, input = pre ++ Line.hard c :: post ∧ finalTop pre top ≠ 0 := by
  induction input generalizing top with
  | nil => simp [markersOK] at h
  | cons l rest ih =>
    cases l with
    | comment =>
      obtain ⟨pre, c, post, h1, h2⟩ := ih top h
      exact ⟨Line.comment :: pre, c, post, by rw [h1]; rfl, h2⟩
    | header t =>
      obtain ⟨pre, c, post, h1, h2⟩ := ih t h
      exact ⟨Line.header t :: pre, c, post, by rw [h1]; rfl, h2⟩
    | hard c2 =>
      by_cases ht : top = 0
      · have h3 : markersOK rest top = false := by
          simpa [markersOK, ht] using h
        obtain ⟨pre, c, post, h1, h2⟩ := ih top h3
        exact ⟨Line.hard c2 :: pre, c, post, by rw [h1]; rfl, h2⟩
      · exact ⟨[], c2, rest, rfl, ht⟩
    | weighted w c2 =>
      obtain ⟨pre, c, post, h1, h2⟩ := ih top h
      exact ⟨Line.weighted w c2 :: pre, c, post, by rw [h1]; rfl, h2⟩

theorem markersOK_iff (input : List Line) (top : Nat) :
    markersOK input top = true ↔
      ∀ pre c post, input = pre ++ Line.hard c :: post → finalTop pre top = 0 := by
  constructor
  · intro h pre c post heq
    by_contra hne
    have := markersOK_append_hard pre c post top hne
    rw [← heq, h] at this
    exact Bool.noConfusion this
  · intro h
    by_contra hne
    have hf : markersOK input top = false := by
      cases hm : markersOK input top
      · rfl
      · exact absurd hm hne
    obtain ⟨pre, c, post, h1, h2⟩ := markersOK_false_split input top hf
    exact h2 (h pre c post h1)

theorem pass2_ok_of_noHeader (input : List Line) (top : Nat) (hno : noHeader input = true)
    (hok : markersOK input top = true) : top = 0 ∨ hasMarker input = false := by
  induction input with
  | nil => exact Or.inr rfl
  | cons l rest ih =>
    cases l with
    | comment => exact ih hno hok
    | header t => simp [noHeader] at hno
    | hard c =>
      simp only [markersOK, Bool.and_eq_true, decide_eq_true_eq] at hok
      exact Or.inl hok.1
    | weighted w c => exact ih hno hok

theorem pass2_ok_of_headersFirst (input : List Line) (top : Nat)
    (hfirst : headersFirst input = true) (hok : markersOK input top = true) :
    finalTop input top = 0 ∨ hasMarker input = false := by
  induction input generalizing top with
  | nil => exact Or.inr rfl
  | cons l rest ih =>
    cases l with
    | comment => exact ih top hfirst hok
    | header t => exact ih t hfirst hok
    | hard c =>
      have hno : noHeader (Line.hard c :: rest) = true := hfirst
      rw [finalTop_of_noHeader _ top hno]
      exact pass2_ok_of_noHeader _ top hno hok
    | weighted w c =>
      have hno : noHeader (Line.weighted w c :: rest) = true := hfirst
      rw [finalTop_of_noHeader _ top hno]
      exact pass2_ok_of_noHeader _ top hno hok

theorem BaseFeatures.extract_isSome_iff (dist : List ℚ → List ℚ) (input : List Line) :
    (BaseFeatures1.extract input).isSome = markersOK input 0 ∧
    (BaseFeatures2.pass1 input 0 BaseFeatures2.init).isSome = markersOK input 0 ∧
    (BaseFeatures2.extract input).isSome = assertionsHold input ∧
    (BaseFeatures.extract dist input).isSome = assertionsHold input := by
  have e1 := BaseFeatures1.extract1_eq input
  have e2 := BaseFeatures2.extract2_eq input
  have e3 := BaseFeatures2.pass1_eq input 0 BaseFeatures2.init
  refine ⟨?_, ?_, ?_, ?_⟩
  · rw [e1]; cases markersOK input 0 <;> rfl
  · rw [e3]; cases markersOK input 0 <;> rfl
  · rw [e2]; cases assertionsHold input <;> rfl
  · cases hv : assertionsHold input
    · unfold BaseFeatures.extract BaseFeatures1.getFeatures BaseFeatures2.getFeatures
      rw [e2, hv]
      cases BaseFeatures1.extract input <;> rfl
    · rw [(BaseFeatures.composed_eq dist input hv).2.2]
      rfl

/-- C12 (as amended): when a clause marked `h` is read while the `top` declared by the last
header before it is nonzero, `BaseFeatures1::extract`, pass 1 of `BaseFeatures2::extract` and
with them the composer fail at that clause, whatever follows it.  Conversely, when no `h`
clause is read under a nonzero `top`, the assertion of `BaseFeatures1` and of pass 1 is never
violated; the assertion of pass 2 is checked against the `top` left by pass 1, so pass 2
succeeds iff that `top` is `0` or there is no `h` clause, which is the case whenever the header
lines precede the clause lines. -/
theorem C12_hard_marker_under_nonzero_top (dist : List ℚ → List ℚ) (input : List Line) :
    (∀ pre c post, input = pre ++ Line.hard c :: post → finalTop pre 0 ≠ 0 →
      BaseFeatures1.extract input = none ∧
      BaseFeatures2.pass1 input 0 BaseFeatures2.init = none ∧
      BaseFeatures2.extract input = none ∧
      BaseFeatures.extract dist input = none) ∧
    ((∀ pre c post, input = pre ++ Line.hard c :: post → finalTop pre 0 = 0) →
      (BaseFeatures1.extract input).isSome = true ∧
      (BaseFeatures2.pass1 input 0 BaseFeatures2.init).isSome = true ∧
      ((BaseFeatures2.extract input).isSome = true ↔
        (finalTop input 0 = 0 ∨ hasMarker input = false)) ∧
      ((BaseFeatures.extract dist input).isSome = true ↔
        (finalTop input 0 = 0 ∨ hasMarker input = false)) ∧
      (headersFirst input = true → (BaseFeatures.extract dist input).isSome = true)) := by
  obtain ⟨i1, i2, i3, i4⟩ := BaseFeatures.extract_isSome_iff dist input
  have hv : assertionsHold input =
      (markersOK input 0 && (decide (finalTop input 0 = 0) || !hasMarker input)) := rfl
  constructor
  · intro pre c post heq hne
    have hm : markersOK input 0 = false := by
      rw [heq]; exact markersOK_append_hard pre c post 0 hne
    have ha : assertionsHold input = false := by rw [hv, hm]; rfl
    rw [hm] at i1 i2
    rw [ha] at i3 i4
    exact ⟨none_of_isSome_false _ i1, none_of_isSome_false _ i2, none_of_isSome_false _ i3,
      none_of_isSome_false _ i4⟩
  · intro h
    have hm : markersOK input 0 = true := (markersOK_iff input 0).2 h
    have ha : assertionsHold input = true ↔
        (finalTop input 0 = 0 ∨ hasMarker input = false) := by
      rw [hv, hm]
      cases hasMarker input <;> simp
    refine ⟨by rw [i1, hm], by rw [i2, hm], by rw [i3]; exact ha, by rw [i4]; exact ha, ?_⟩
    intro hfirst
    rw [i4]
    exact ha.2 (pass2_ok_of_headersFirst input 0 hfirst hm)

/-- C12, witness: in `p wcnf 1 1 5`, `h 1 0`, `2 1 0` the clause `h 1 0` is read under
`top = 5`. -/
theorem C12_hard_marker_under_nonzero_top_witness :
    BaseFeatures1.extract [Line.header 5, Line.hard [Lit.ofInt 1], Line.weighted 2 [Lit.ofInt 1]]
      = none ∧
    BaseFeatures2.pass1 [Line.header 5, Line.hard [Lit.ofInt 1],
      Line.weighted 2 [Lit.ofInt 1]] 0 BaseFeatures2.init = none ∧
    BaseFeatures2.extract [Line.header 5, Line.hard [Lit.ofInt 1],
      Line.weighted 2 [Lit.ofInt 1]] = none ∧
    BaseFeatures.extract summarize0 [Line.header 5, Line.hard [Lit.ofInt 1],
      Line.weighted 2 [Lit.ofInt 1]] = none :=
  (C12_hard_marker_under_nonzero_top summarize0
    [Line.header 5, Line.hard [Lit.ofInt 1], Line.weighted 2 [Lit.ofInt 1]]).1
    [Line.header 5] [Lit.ofInt 1] [Line.weighted 2 [Lit.ofInt 1]] rfl (by decide)

/-- C12, counterexample: in `h 1 0`, `p wcnf 1 1 5` no header precedes the `h` clause, and
`BaseFeatures1` and pass 1 run through, yet `assert(top == 0)` fails in pass 2, which runs with
the final `top = 5`; in `p wcnf 1 1 5`, `p wcnf 1 1 0`, `h 1 0` the `h` clause comes after a
header that declared a nonzero `top`, yet extraction produces a feature vector. -/
theorem C12_late_header_fails_pass2 :
    (BaseFeatures1.extract [Line.hard [Lit.ofInt 1], Line.header 5]).isSome = true ∧
    (BaseFeatures2.pass1 [Line.hard [Lit.ofInt 1], Line.header 5] 0
      BaseFeatures2.init).isSome = true ∧
    BaseFeatures2.extract [Line.hard [Lit.ofInt 1], Line.header 5] = none ∧
    BaseFeatures.extract summarize0 [Line.hard [Lit.ofInt 1], Line.header 5] = none ∧
    (BaseFeatures.extract summarize0
      [Line.header 5, Line.header 0, Line.hard [Lit.ofInt 1]]).isSome = true := by
  obtain ⟨a1, a2, a3, a4⟩ :=
    BaseFeatures.extract_isSome_iff summarize0 [Line.hard [Lit.ofInt 1], Line.header 5]
  obtain ⟨-, -, -, b4⟩ := BaseFeatures.extract_isSome_iff summarize0
    [Line.header 5, Line.header 0, Line.hard [Lit.ofInt 1]]
  refine ⟨by rw [a1]; decide, by rw [a2]; decide, ?_, ?_, by rw [b4]; decide⟩
  · have : (BaseFeatures2.extract [Line.hard [Lit.ofInt 1], Line.header 5]).isSome = false := by
      rw [a3]; decide
    exact none_of_isSome_false _ this
  · have : (BaseFeatures.extract summarize0
        [Line.hard [Lit.ofInt 1], Line.header 5]).isSome = false := by
      rw [a4]; decide
    exact none_of_isSome_false _ this

theorem five_eq (l : List ℚ) (h : l.length = 5) :
    l = [l.getD 0 0, l.getD 1 0, l.getD 2 0, l.getD 3 0, l.getD 4 0] := by
  rcases l with _ | ⟨a, _ | ⟨b, _ | ⟨c, _ | ⟨d, _ | ⟨e, _ | ⟨f, l⟩⟩⟩⟩⟩⟩ <;> simp at h
  rfl

theorem namedDist_fst (tag : String) (five : List ℚ) :
    (namedDist tag five).map (fun p => p.1) =
      [tag ++ "_mean", tag ++ "_variance", tag ++ "_min", tag ++ "_max", tag ++ "_entropy"] :=
  rfl

theorem namedDist_snd (tag : String) (five : List ℚ) (h : five.length = 5) :
    (namedDist tag five).map (fun p => p.2) = five := by
  conv_rhs => rw [five_eq five h]
  rfl

theorem namedBuckets_fst (tag : String) (xs : List Nat) :
    (namedBuckets tag xs).map (fun p => p.1) =
      [tag ++ "1", tag ++ "2", tag ++ "3", tag ++ "4", tag ++ "5", tag ++ "6", tag ++ "7",
        tag ++ "8", tag ++ "9", tag ++ "10p"] :=
  rfl

theorem namedRecord1_names (dist : List ℚ → List ℚ) (s : BaseFeatures1) :
    (namedRecord1 dist s).map (fun p => p.1) = BaseFeatures1.names := by
  simp only [namedRecord1, List.map_append, namedDist_fst, namedBuckets_fst, List.map_cons,
    List.map_nil]
  decide

theorem namedRecord2_names (dist : List ℚ → List ℚ) (s : BaseFeatures2) :
    (namedRecord2 dist s).map (fun p => p.1) = BaseFeatures2.names := by
  simp only [namedRecord2, List.map_append, namedDist_fst]
  decide

theorem namedRecord1_values (dist : List ℚ → List ℚ) (hdist : ∀ xs, (dist xs).length = 5)
    (s : BaseFeatures1) :
    (namedRecord1 dist s).map (fun p => p.2) = BaseFeatures1.load_feature_record dist s := by
  simp only [namedRecord1, List.map_append, namedDist_snd _ _ (hdist _),
    BaseFeatures1.load_feature_record, buckets_eq]
  rfl

theorem namedRecord2_values (dist : List ℚ → List ℚ) (hdist : ∀ xs, (dist xs).length = 5)
    (s : BaseFeatures2) :
    (namedRecord2 dist s).map (fun p => p.2) = BaseFeatures2.load_feature_records dist s := by
  simp only [namedRecord2, List.map_append, namedDist_snd _ _ (hdist _),
    BaseFeatures2.load_feature_records]

theorem zip_fst_snd (l : List (String × ℚ)) :
    (l.map (fun p => p.1)).zip (l.map (fun p => p.2)) = l := by
  induction l with
  | nil => rfl
  | cons p rest ih => simp only [List.map_cons, List.zip_cons_cons, ih]

/-- C13: after `extract()` the value list of `BaseFeatures1` is `[n_hard_clauses, n_vars]`,
the hard buckets 1..10, `[horn, inv_horn, positive, negative]`, the summaries of
`variable_horn`, `variable_inv_horn`, `balance_clause`, `balance_variable`,
`[n_soft_clauses, weight_sum]`, the soft buckets 1..10 and the summary of `weights`; that of
`BaseFeatures2` is the summaries of `vcg_vdegree`, `vcg_cdegree`, `vg_degree`, `clause_degree`;
the composer's list is the first followed by the second, and read side by side with the name
list every value stands under the name of its quantity. -/
theorem C13_output_ordering (dist : List ℚ → List ℚ) (hdist : ∀ xs, (dist xs).length = 5)
    (input : List Line) (hvalid : assertionsHold input = true) :
    ∃ s1 s2 feat1 feat2, BaseFeatures1.extract input = some s1 ∧
      BaseFeatures2.extract input = some s2 ∧
      BaseFeatures1.getFeatures dist input = some feat1 ∧
      BaseFeatures2.getFeatures dist input = some feat2 ∧
      feat1 =
        [(s1.n_hard_clauses : ℚ), (s1.n_vars : ℚ)]
          ++ (List.range 10).map (fun i => ((s1.hard_clause_sizes.getD (i + 1) 0 : Nat) : ℚ))
          ++ [(s1.horn : ℚ), (s1.inv_horn : ℚ), (s1.positive : ℚ), (s1.negative : ℚ)]
          ++ dist (toQ s1.variable_horn)
          ++ dist (toQ s1.variable_inv_horn)
          ++ dist s1.balance_clause
          ++ dist s1.balance_variable
          ++ [(s1.n_soft_clauses : ℚ), (s1.weight_sum : ℚ)]
          ++ (List.range 10).map (fun i => ((s1.soft_clause_sizes.getD (i + 1) 0 : Nat) : ℚ))
          ++ dist (toQ s1.weights) ∧
      feat2 =
        dist (toQ s2.vcg_vdegree) ++ dist (toQ s2.vcg_cdegree) ++ dist (toQ s2.vg_degree)
          ++ dist (toQ s2.clause_degree) ∧
      BaseFeatures.extract dist input = some (feat1 ++ feat2) ∧
      BaseFeatures.names.length = (feat1 ++ feat2).length ∧
      BaseFeatures.names.zip (feat1 ++ feat2) = namedRecord1 dist s1 ++ namedRecord2 dist s2 := by
  obtain ⟨c1, c2, c3⟩ := BaseFeatures.composed_eq dist input hvalid
  have e1 := BaseFeatures1.extract1_eq input
  have e2 := BaseFeatures2.extract2_eq input
  rw [if_pos (assertionsHold_markersOK input hvalid)] at e1
  rw [if_pos hvalid] at e2
  refine ⟨(BaseFeatures1.init.run (records input 0)).finish,
    (BaseFeatures2.init.run (records2 input 0)).addDegrees (hard2 (finalTop input 0) input),
    BaseFeatures1.load_feature_record dist (BaseFeatures1.init.run (records input 0)).finish,
    BaseFeatures2.load_feature_records dist
      ((BaseFeatures2.init.run (records2 input 0)).addDegrees (hard2 (finalTop input 0) input)),
    e1, e2, c1, c2, rfl, rfl, c3, ?_, ?_⟩
  · rw [List.length_append, BaseFeatures1.load_feature_record_length dist hdist,
      BaseFeatures2.load_feature_records_length dist hdist]
    decide
  · have hn : BaseFeatures.names =
        (namedRecord1 dist (BaseFeatures1.init.run (records input 0)).finish ++
          namedRecord2 dist ((BaseFeatures2.init.run (records2 input 0)).addDegrees
            (hard2 (finalTop input 0) input))).map (fun p => p.1) := by
      rw [List.map_append, namedRecord1_names, namedRecord2_names]
      rfl
    have hv : BaseFeatures1.load_feature_record dist
          (BaseFeatures1.init.run (records input 0)).finish ++
        BaseFeatures2.load_feature_records dist
          ((BaseFeatures2.init.run (records2 input 0)).addDegrees
            (hard2 (finalTop input 0) input)) =
        (namedRecord1 dist (BaseFeatures1.init.run (records input 0)).finish ++
          namedRecord2 dist ((BaseFeatures2.init.run (records2 input 0)).addDegrees
            (hard2 (finalTop input 0) input))).map (fun p => p.2) := by
      rw [List.map_append, namedRecord1_values dist hdist, namedRecord2_values dist hdist]
    rw [hn, hv, zip_fst_snd]

/-- C13, witness: the legacy sample with the summarizer modelled after the spec. -/
theorem C13_output_ordering_witness :
    ∃ s1 s2 feat1 feat2, BaseFeatures1.extract sampleLegacy = some s1 ∧
      BaseFeatures2.extract sampleLegacy = some s2 ∧
      BaseFeatures1.getFeatures summarize0 sampleLegacy = some feat1 ∧
      BaseFeatures2.getFeatures summarize0 sampleLegacy = some feat2 ∧
      BaseFeatures.extract summarize0 sampleLegacy = some (feat1 ++ feat2) ∧
      BaseFeatures.names.zip (feat1 ++ feat2) =
        namedRecord1 summarize0 s1 ++ namedRecord2 summarize0 s2 := by
  obtain ⟨s1, s2, f1, f2, h1, h2, h3, h4, -, -, h7, -, h9⟩ :=
    C13_output_ordering summarize0 (summarize_length _) sampleLegacy (by decide)
  exact ⟨s1, s2, f1, f2, h1, h2, h3, h4, h7, h9⟩

theorem balance_spec (a b : Nat) (h : 0 < a + b) :
    max a b ≠ 0 ∧ 0 ≤ balance a b ∧ balance a b ≤ 1 ∧
    (balance a b = 1 ↔ a = b) ∧ (balance a b = 0 ↔ a = 0 ∨ b = 0) := by
  have hm : 0 < max a b := by omega
  have hq : (0 : ℚ) < ((max a b : Nat) : ℚ) := by exact_mod_cast hm
  have hle : ((min a b : Nat) : ℚ) ≤ ((max a b : Nat) : ℚ) := by
    have : min a b ≤ max a b := by omega
    exact_mod_cast this
  unfold balance
  refine ⟨by omega, div_nonneg (Nat.cast_nonneg _) (le_of_lt hq), (div_le_one hq).2 hle, ?_, ?_⟩
  · rw [div_eq_one_iff_eq (ne_of_gt hq)]
    constructor
    · intro h1
      have : min a b = max a b := by exact_mod_cast h1
      omega
    · intro h1
      have : min a b = max a b := by omega
      exact_mod_cast this
  · rw [div_eq_zero_iff]
    constructor
    · rintro (h1 | h1)
      · have : min a b = 0 := by exact_mod_cast h1
        omega
      · exact absurd h1 (ne_of_gt hq)
    · intro h1
      left
      have : min a b = 0 := by omega
      exact_mod_cast this

theorem positiveLits_eq_zero (c : Cl) : positiveLits c = 0 ↔ ∀ lit ∈ c, lit.sign = true := by
  unfold positiveLits
  rw [List.countP_eq_zero]
  constructor
  · intro h lit hl
    have := h lit hl
    cases hs : lit.sign
    · simp [hs] at this
    · rfl
  · intro h lit hl
    simp [h lit hl]

theorem negativeLits_eq_zero (c : Cl) : negativeLits c = 0 ↔ ∀ lit ∈ c, lit.sign = false := by
  unfold negativeLits
  rw [List.countP_eq_zero]
  constructor
  · intro h lit hl
    have := h lit hl
    cases hs : lit.sign
    · rfl
    · simp [hs] at this
  · intro h lit hl
    simp [h lit hl]

/-- C14: `balance_clause` has exactly one entry per non-empty hard clause, in encounter order,
and none for soft or empty clauses; the entry is `min(n_pos, n_neg) / max(n_pos, n_neg)` with a
nonzero denominator, lies in `[0, 1]` as an exact rational, is `1` exactly when
`n_pos = n_neg` and `0` exactly when all literals of the clause have the same sign. -/
theorem C14_clause_balance (input : List Line) (hok : markersOK input 0 = true) :
    (∃ s, BaseFeatures1.extract input = some s ∧
      s.balance_clause =
        ((hardClauses input).filter (fun c => decide (c.length > 0))).map
          (fun c => balance (positiveLits c) (negativeLits c))) ∧
    (∀ c : Cl, c ≠ [] →
      max (positiveLits c) (negativeLits c) ≠ 0 ∧
      0 ≤ balance (positiveLits c) (negativeLits c) ∧
      balance (positiveLits c) (negativeLits c) ≤ 1 ∧
      (balance (positiveLits c) (negativeLits c) = 1 ↔ positiveLits c = negativeLits c) ∧
      (balance (positiveLits c) (negativeLits c) = 0 ↔
        ((∀ lit ∈ c, lit.sign = true) ∨ (∀ lit ∈ c, lit.sign = false)))) := by
  constructor
  · have e1 := BaseFeatures1.extract1_eq input
    rw [if_pos hok] at e1
    refine ⟨_, e1, ?_⟩
    have hb := BaseFeatures1.run_balance BaseFeatures1.init (records input 0)
    show (BaseFeatures1.init.run (records input 0)).balance_clause = _
    rw [hb]
    simp only [n_pos_eq, n_neg_eq]
    rfl
  · intro c hc
    have hlen : 0 < positiveLits c + negativeLits c := by
      rw [lits_split]
      exact List.length_pos.2 hc
    obtain ⟨b1, b2, b3, b4, b5⟩ := balance_spec (positiveLits c) (negativeLits c) hlen
    refine ⟨b1, b2, b3, b4, ?_⟩
    rw [b5, positiveLits_eq_zero, negativeLits_eq_zero]

/-- C14, witness: the hard clauses `1 -2`, the empty clause and `1 2 3`, and a soft clause. -/
theorem C14_clause_balance_witness :
    ∃ s, BaseFeatures1.extract
        [Line.hard [Lit.ofInt 1, Lit.ofInt (-2)], Line.hard [], Line.weighted 2 [Lit.ofInt 1],
          Line.hard [Lit.ofInt 1, Lit.ofInt 2, Lit.ofInt 3]] = some s ∧
      s.balance_clause =
        ((hardClauses
          [Line.hard [Lit.ofInt 1, Lit.ofInt (-2)], Line.hard [], Line.weighted 2 [Lit.ofInt 1],
            Line.hard [Lit.ofInt 1, Lit.ofInt 2, Lit.ofInt 3]]).filter
              (fun c => decide (c.length > 0))).map
          (fun c => balance (positiveLits c) (negativeLits c)) :=
  (C14_clause_balance _ (by decide)).1

theorem hard_soft_length (rs : List (Nat × Cl)) :
    (hardOf rs).length + (softOf rs).length = rs.length := by
  induction rs with
  | nil => rfl
  | cons r rs ih =>
    rw [hardOf_cons, softOf_cons]
    by_cases h : r.1 = 0 <;> simp [h] <;> omega

/-- C15: the sequence `vcg_cdegree` built in pass 1 of `BaseFeatures2` is the list of the sizes
of all clauses, hard and soft alike, in encounter order; pass 2 leaves it unchanged, and its
length is the total number of clauses, `h_clauses + s_clauses` of `BaseFeatures1`. -/
theorem C15_vcg_cdegree_lists_clause_sizes (input : List Line)
    (hok : markersOK input 0 = true) :
    ∃ s1 top p1, BaseFeatures1.extract input = some s1 ∧
      BaseFeatures2.pass1 input 0 BaseFeatures2.init = some (top, p1) ∧
      p1.vcg_cdegree = (clauses input).map (fun c => c.length) ∧
      p1.vcg_cdegree.length = (clauses input).length ∧
      p1.vcg_cdegree.length = s1.n_hard_clauses + s1.n_soft_clauses ∧
      (∀ s2, BaseFeatures2.extract input = some s2 → s2.vcg_cdegree = p1.vcg_cdegree) := by
  have e1 := BaseFeatures1.extract1_eq input
  rw [if_pos hok] at e1
  obtain ⟨c1, -, -, -, -, c6, -, -⟩ := BaseFeatures1.extract_counts input
  obtain ⟨-, -, a3⟩ := BaseFeatures2.pass1_n_vars input
  have hlen : (BaseFeatures2.init.run (records2 input 0)).vcg_cdegree.length =
      (clauses input).length := by rw [a3, List.length_map]
  refine ⟨(BaseFeatures1.init.run (records input 0)).finish, finalTop input 0,
    BaseFeatures2.init.run (records2 input 0), e1, ?_, a3, hlen, ?_, ?_⟩
  · rw [BaseFeatures2.pass1_eq, if_pos hok]
  · rw [hlen, c1, c6, hardClauses, softClauses, hard_soft_length, ← records_clauses input 0,
      List.length_map]
  · intro s2 h2
    rw [BaseFeatures2.extract2_eq] at h2
    by_cases hv : assertionsHold input = true
    · rw [if_pos hv] at h2
      rw [← Option.some.inj h2]
      rfl
    · rw [if_neg hv] at h2
      exact Option.noConfusion h2

/-- C15, witness: the sample with clauses of sizes 15, 1, 2 and 0. -/
theorem C15_vcg_cdegree_lists_clause_sizes_witness :
    ∃ s1 top p1, BaseFeatures1.extract sampleSizes = some s1 ∧
      BaseFeatures2.pass1 sampleSizes 0 BaseFeatures2.init = some (top, p1) ∧
      p1.vcg_cdegree = (clauses sampleSizes).map (fun c => c.length) ∧
      p1.vcg_cdegree.length = (clauses sampleSizes).length ∧
      p1.vcg_cdegree.length = s1.n_hard_clauses + s1.n_soft_clauses ∧
      (∀ s2, BaseFeatures2.extract sampleSizes = some s2 → s2.vcg_cdegree = p1.vcg_cdegree) :=
  C15_vcg_cdegree_lists_clause_sizes sampleSizes (by decide)

theorem BaseFeatures1.record_grows (s : BaseFeatures1) (w : Nat) (c : Cl) (hs : Sized1 s) :
    s.n_vars ≤ (s.record w c).n_vars ∧
    s.variable_horn.length ≤ (s.record w c).variable_horn.length ∧
    s.variable_inv_horn.length ≤ (s.record w c).variable_inv_horn.length ∧
    s.literal_occurrences.length ≤ (s.record w c).literal_occurrences.length := by
  obtain ⟨⟨t1, t2, t3⟩, n1, -⟩ := BaseFeatures1.record_sized s w c hs
  obtain ⟨h1, h2, h3⟩ := hs
  have hn : s.n_vars ≤ (s.record w c).n_vars := by rw [n1]; omega
  refine ⟨hn, ?_, ?_, ?_⟩
  · rw [t1, h1]; exact tableLen_le _ _ hn
  · rw [t2, h2]; exact tableLen_le _ _ hn
  · rw [t3, h3]; exact occLen_le _ _ hn

theorem final_loop_bounds (s : BaseFeatures1) (hs : Sized1 s) :
    ∀ v, v < s.n_vars →
      Lit.index ⟨v, false⟩ < s.literal_occurrences.length ∧
      Lit.index ⟨v, true⟩ < s.literal_occurrences.length := by
  intro v hv
  obtain ⟨-, -, h3⟩ := hs
  have e : occLen s.n_vars = 2 * s.n_vars + 2 := by
    unfold occLen; rw [if_neg (by omega)]
  rw [h3, e]
  simp only [Lit.index]
  constructor <;> simp <;> omega

theorem BaseFeatures2.visit_grows (top weight size : Nat) (s : BaseFeatures2) (lit : Lit)
    (hs : Sized2 s) :
    s.n_vars ≤ (BaseFeatures2.visit top weight size s lit).n_vars ∧
    s.vcg_vdegree.length ≤ (BaseFeatures2.visit top weight size s lit).vcg_vdegree.length ∧
    s.vg_degree.length ≤ (BaseFeatures2.visit top weight size s lit).vg_degree.length ∧
    (BaseFeatures2.visit top weight size s lit).vcg_vdegree.length =
      (s.resized lit).vcg_vdegree.length ∧
    (BaseFeatures2.visit top weight size s lit).vg_degree.length =
      (s.resized lit).vg_degree.length := by
  obtain ⟨a1, ⟨a2, a3⟩, -, -⟩ := BaseFeatures2.visit_spec top weight size s lit hs
  obtain ⟨-, -, b3, b4, -, -⟩ :=
    BaseFeatures2.counted_spec top weight size (s.resized lit) lit
  obtain ⟨h1, h2⟩ := hs
  have hn : s.n_vars ≤ (BaseFeatures2.visit top weight size s lit).n_vars := by
    rw [a1]; omega
  refine ⟨hn, ?_, ?_, ?_, ?_⟩
  · rw [a2, h1]; exact tableLen_le _ _ hn
  · rw [a3, h2]; exact tableLen_le _ _ hn
  · rw [BaseFeatures2.visit_eq]; exact b3
  · rw [BaseFeatures2.visit_eq]; exact b4

theorem BaseFeatures2.pass2_reads_in_bounds (input : List Line)
    (hpos : varsPositive (clauses input)) :
    ∀ c ∈ clauses input, ∀ lit ∈ c,
      lit.var < (BaseFeatures2.init.run (records2 input 0)).vcg_vdegree.length := by
  intro c hc lit hl
  obtain ⟨n1, ⟨s1, -⟩, -⟩ := BaseFeatures2.pass1_n_vars input
  have h1 := (maxVar_spec (clauses input)).1 c hc lit hl
  have h2 := hpos c hc lit hl
  have e : tableLen (maxVar (clauses input)) = maxVar (clauses input) + 1 := by
    unfold tableLen; rw [if_neg (by omega)]
  rw [s1, n1, e]
  omega

/-- C16: in both extractors the table sizes are an invariant tied to `n_vars` (`n_vars + 1`
entries per variable table, `2 * n_vars + 2` for the literal occurrences, nothing before the
first literal).  With all variable ids at least 1, processing a clause (a literal, in
`BaseFeatures2`) keeps the invariant, never decreases `n_vars`, never shortens a table, and
the resize leaves every count as it was; the indices `lit.var()` and `2 * var + polarity` of
the clause are inside the tables after the resize, and the tables keep that length while the
clause is counted; the reads of the final per-variable loop are inside `literal_occurrences`;
and the reads `vcg_vdegree[lit.var()]` of pass 2 are inside the table left by pass 1 over the
same clauses. -/
theorem C16_tables_grow_and_accesses_stay_in_bounds (input : List Line)
    (hpos : varsPositive (clauses input)) (hok : markersOK input 0 = true) :
    (Sized1 BaseFeatures1.init ∧
      ∀ (s : BaseFeatures1) (w : Nat) (c : Cl), Sized1 s → (∀ lit ∈ c, 1 ≤ lit.var) →
        Sized1 (s.record w c) ∧
        s.n_vars ≤ (s.record w c).n_vars ∧
        s.variable_horn.length ≤ (s.record w c).variable_horn.length ∧
        s.variable_inv_horn.length ≤ (s.record w c).variable_inv_horn.length ∧
        s.literal_occurrences.length ≤ (s.record w c).literal_occurrences.length ∧
        (∀ j, (s.grow c).variable_horn.getD j 0 = s.variable_horn.getD j 0) ∧
        (∀ j, (s.grow c).variable_inv_horn.getD j 0 = s.variable_inv_horn.getD j 0) ∧
        (∀ j, (s.grow c).literal_occurrences.getD j 0 = s.literal_occurrences.getD j 0) ∧
        (∀ lit ∈ c, lit.var < (s.grow c).variable_horn.length ∧
          lit.var < (s.grow c).variable_inv_horn.length ∧
          lit.index < (s.grow c).literal_occurrences.length) ∧
        (s.record w c).variable_horn.length = (s.grow c).variable_horn.length ∧
        (s.record w c).variable_inv_horn.length = (s.grow c).variable_inv_horn.length ∧
        (s.record w c).literal_occurrences.length = (s.grow c).literal_occurrences.length) ∧
    (∃ s, BaseFeatures1.loop input 0 BaseFeatures1.init = some s ∧ Sized1 s ∧
      ∀ v, v < s.n_vars →
        Lit.index ⟨v, false⟩ < s.literal_occurrences.length ∧
        Lit.index ⟨v, true⟩ < s.literal_occurrences.length) ∧
    (Sized2 BaseFeatures2.init ∧
      ∀ (top weight size : Nat) (s : BaseFeatures2) (lit : Lit), Sized2 s → 1 ≤ lit.var →
        Sized2 (BaseFeatures2.visit top weight size s lit) ∧
        s.n_vars ≤ (BaseFeatures2.visit top weight size s lit).n_vars ∧
        s.vcg_vdegree.length ≤ (BaseFeatures2.visit top weight size s lit).vcg_vdegree.length ∧
        s.vg_degree.length ≤ (BaseFeatures2.visit top weight size s lit).vg_degree.length ∧
        (∀ j, (s.resized lit).vcg_vdegree.getD j 0 = s.vcg_vdegree.getD j 0) ∧
        (∀ j, (s.resized lit).vg_degree.getD j 0 = s.vg_degree.getD j 0) ∧
        lit.var < (s.resized lit).vcg_vdegree.length ∧
        lit.var < (s.resized lit).vg_degree.length ∧
        (BaseFeatures2.visit top weight size s lit).vcg_vdegree.length =
          (s.resized lit).vcg_vdegree.length ∧
        (BaseFeatures2.visit top weight size s lit).vg_degree.length =
          (s.resized lit).vg_degree.length) ∧
    (∃ top s1, BaseFeatures2.pass1 input 0 BaseFeatures2.init = some (top, s1) ∧ Sized2 s1 ∧
      ∀ c ∈ clauses input, ∀ lit ∈ c, lit.var < s1.vcg_vdegree.length) := by
  refine ⟨⟨sized1_init, ?_⟩, ?_, ⟨sized2_init, ?_⟩, ?_⟩
  · intro s w c hs hc
    obtain ⟨a1, -, a3, a4, a5⟩ := BaseFeatures1.record_sized s w c hs
    obtain ⟨b1, b2, b3, b4⟩ := BaseFeatures1.record_grows s w c hs
    obtain ⟨-, -, g3, g4, g5, -, -⟩ := BaseFeatures1.grow_spec s c hs
    have hb := BaseFeatures1.grow_bounds s c hs hc
    exact ⟨a1, b1, b2, b3, b4, g3, g4, g5, fun lit hl => (hb lit hl).2, a3, a4, a5⟩
  · have hl := BaseFeatures1.loop_eq input 0 BaseFeatures1.init
    rw [if_pos hok] at hl
    have hs := (BaseFeatures1.extract_n_vars input).2
    exact ⟨_, hl, hs, final_loop_bounds _ hs⟩
  · intro top weight size s lit hs hl
    obtain ⟨-, a2, -, a4⟩ := BaseFeatures2.visit_spec top weight size s lit hs
    obtain ⟨b1, b2, b3, b4, b5⟩ := BaseFeatures2.visit_grows top weight size s lit hs
    obtain ⟨-, -, -, r4, r5⟩ := BaseFeatures2.resized_spec s lit hs
    obtain ⟨c1, c2, -, -⟩ := a4 hl
    exact ⟨a2, b1, b2, b3, r4, r5, c1, c2, b4, b5⟩
  · have hp := BaseFeatures2.pass1_eq input 0 BaseFeatures2.init
    rw [if_pos hok] at hp
    exact ⟨_, _, hp, (BaseFeatures2.pass1_n_vars input).2.1,
      BaseFeatures2.pass2_reads_in_bounds input hpos⟩

/-- C16, witness: the legacy sample; the reads of pass 2 are inside the table of pass 1. -/
theorem C16_tables_grow_and_accesses_stay_in_bounds_witness :
    ∃ top s1, BaseFeatures2.pass1 sampleLegacy 0 BaseFeatures2.init = some (top, s1) ∧
      Sized2 s1 ∧ ∀ c ∈ clauses sampleLegacy, ∀ lit ∈ c, lit.var < s1.vcg_vdegree.length :=
  (C16_tables_grow_and_accesses_stay_in_bounds sampleLegacy (by unfold varsPositive; decide)
    (by decide)).2.2.2

theorem hard_count_of_noHeader (input : List Line) (top : Nat) (hno : noHeader input = true) :
    (hardOf (records input top)).length = (hard2 top input).length + zeroWeightLines input := by
  induction input with
  | nil => rfl
  | cons l rest ih =>
    cases l with
    | comment => exact ih hno
    | header t => simp [noHeader] at hno
    | hard c =>
      have := ih hno
      have hz : zeroWeightLines (Line.hard c :: rest) = zeroWeightLines rest := rfl
      rw [records, hardOf_cons, hard2, hz]
      simp only [if_true, List.length_cons, this]
      omega
    | weighted w c =>
      have := ih hno
      rw [records, hardOf_cons, hard2, zeroWeightLines]
      by_cases hw : w = 0
      · subst hw
        have ha : adjust top 0 = 0 := by unfold adjust; split_ifs <;> rfl
        have hc : top = 0 ∨ 0 < top := by omega
        simp only [ha, if_true, hc, List.length_cons, this]
        omega
      · by_cases hc : top = 0 ∨ w < top
        · have ha : adjust top w ≠ 0 := by
            unfold adjust
            split_ifs with hh <;> omega
          simp only [ha, hc, hw, if_true, if_false, this]
          omega
        · have ha : adjust top w = 0 := by
            unfold adjust
            split_ifs with hh <;> omega
          simp only [ha, hc, hw, if_true, if_false, List.length_cons, this]
          omega

theorem hard_count_of_headersFirst (input : List Line) (top : Nat)
    (hfirst : headersFirst input = true) :
    (hardOf (records input top)).length =
      (hard2 (finalTop input top) input).length + zeroWeightLines input := by
  induction input generalizing top with
  | nil => rfl
  | cons l rest ih =>
    cases l with
    | comment => exact ih top hfirst
    | header t => exact ih t hfirst
    | hard c =>
      have hno : noHeader (Line.hard c :: rest) = true := hfirst
      rw [finalTop_of_noHeader _ top hno]
      exact hard_count_of_noHeader _ top hno
    | weighted w c =>
      have hno : noHeader (Line.weighted w c :: rest) = true := hfirst
      rw [finalTop_of_noHeader _ top hno]
      exact hard_count_of_noHeader _ top hno

theorem zeroWeightLines_pos (input : List Line) (h : ∃ c, Line.weighted 0 c ∈ input) :
    0 < zeroWeightLines input := by
  obtain ⟨c, hc⟩ := h
  induction input with
  | nil => simp at hc
  | cons l rest ih =>
    rcases List.mem_cons.1 hc with h1 | h1
    · rw [← h1]
      simp [zeroWeightLines]
    · have := ih h1
      cases l with
      | comment => exact this
      | header t => exact this
      | hard c2 => exact this
      | weighted w c2 =>
        simp only [zeroWeightLines]
        omega

theorem zeroWeightLines_of_positive (input : List Line) (h : positiveWeights input = true) :
    zeroWeightLines input = 0 := by
  induction input with
  | nil => rfl
  | cons l rest ih =>
    cases l with
    | comment => exact ih h
    | header t => exact ih h
    | hard c => exact ih h
    | weighted w c =>
      simp only [positiveWeights, Bool.and_eq_true, decide_eq_true_eq] at h
      have hw : ¬ w = 0 := by omega
      simp only [zeroWeightLines, hw, if_false, ih h.2]

theorem hard_counts (input : List Line) (hvalid : assertionsHold input = true) :
    ∃ s1 s2, BaseFeatures1.extract input = some s1 ∧ BaseFeatures2.extract input = some s2 ∧
      s1.n_hard_clauses = (hardClauses input).length ∧
      s2.clause_degree.length = (hard2 (finalTop input 0) input).length := by
  have e1 := BaseFeatures1.extract1_eq input
  have e2 := BaseFeatures2.extract2_eq input
  rw [if_pos (assertionsHold_markersOK input hvalid)] at e1
  rw [if_pos hvalid] at e2
  refine ⟨_, _, e1, e2, (BaseFeatures1.extract_counts input).1, ?_⟩
  simp only [BaseFeatures2.addDegrees, BaseFeatures2.run_clause_degree, List.length_append,
    List.length_map]
  show ([] : List Nat).length + _ = _
  simp

/-- C17 (as amended): a weighted clause line of declared weight `0` is recorded as a hard
clause by `BaseFeatures1` under every `top`, and pass 2 of `BaseFeatures2` skips it under
every `top`.  For every input whose header lines precede its clause lines and on which no
assertion fails, `h_clauses` is the number of `clause_degree` entries plus the number of such
lines; so the number of `clause_degree` entries is strictly smaller than `h_clauses` when the
input contains such a line, and the two numbers are equal when every weighted line has weight
at least 1. -/
theorem C17_zero_weight_lines (input : List Line) (hfirst : headersFirst input = true)
    (hvalid : assertionsHold input = true) :
    (∀ (top : Nat) (c : Cl) (s : BaseFeatures1),
      adjust top 0 = 0 ∧
      (s.record (adjust top 0) c).n_hard_clauses = s.n_hard_clauses + 1 ∧
      (s.record (adjust top 0) c).n_soft_clauses = s.n_soft_clauses) ∧
    (∀ (top : Nat) (c : Cl) (rest : List Line) (s : BaseFeatures2),
      BaseFeatures2.pass2 top (Line.weighted 0 c :: rest) s = BaseFeatures2.pass2 top rest s) ∧
    ∃ s1 s2, BaseFeatures1.extract input = some s1 ∧ BaseFeatures2.extract input = some s2 ∧
      s1.n_hard_clauses = s2.clause_degree.length + zeroWeightLines input ∧
      ((∃ c, Line.weighted 0 c ∈ input) → s2.clause_degree.length < s1.n_hard_clauses) ∧
      (positiveWeights input = true → s2.clause_degree.length = s1.n_hard_clauses) := by
  refine ⟨?_, ?_, ?_⟩
  · intro top c s
    have ha : adjust top 0 = 0 := by unfold adjust; split_ifs <;> rfl
    obtain ⟨a1, -, -, -, -, a6, -⟩ := BaseFeatures1.record_counts s 0 c
    rw [ha]
    exact ⟨rfl, by simpa using a1, by simpa using a6⟩
  · intro top c rest s
    have hc : top = 0 ∨ 0 < top := by omega
    simp only [BaseFeatures2.pass2, hc, if_true]
  · obtain ⟨s1, s2, e1, e2, n1, n2⟩ := hard_counts input hvalid
    have hcount := hard_count_of_headersFirst input 0 hfirst
    have key : s1.n_hard_clauses = s2.clause_degree.length + zeroWeightLines input := by
      rw [n1, n2, hardClauses, hcount]
    refine ⟨s1, s2, e1, e2, key, ?_, ?_⟩
    · intro hz
      have := zeroWeightLines_pos input hz
      omega
    · intro hp
      have := zeroWeightLines_of_positive input hp
      omega

/-- C17, witness: the new-format input `h 1 0`, `0 2 0`, `3 1 2 0`. -/
theorem C17_zero_weight_lines_witness :
    ∃ s1 s2,
      BaseFeatures1.extract [Line.hard [Lit.ofInt 1], Line.weighted 0 [Lit.ofInt 2],
        Line.weighted 3 [Lit.ofInt 1, Lit.ofInt 2]] = some s1 ∧
      BaseFeatures2.extract [Line.hard [Lit.ofInt 1], Line.weighted 0 [Lit.ofInt 2],
        Line.weighted 3 [Lit.ofInt 1, Lit.ofInt 2]] = some s2 ∧
      s1.n_hard_clauses = s2.clause_degree.length +
        zeroWeightLines [Line.hard [Lit.ofInt 1], Line.weighted 0 [Lit.ofInt 2],
          Line.weighted 3 [Lit.ofInt 1, Lit.ofInt 2]] ∧
      ((∃ c, Line.weighted 0 c ∈ [Line.hard [Lit.ofInt 1], Line.weighted 0 [Lit.ofInt 2],
          Line.weighted 3 [Lit.ofInt 1, Lit.ofInt 2]]) →
        s2.clause_degree.length < s1.n_hard_clauses) ∧
      (positiveWeights [Line.hard [Lit.ofInt 1], Line.weighted 0 [Lit.ofInt 2],
          Line.weighted 3 [Lit.ofInt 1, Lit.ofInt 2]] = true →
        s2.clause_degree.length = s1.n_hard_clauses) :=
  (C17_zero_weight_lines [Line.hard [Lit.ofInt 1], Line.weighted 0 [Lit.ofInt 2],
    Line.weighted 3 [Lit.ofInt 1, Lit.ofInt 2]] (by decide) (by decide)).2.2

/-- C17, counterexample: in `0 1 0`, `3 2 0`, `p wcnf 2 2 2` there is a line of weight `0`,
yet `clause_degree` has as many entries as `h_clauses` counts (one each): the clause `3 2 0`
is soft for `BaseFeatures1`, which reads it under `top = 0`, and hard for pass 2, which runs
with the final `top = 2`.  In `3 1 0`, `p wcnf 1 1 2` every weight is at least 1, yet
`clause_degree` has one entry and `h_clauses` is `0`. -/
theorem C17_late_header_breaks_the_count :
    (∃ c, Line.weighted 0 c ∈
      [Line.weighted 0 [Lit.ofInt 1], Line.weighted 3 [Lit.ofInt 2], Line.header 2]) ∧
    (BaseFeatures1.extract
      [Line.weighted 0 [Lit.ofInt 1], Line.weighted 3 [Lit.ofInt 2], Line.header 2]).map
      (fun s => s.n_hard_clauses) = some 1 ∧
    (BaseFeatures2.extract
      [Line.weighted 0 [Lit.ofInt 1], Line.weighted 3 [Lit.ofInt 2], Line.header 2]).map
      (fun s => s.clause_degree.length) = some 1 ∧
    positiveWeights [Line.weighted 3 [Lit.ofInt 1], Line.header 2] = true ∧
    (BaseFeatures1.extract [Line.weighted 3 [Lit.ofInt 1], Line.header 2]).map
      (fun s => s.n_hard_clauses) = some 0 ∧
    (BaseFeatures2.extract [Line.weighted 3 [Lit.ofInt 1], Line.header 2]).map
      (fun s => s.clause_degree.length) = some 1 := by
  refine ⟨⟨[Lit.ofInt 1], by simp⟩, by decide, by decide, by decide, by decide, by decide⟩

theorem foldl_min_zero (xs : List ℚ) (h : ∀ y ∈ xs, 0 ≤ y) : xs.foldl min 0 = 0 := by
  induction xs with
  | nil => rfl
  | cons y rest ih =>
    rw [List.foldl_cons, min_eq_left (h y (List.mem_cons_self _ _))]
    exact ih (fun z hz => h z (List.mem_cons_of_mem _ hz))

theorem toQ_length (table : List Nat) : (toQ table).length = table.length := by
  simp [toQ]

theorem toQ_nonneg (table : List Nat) : ∀ x ∈ toQ table, (0 : ℚ) ≤ x := by
  intro x hx
  simp only [toQ, List.mem_map] at hx
  obtain ⟨n, -, hn⟩ := hx
  rw [← hn]
  exact Nat.cast_nonneg n

theorem table_min_zero (entropy : List ℚ → ℚ) (table : List Nat) (hne : table ≠ [])
    (hz : table.getD 0 0 = 0) :
    table.head? = some 0 ∧ 0 ∈ table ∧ (∀ x ∈ toQ table, (0 : ℚ) ≤ x) ∧
    (summarize entropy (toQ table)).getD 2 0 = 0 := by
  cases table with
  | nil => exact absurd rfl hne
  | cons x rest =>
    have hx : x = 0 := by simpa using hz
    subst hx
    refine ⟨rfl, List.mem_cons_self _ _, toQ_nonneg _, ?_⟩
    have hq : toQ (0 :: rest) = (0 : ℚ) :: toQ rest := by simp [toQ]
    rw [hq]
    simp only [summarize, List.getD_cons_succ, List.getD_cons_zero]
    exact foldl_min_zero _ (toQ_nonneg rest)

theorem tables_of_extract (input : List Line) (hpos : varsPositive (clauses input))
    (hlit : ∃ c ∈ clauses input, c ≠ []) :
    1 ≤ maxVar (clauses input) ∧
    ((BaseFeatures1.init.run (records input 0)).finish).variable_horn.length =
      maxVar (clauses input) + 1 ∧
    ((BaseFeatures1.init.run (records input 0)).finish).variable_inv_horn.length =
      maxVar (clauses input) + 1 ∧
    (BaseFeatures2.init.run (records2 input 0)).vcg_vdegree.length =
      maxVar (clauses input) + 1 ∧
    (BaseFeatures2.init.run (records2 input 0)).vg_degree.length =
      maxVar (clauses input) + 1 ∧
    ((BaseFeatures1.init.run (records input 0)).finish).variable_horn.getD 0 0 = 0 ∧
    ((BaseFeatures1.init.run (records input 0)).finish).variable_inv_horn.getD 0 0 = 0 ∧
    (BaseFeatures2.init.run (records2 input 0)).vcg_vdegree.getD 0 0 = 0 ∧
    (BaseFeatures2.init.run (records2 input 0)).vg_degree.getD 0 0 = 0 := by
  obtain ⟨m1, -, m3⟩ := maxVar_spec (clauses input)
  obtain ⟨c, hc, lit, hl, hv⟩ := m3 hlit
  have hge : 1 ≤ maxVar (clauses input) := by
    rw [← hv]; exact hpos c hc lit hl
  have e : tableLen (maxVar (clauses input)) = maxVar (clauses input) + 1 := by
    unfold tableLen; rw [if_neg (by omega)]
  obtain ⟨n1, ⟨s1, s2, -⟩⟩ := BaseFeatures1.extract_n_vars input
  obtain ⟨n2, ⟨t1, t2⟩, -⟩ := BaseFeatures2.pass1_n_vars input
  have hp1 : varsPositive ((records input 0).map (fun r => r.2)) := by
    rw [records_clauses]; exact hpos
  have hp2 : varsPositive ((records2 input 0).map (fun r => r.2.2)) := by
    rw [records2_clauses]; exact hpos
  obtain ⟨z1, z2, -, -⟩ :=
    BaseFeatures1.run_zero_sum BaseFeatures1.init (records input 0) sized1_init hp1
  obtain ⟨-, -, -, z34⟩ := BaseFeatures2.run_spec (records2 input 0) BaseFeatures2.init
    sized2_init
  obtain ⟨z3, z4⟩ := z34 hp2
  have n1b : (BaseFeatures1.init.run (records input 0)).n_vars = maxVar (clauses input) := n1
  refine ⟨hge, ?_, ?_, ?_, ?_, z1, z2, z3, z4⟩
  · show (BaseFeatures1.init.run (records input 0)).variable_horn.length = _
    rw [s1, n1b, e]
  · show (BaseFeatures1.init.run (records input 0)).variable_inv_horn.length = _
    rw [s2, n1b, e]
  · rw [t1, n2, e]
  · rw [t2, n2, e]

/-- C18: for every input with at least one literal and all variable ids at least 1, the
tables `variable_horn`, `variable_inv_horn`, `vcg_vdegree` and `vg_degree` handed to the
summarizer have `n_vars + 1` entries and their slot `0` is `0`; so each of the four
distributions is taken over `n_vars + 1` observations, the first of which belongs to no
variable, and its minimum is `0`. -/
theorem C18_tables_have_a_zero_slot (entropy : List ℚ → ℚ) (input : List Line)
    (hpos : varsPositive (clauses input)) (hlit : ∃ c ∈ clauses input, c ≠ [])
    (hvalid : assertionsHold input = true) :
    ∃ s1 s2, BaseFeatures1.extract input = some s1 ∧ BaseFeatures2.extract input = some s2 ∧
      1 ≤ s1.n_vars ∧ s2.n_vars = s1.n_vars ∧
      s1.variable_horn.length = s1.n_vars + 1 ∧
      s1.variable_inv_horn.length = s1.n_vars + 1 ∧
      s2.vcg_vdegree.length = s1.n_vars + 1 ∧
      s2.vg_degree.length = s1.n_vars + 1 ∧
      s1.variable_horn.getD 0 0 = 0 ∧ s1.variable_inv_horn.getD 0 0 = 0 ∧
      s2.vcg_vdegree.getD 0 0 = 0 ∧ s2.vg_degree.getD 0 0 = 0 ∧
      (∀ table ∈ [s1.variable_horn, s1.variable_inv_horn, s2.vcg_vdegree, s2.vg_degree],
        (toQ table).length = s1.n_vars + 1 ∧ table.head? = some 0 ∧ 0 ∈ table ∧
        (∀ x ∈ toQ table, (0 : ℚ) ≤ x) ∧
        (summarize entropy (toQ table)).getD 2 0 = 0) := by
  have e1 := BaseFeatures1.extract1_eq input
  have e2 := BaseFeatures2.extract2_eq input
  rw [if_pos (assertionsHold_markersOK input hvalid)] at e1
  rw [if_pos hvalid] at e2
  obtain ⟨hge, l1, l2, l3, l4, z1, z2, z3, z4⟩ := tables_of_extract input hpos hlit
  have n1 := (BaseFeatures1.extract_n_vars input).1
  have n2 := (BaseFeatures2.pass1_n_vars input).1
  refine ⟨(BaseFeatures1.init.run (records input 0)).finish,
    (BaseFeatures2.init.run (records2 input 0)).addDegrees (hard2 (finalTop input 0) input),
    e1, e2, by rw [n1]; exact hge, n2.trans n1.symm, by rw [l1, n1], by rw [l2, n1],
    by rw [n1]; exact l3, by rw [n1]; exact l4, z1, z2, z3, z4, ?_⟩
  have aux : ∀ table : List Nat, table.length = maxVar (clauses input) + 1 →
      table.getD 0 0 = 0 →
      (toQ table).length = ((BaseFeatures1.init.run (records input 0)).finish).n_vars + 1 ∧
      table.head? = some 0 ∧ 0 ∈ table ∧ (∀ x ∈ toQ table, (0 : ℚ) ≤ x) ∧
      (summarize entropy (toQ table)).getD 2 0 = 0 := by
    intro table hl hz
    have hne : table ≠ [] := by
      intro h; rw [h] at hl; simp at hl
    obtain ⟨a1, a2, a3, a4⟩ := table_min_zero entropy table hne hz
    refine ⟨?_, a1, a2, a3, a4⟩
    rw [toQ_length, hl, n1]
  intro table ht
  simp only [List.mem_cons, List.mem_singleton, List.not_mem_nil, or_false] at ht
  rcases ht with h | h | h | h
  · rw [h]; exact aux _ l1 z1
  · rw [h]; exact aux _ l2 z2
  · rw [h]; exact aux _ l3 z3
  · rw [h]; exact aux _ l4 z4

/-- C18, witness: the legacy sample, whose tables have `n_vars + 1 = 3` entries. -/
theorem C18_tables_have_a_zero_slot_witness :
    ∃ s1 s2, BaseFeatures1.extract sampleLegacy = some s1 ∧
      BaseFeatures2.extract sampleLegacy = some s2 ∧
      1 ≤ s1.n_vars ∧ s2.n_vars = s1.n_vars ∧
      s1.variable_horn.length = s1.n_vars + 1 ∧
      s1.variable_inv_horn.length = s1.n_vars + 1 ∧
      s2.vcg_vdegree.length = s1.n_vars + 1 ∧
      s2.vg_degree.length = s1.n_vars + 1 ∧
      s1.variable_horn.getD 0 0 = 0 ∧ s1.variable_inv_horn.getD 0 0 = 0 ∧
      s2.vcg_vdegree.getD 0 0 = 0 ∧ s2.vg_degree.getD 0 0 = 0 := by
  obtain ⟨s1, s2, h1, h2, h3, h4, h5, h6, h7, h8, h9, h10, h11, h12, -⟩ :=
    C18_tables_have_a_zero_slot (fun _ => 0) sampleLegacy (by unfold varsPositive; decide)
      ⟨[Lit.ofInt 1, Lit.ofInt (-2)], by decide, by decide⟩ (by decide)
  exact ⟨s1, s2, h1, h2, h3, h4, h5, h6, h7, h8, h9, h10, h11, h12⟩

/-- C19: the Horn counters of `BaseFeatures1` satisfy `positive <= horn <= n_hard_clauses` and
`negative <= inv_horn <= n_hard_clauses`; a hard clause is counted in both `horn` and
`inv_horn` exactly when `n_pos <= 1` and `n_neg <= 1`, and then its size is at most 2; an empty
hard clause is counted in all four of `horn`, `inv_horn`, `positive` and `negative`; and, with
variable ids at least 1, the sum of `variable_horn` is the total number of literals of the
hard clauses counted in `horn`, likewise `variable_inv_horn` for `inv_horn`. -/
theorem C19_horn_counter_invariants (input : List Line) (hok : markersOK input 0 = true) :
    (∃ s, BaseFeatures1.extract input = some s ∧
      s.positive ≤ s.horn ∧ s.horn ≤ s.n_hard_clauses ∧
      s.negative ≤ s.inv_horn ∧ s.inv_horn ≤ s.n_hard_clauses ∧
      (varsPositive (clauses input) →
        s.variable_horn.sum =
          (((hardClauses input).filter (fun c => decide (negativeLits c ≤ 1))).map
            (fun c => c.length)).sum ∧
        s.variable_inv_horn.sum =
          (((hardClauses input).filter (fun c => decide (positiveLits c ≤ 1))).map
            (fun c => c.length)).sum)) ∧
    (∀ (s : BaseFeatures1) (c : Cl),
      ((s.record 0 c).horn = s.horn + 1 ∧ (s.record 0 c).inv_horn = s.inv_horn + 1) ↔
        (n_pos c ≤ 1 ∧ n_neg c ≤ 1)) ∧
    (∀ c : Cl, n_pos c ≤ 1 → n_neg c ≤ 1 → c.length ≤ 2) ∧
    (∀ s : BaseFeatures1,
      (s.record 0 []).horn = s.horn + 1 ∧ (s.record 0 []).inv_horn = s.inv_horn + 1 ∧
      (s.record 0 []).positive = s.positive + 1 ∧
      (s.record 0 []).negative = s.negative + 1) := by
  refine ⟨?_, ?_, ?_, ?_⟩
  · have e1 := BaseFeatures1.extract1_eq input
    rw [if_pos hok] at e1
    obtain ⟨c1, c2, c3, c4, c5, -, -, -⟩ := BaseFeatures1.extract_counts input
    refine ⟨_, e1, ?_, ?_, ?_, ?_, ?_⟩
    · rw [c2, c3]
      apply List.countP_mono_left
      intro c _ h
      simp only [decide_eq_true_eq] at h ⊢
      omega
    · rw [c1, c2]
      exact List.countP_le_length _
    · rw [c4, c5]
      apply List.countP_mono_left
      intro c _ h
      simp only [decide_eq_true_eq] at h ⊢
      omega
    · rw [c1, c4]
      exact List.countP_le_length _
    · intro hpos
      have hp1 : varsPositive ((records input 0).map (fun r => r.2)) := by
        rw [records_clauses]; exact hpos
      obtain ⟨-, -, z3, z4⟩ :=
        BaseFeatures1.run_zero_sum BaseFeatures1.init (records input 0) sized1_init hp1
      simp only [n_neg_eq, n_pos_eq] at z3 z4
      refine ⟨?_, ?_⟩
      · show (BaseFeatures1.init.run (records input 0)).variable_horn.sum = _
        rw [z3]
        show 0 + _ = _
        rw [Nat.zero_add]
        rfl
      · show (BaseFeatures1.init.run (records input 0)).variable_inv_horn.sum = _
        rw [z4]
        show 0 + _ = _
        rw [Nat.zero_add]
        rfl
  · intro s c
    obtain ⟨-, a2, -, a4, -⟩ := BaseFeatures1.record_counts s 0 c
    rw [a2, a4]
    by_cases h1 : n_neg c ≤ 1 <;> by_cases h2 : n_pos c ≤ 1 <;> simp [h1, h2]
  · intro c h1 h2
    have h3 : n_neg c ≤ c.length := List.countP_le_length _
    unfold n_pos at h1
    omega
  · intro s
    obtain ⟨-, a2, a3, a4, a5, -⟩ := BaseFeatures1.record_counts s 0 []
    have : n_neg [] = 0 := rfl
    have : n_pos [] = 0 := rfl
    rw [a2, a3, a4, a5]
    simp [*]

/-- C19, witness: the hard clauses `1 -2`, the empty clause and `1 2 3`, and a soft clause. -/
theorem C19_horn_counter_invariants_witness :
    ∃ s, BaseFeatures1.extract
        [Line.hard [Lit.ofInt 1, Lit.ofInt (-2)], Line.hard [], Line.weighted 2 [Lit.ofInt 1],
          Line.hard [Lit.ofInt 1, Lit.ofInt 2, Lit.ofInt 3]] = some s ∧
      s.positive ≤ s.horn ∧ s.horn ≤ s.n_hard_clauses ∧
      s.negative ≤ s.inv_horn ∧ s.inv_horn ≤ s.n_hard_clauses ∧
      s.variable_horn.sum = 5 ∧ s.variable_inv_horn.sum = 2 := by
  obtain ⟨s, h1, h2, h3, h4, h5, h6⟩ :=
    (C19_horn_counter_invariants
      [Line.hard [Lit.ofInt 1, Lit.ofInt (-2)], Line.hard [], Line.weighted 2 [Lit.ofInt 1],
        Line.hard [Lit.ofInt 1, Lit.ofInt 2, Lit.ofInt 3]] (by decide)).1
  obtain ⟨h7, h8⟩ := h6 (by unfold varsPositive; decide)
  refine ⟨s, h1, h2, h3, h4, h5, ?_, ?_⟩
  · rw [h7]; decide
  · rw [h8]; decide
end WCNF
